import Mathlib

/-!
# SPICE server channel core (`server/red_channel.c`)

A shallow embedding of the framed reader, the vectored writer, the send
pipeline, the ack window and the pipe of `red_channel.c`, followed by theorems
about them.

Conventions of the embedding.

* Bytes are natural numbers; a buffer is a list of bytes.
* The transport is scripted: the stream carries the list of results its next
  `read` calls will produce (`rd`) and the list of results its next `writev`
  calls will produce (`wr`).
* Callbacks of the channel subclass are recorded in a trace of events, in the
  order in which the code invokes them.
* A call that does not return (a failed `ASSERT`, a null pointer that is
  dereferenced, a loop that spins for ever) is `none`: the functions that can
  reach one return `Option`. The loops that a bound on the iterations makes
  structural are shown never to stop at the bound
  (`red_peer_handle_incoming_returns`, `push_exit`).
* 32-bit unsigned fields are natural numbers reduced modulo `2 ^ 32` at every
  arithmetic operation, the 64-bit message serial modulo `2 ^ 64`, the 16-bit
  message type modulo `2 ^ 16`.
-/

namespace Spice

/-! ## Wire header -/

/-- The fixed message header, decoded. -/
structure SpiceDataHeader where
  serial : Nat
  type : Nat
  size : Nat
  sub_list : Nat
  deriving DecidableEq, Repr

/-- Little-endian value of a run of bytes. -/
def le_decode : List Nat → Nat
  | [] => 0
  | b :: bs => b + 256 * le_decode bs

/-- Little-endian bytes of a value, `k` of them. -/
def le_encode : Nat → Nat → List Nat
  | 0, _ => []
  | k + 1, n => n % 256 :: le_encode k (n / 256)

/-- Modelled from the spec: `sizeof(SpiceDataHeader)`; the structure is declared
outside the sources, the spec gives its packed size as 18 bytes. -/
def SIZEOF_HEADER : Nat := 18

/-- Modelled from the spec: the packed little-endian layout of `SpiceDataHeader`
(`serial: u64`, `type: u16`, `size: u32`, `sub_list: u32`), read from the raw
bytes the reader has stored in `handler->header`. -/
def header_of_bytes (b : List Nat) : SpiceDataHeader :=
  { serial := le_decode (b.take 8)
    type := le_decode ((b.drop 8).take 2)
    size := le_decode ((b.drop 10).take 4)
    sub_list := le_decode ((b.drop 14).take 4) }

/-- Modelled from the spec: the 18 bytes of a header on the wire. -/
def header_to_bytes (h : SpiceDataHeader) : List Nat :=
  le_encode 8 h.serial ++ le_encode 2 h.type ++ le_encode 4 h.size ++ le_encode 4 h.sub_list

/-! ## Pipe items and the event trace -/

/-- A pipe item: its discriminant and an identity standing for its address. -/
structure PipeItem where
  type : Nat
  id : Nat
  deriving DecidableEq, Repr

/-- Calls out of the core, in the order the code makes them. -/
inductive Event where
  | alloc_msg_buf (h : SpiceDataHeader)
  | release_msg_buf (h : SpiceDataHeader)
  | handle_message (h : SpiceDataHeader) (msg : List Nat)
  | handle_parsed (size : Nat) (type : Nat) (parsed : List Nat)
  | on_incoming_error
  | on_outgoing_error
  | hold_item (item : PipeItem)
  | release_item (item : PipeItem) (item_pushed : Bool)
  | free_item (item : PipeItem)
  | send_item (item : PipeItem)
  | begin_message (h : SpiceDataHeader) (body : List Nat)
  | on_block
  | msg_done
  | watch_update_mask (mask : Nat)
  | watch_remove
  | socket_shutdown
  | stream_free
  | handle_migrate_flush_mark
  | handle_migrate_data (size : Nat) (message : List Nat)
  deriving DecidableEq, Repr

/-! ## Transport -/

/-- Range of the 32-bit unsigned fields (`ack_data.*`, `pipe_size`). -/
def U32 : Nat := 2 ^ 32

/-- Range of the 64-bit unsigned message serial. -/
def U64 : Nat := 2 ^ 64

/-- Range of the 16-bit unsigned message type. -/
def U16 : Nat := 2 ^ 16

/-- Result of one `reds_stream_read`: `data bs` is a read that has the bytes `bs`
to give (`data []` is a read returning 0), the others are a read returning -1
with the named `errno` (`other` is any further `errno`). One read gives fewer
than `2 ^ 31` bytes, its count being an `int` in `red_peer_receive`. -/
inductive ReadResult where
  | data (bs : List Nat)
  | eagain
  | eintr
  | epipe
  | other
  deriving DecidableEq, Repr

/-- Result of one `reds_stream_writev`: `accept k` is a write in which the
transport takes up to `k` of the bytes offered, the others are a write
returning -1 with the named `errno`. -/
inductive WriteResult where
  | accept (k : Nat)
  | eagain
  | eintr
  | epipe
  | other
  deriving DecidableEq, Repr

/-- The stream: its `shutdown` flag, its watch (the registered event mask, or
`none` for `NULL`), and the scripted transport. -/
structure RedsStream where
  shutdown : Bool
  watch : Option Nat
  rd : List ReadResult
  wr : List WriteResult
  written : List Nat
  socket_shut : Bool
  freed : Bool
  deriving DecidableEq, Repr

/-! ## Framed reader -/

/-- Stores `bs` into `buf` from offset `pos` on. -/
def buf_write (buf : List Nat) (pos : Nat) (bs : List Nat) : List Nat :=
  buf.take pos ++ bs ++ buf.drop (pos + bs.length)

/-- What a call of `red_peer_receive` has done: whether the value it returns is
-1, the bytes it has stored from `buf` on, and the read script that is left. -/
structure Received where
  failed : Bool
  bytes : List Nat
  rd : List ReadResult
  deriving DecidableEq, Repr

/-- The conversion of a count of bytes, `pos - buf`, to the 32-bit `int` that
`red_peer_receive` returns: the count modulo `2 ^ 32`, read as a signed value. -/
def int_of_count (n : Nat) : Int :=
  if n % U32 < U32 / 2 then (n % U32 : Nat) else ((n % U32 : Nat) : Int) - (U32 : Nat)

/-- The return value of `red_peer_receive`, an `int`: -1, or the count of the
bytes stored. -/
def Received.ret (r : Received) : Int :=
  if r.failed then -1 else int_of_count r.bytes.length

/-- The loop of `red_peer_receive` over the scripted reads; `failed` tells
whether it ends in a `return -1`. A read never gives more than `size` bytes: of
a longer `data` the rest stays first in the script, and `size` is then 0, which
ends the loop. An empty script is a transport with nothing to give, `EAGAIN`. -/
def red_peer_receive_loop (shutdown : Bool) : List ReadResult → Nat → Received
  | rd, 0 => { failed := false, bytes := [], rd := rd }
  | [], _ + 1 => { failed := shutdown, bytes := [], rd := [] }
  | ReadResult.data bs :: rest, n + 1 =>
    if shutdown then { failed := true, bytes := [], rd := ReadResult.data bs :: rest }
    else if bs.length = 0 then { failed := true, bytes := [], rd := rest }
    else if bs.length ≤ n + 1 then
      let r := red_peer_receive_loop shutdown rest (n + 1 - bs.length)
      { r with bytes := bs ++ r.bytes }
    else { failed := false, bytes := bs.take (n + 1),
           rd := ReadResult.data (bs.drop (n + 1)) :: rest }
  | ReadResult.eagain :: rest, _ + 1 =>
    if shutdown then { failed := true, bytes := [], rd := ReadResult.eagain :: rest }
    else { failed := false, bytes := [], rd := rest }
  | ReadResult.eintr :: rest, n + 1 =>
    if shutdown then { failed := true, bytes := [], rd := ReadResult.eintr :: rest }
    else red_peer_receive_loop shutdown rest (n + 1)
  | ReadResult.epipe :: rest, _ + 1 =>
    if shutdown then { failed := true, bytes := [], rd := ReadResult.epipe :: rest }
    else { failed := true, bytes := [], rd := rest }
  | ReadResult.other :: rest, _ + 1 =>
    if shutdown then { failed := true, bytes := [], rd := ReadResult.other :: rest }
    else { failed := true, bytes := [], rd := rest }

/-- Embedding of `red_peer_receive`: what the call has done, and the stream.
The value returned is -1 when the loop ends in one of its `return -1`, and also
when the count `pos - buf` of the final `return` is -1 as an `int`. -/
def red_peer_receive (stream : RedsStream) (size : Nat) : Received × RedsStream :=
  let r := red_peer_receive_loop stream.shutdown stream.rd size
  ({ r with failed := r.failed || decide (int_of_count r.bytes.length = -1) },
    { stream with rd := r.rd })

/-- What a handler callback did: its return value, and whether it set the
reader's `shut` flag (`red_channel_set_shut`) before returning. -/
structure HandlerResult where
  ret : Bool
  shut : Bool
  deriving DecidableEq, Repr

/-- The incoming callback table, as the behaviour of the subclass. `parser`
is `none` when no parser is configured; a parser returns `none` for `NULL`. -/
structure IncomingCb where
  alloc_msg_buf : SpiceDataHeader → Bool
  parser : Option (Nat → List Nat → Option (List Nat))
  handle_parsed : Nat → Nat → List Nat → HandlerResult
  handle_message : SpiceDataHeader → List Nat → HandlerResult

/-- The state of `IncomingHandler`: the raw header bytes, the fill counts and
the body buffer (`none` for `NULL`). -/
structure IncomingHandler where
  header : List Nat
  header_pos : Nat
  msg : Option (List Nat)
  msg_pos : Nat
  shut : Bool
  deriving DecidableEq, Repr

/-- What `red_peer_handle_incoming` works on. -/
structure ReaderState where
  stream : RedsStream
  handler : IncomingHandler
  trace : List Event
  deriving DecidableEq, Repr

/-- Either the function has returned, or control goes on to the next
statement. -/
inductive Flow where
  | ret (s : ReaderState)
  | go (s : ReaderState)

/-- Lines 84-97 of `red_peer_handle_incoming`: fill the header. -/
def incoming_header (s : ReaderState) : Flow :=
  if s.handler.header_pos < SIZEOF_HEADER then
    let r := red_peer_receive s.stream (SIZEOF_HEADER - s.handler.header_pos)
    let header := buf_write s.handler.header s.handler.header_pos r.1.bytes
    if r.1.failed then
      Flow.ret { stream := r.2, handler := { s.handler with header := header },
                 trace := s.trace ++ [Event.on_incoming_error] }
    else
      let h := { s.handler with
        header := header
        header_pos := s.handler.header_pos + r.1.bytes.length }
      if h.header_pos ≠ SIZEOF_HEADER then Flow.ret { s with stream := r.2, handler := h }
      else Flow.go { s with stream := r.2, handler := h }
  else Flow.go s

/-- Lines 109-120 of `red_peer_handle_incoming`: fill the body buffer `buf`,
which is at `handler->msg`. -/
def incoming_fill (s : ReaderState) (buf : List Nat) : Flow :=
  let hdr := header_of_bytes s.handler.header
  let r := red_peer_receive s.stream (hdr.size - s.handler.msg_pos)
  let msg := buf_write buf s.handler.msg_pos r.1.bytes
  if r.1.failed then
    Flow.ret { stream := r.2, handler := { s.handler with msg := some msg },
               trace := s.trace ++ [Event.release_msg_buf hdr, Event.on_incoming_error] }
  else
    let h := { s.handler with msg := some msg, msg_pos := s.handler.msg_pos + r.1.bytes.length }
    if h.msg_pos ≠ hdr.size then Flow.ret { s with stream := r.2, handler := h }
    else Flow.go { s with stream := r.2, handler := h }

/-- Lines 99-121 of `red_peer_handle_incoming`: allocate and fill the body. A
buffer the subclass grants has `header.size` bytes, taken to be zero. -/
def incoming_body (cb : IncomingCb) (s : ReaderState) : Flow :=
  let hdr := header_of_bytes s.handler.header
  if s.handler.msg_pos < hdr.size then
    match s.handler.msg with
    | none =>
      if cb.alloc_msg_buf hdr then
        incoming_fill { s with trace := s.trace ++ [Event.alloc_msg_buf hdr] }
          (List.replicate hdr.size 0)
      else
        Flow.ret { s with trace := s.trace ++ [Event.alloc_msg_buf hdr, Event.on_incoming_error] }
    | some buf => incoming_fill s buf
  else Flow.go s

/-- The body handed to the parser or the handler: the first `header.size`
bytes at `handler->msg`, nothing when the pointer is `NULL`. -/
def incoming_msg (s : ReaderState) : List Nat :=
  match s.handler.msg with
  | none => []
  | some buf => buf.take (header_of_bytes s.handler.header).size

/-- Lines 139-150 of `red_peer_handle_incoming`: after the handler has
returned `r`. -/
def incoming_after_handler (r : HandlerResult) (s : ReaderState) : Flow :=
  let shut := s.handler.shut || r.shut
  if shut then
    Flow.ret { s with handler := { s.handler with shut := shut },
                      trace := s.trace ++ [Event.on_incoming_error] }
  else
    let h := { s.handler with shut := shut, msg_pos := 0, msg := none, header_pos := 0 }
    if !r.ret then
      Flow.ret { s with handler := h, trace := s.trace ++ [Event.on_incoming_error] }
    else Flow.go { s with handler := h }

/-- Lines 123-150 of `red_peer_handle_incoming`: parse and dispatch. -/
def incoming_dispatch (cb : IncomingCb) (s : ReaderState) : Flow :=
  let hdr := header_of_bytes s.handler.header
  let msg := incoming_msg s
  match cb.parser with
  | some parser =>
    match parser hdr.type msg with
    | none => Flow.ret { s with trace := s.trace ++ [Event.on_incoming_error] }
    | some parsed =>
      incoming_after_handler (cb.handle_parsed parsed.length hdr.type parsed)
        { s with trace := s.trace ++ [Event.handle_parsed parsed.length hdr.type parsed] }
  | none =>
    incoming_after_handler (cb.handle_message hdr msg)
      { s with trace := s.trace ++ [Event.handle_message hdr msg] }

/-- The `for (;;)` of `red_peer_handle_incoming`, with a bound on the number of
iterations; `none` when the bound is reached. -/
def red_peer_handle_incoming_loop (cb : IncomingCb) : Nat → ReaderState → Option ReaderState
  | 0, _ => none
  | fuel + 1, s =>
    match incoming_header s with
    | Flow.ret s1 => some s1
    | Flow.go s1 =>
      match incoming_body cb s1 with
      | Flow.ret s2 => some s2
      | Flow.go s2 =>
        match incoming_dispatch cb s2 with
        | Flow.ret s3 => some s3
        | Flow.go s3 => red_peer_handle_incoming_loop cb fuel s3

/-- Number of bytes the scripted reads still hold. -/
def rd_bytes : List ReadResult → List Nat
  | [] => []
  | ReadResult.data bs :: rest => bs ++ rd_bytes rest
  | _ :: rest => rd_bytes rest

/-- Embedding of `red_peer_handle_incoming`. Every iteration but the first
reads a whole header, so the number of bytes in the script bounds the number of
iterations. -/
def red_peer_handle_incoming (cb : IncomingCb) (s : ReaderState) : Option ReaderState :=
  red_peer_handle_incoming_loop cb ((rd_bytes s.stream.rd).length + 2) s

/-- Successive READ events: `n` calls of `red_peer_handle_incoming`. -/
def red_peer_handle_incoming_n (cb : IncomingCb) : Nat → ReaderState → Option ReaderState
  | 0, s => some s
  | n + 1, s => (red_peer_handle_incoming cb s).bind (red_peer_handle_incoming_n cb n)

/-- The `handle_message` calls of a trace, in order. -/
def dispatched : List Event → List (SpiceDataHeader × List Nat)
  | [] => []
  | Event.handle_message h msg :: rest => (h, msg) :: dispatched rest
  | _ :: rest => dispatched rest

/-- A message on the wire: the 18 raw header bytes and the body. -/
structure WireMsg where
  header : List Nat
  body : List Nat
  deriving DecidableEq, Repr

/-- A legal message: an 18-byte header whose size field is the body length, the
body shorter than `2 ^ 32 - 1` bytes, the one count that is -1 as an `int`. -/
def WireMsg.legal (m : WireMsg) : Prop :=
  m.header.length = SIZEOF_HEADER ∧ (header_of_bytes m.header).size = m.body.length ∧
    m.body.length < U32 - 1

/-- The bytes of a sequence of messages. -/
def wire_bytes : List WireMsg → List Nat
  | [] => []
  | m :: rest => m.header ++ m.body ++ wire_bytes rest

/-- A transport that only delivers bytes or reports `EAGAIN`. -/
def rd_chunked : List ReadResult → Prop
  | [] => True
  | ReadResult.data bs :: rest => bs ≠ [] ∧ rd_chunked rest
  | ReadResult.eagain :: rest => rd_chunked rest
  | _ :: _ => False

/-- Number of `EAGAIN` results in a read script. -/
def rd_eagains : List ReadResult → Nat
  | [] => 0
  | ReadResult.eagain :: rest => rd_eagains rest + 1
  | _ :: rest => rd_eagains rest

/-- A stream as `reds_stream_new` leaves it, with the given transport. -/
def stream_new (rd : List ReadResult) (wr : List WriteResult) : RedsStream :=
  { shutdown := false, watch := none, rd := rd, wr := wr, written := [],
    socket_shut := false, freed := false }

/-- The zeroed `IncomingHandler` of a new client (`spice_malloc0`). -/
def incoming_new : IncomingHandler :=
  { header := List.replicate SIZEOF_HEADER 0, header_pos := 0, msg := none, msg_pos := 0,
    shut := false }

/-- The reader of a new client on a transport with read script `rd`. -/
def reader_new (rd : List ReadResult) : ReaderState :=
  { stream := stream_new rd [], handler := incoming_new, trace := [] }

/-- A subclass that accepts everything: no parser, `alloc_msg_buf` never
refuses, `handle_message` returns true and never sets `shut`. -/
def cb_accept : IncomingCb :=
  { alloc_msg_buf := fun _ => true
    parser := none
    handle_parsed := fun _ _ _ => { ret := true, shut := false }
    handle_message := fun _ _ => { ret := true, shut := false } }

/-- What `handle_message` is called with when it is given the message `m`. -/
def wire_event (m : WireMsg) : SpiceDataHeader × List Nat :=
  (header_of_bytes m.header, m.body)

/-- The reader between two calls, when the stream carries the legal messages
`done ++ rest` followed by nothing else but a prefix of `future`: the messages
`done` have been dispatched, and the reader holds a proper prefix of the frame
of the first message of `rest`, the bytes after it being still in the
transport. -/
structure ReaderInv (future : List Nat) (done rest : List WireMsg) (s : ReaderState) : Prop where
  shut : s.handler.shut = false
  shutdown : s.stream.shutdown = false
  chunked : rd_chunked s.stream.rd
  legal : ∀ m ∈ rest, m.legal
  disp : dispatched s.trace = done.map wire_event
  hlen : s.handler.header.length = SIZEOF_HEADER
  phase :
    (s.handler.header_pos < SIZEOF_HEADER ∧ s.handler.msg = none ∧ s.handler.msg_pos = 0 ∧
      s.handler.header.take s.handler.header_pos ++ rd_bytes s.stream.rd ++ future
        = wire_bytes rest) ∨
    (∃ m rest' buf, rest = m :: rest' ∧ s.handler.header_pos = SIZEOF_HEADER ∧
      s.handler.header = m.header ∧ s.handler.msg = some buf ∧ buf.length = m.body.length ∧
      s.handler.msg_pos < m.body.length ∧
      buf.take s.handler.msg_pos ++ rd_bytes s.stream.rd ++ future = m.body ++ wire_bytes rest')

/-- The message of the scenario "partial header then partial body": type 7,
a body of six bytes. -/
def scenario_msg : WireMsg :=
  { header := [1, 0, 0, 0, 0, 0, 0, 0, 7, 0, 6, 0, 0, 0, 0, 0, 0, 0]
    body := [10, 11, 12, 13, 14, 15] }

/-- The transport of the scenario: 5 bytes, then 13 bytes, then the body in
three chunks, an `EAGAIN` after each chunk but the last. -/
def scenario_rd : List ReadResult :=
  [ReadResult.data [1, 0, 0, 0, 0], ReadResult.eagain,
   ReadResult.data [0, 0, 0, 7, 0, 6, 0, 0, 0, 0, 0, 0, 0], ReadResult.eagain,
   ReadResult.data [10, 11], ReadResult.eagain,
   ReadResult.data [12, 13, 14], ReadResult.eagain,
   ReadResult.data [15]]

/-! ## Channel and client state -/

/-- The discriminant of the pipe item the core services itself. The enum is
declared in `red_channel.h`, outside the sources; only its being one fixed
value matters. -/
def PIPE_ITEM_TYPE_SET_ACK : Nat := 1

/-- Message types of the SPICE protocol used by the core (the enums are
declared outside the sources; the values are those of the protocol). -/
def SPICE_MSG_SET_ACK : Nat := 3

/-- Client message type `ACK_SYNC`. -/
def SPICE_MSGC_ACK_SYNC : Nat := 1

/-- Client message type `ACK`. -/
def SPICE_MSGC_ACK : Nat := 2

/-- Client message type `MIGRATE_FLUSH_MARK`. -/
def SPICE_MSGC_MIGRATE_FLUSH_MARK : Nat := 4

/-- Client message type `MIGRATE_DATA`. -/
def SPICE_MSGC_MIGRATE_DATA : Nat := 5

/-- Client message type `DISCONNECTING`. -/
def SPICE_MSGC_DISCONNECTING : Nat := 6

/-- Watch event mask bit for readability. -/
def SPICE_WATCH_EVENT_READ : Nat := 1

/-- Watch event mask bit for writability. -/
def SPICE_WATCH_EVENT_WRITE : Nat := 2

/-- The field `ack_data` of the client. -/
structure AckData where
  generation : Nat
  client_generation : Nat
  messages_window : Nat
  client_window : Nat
  deriving DecidableEq, Repr

/-- The marshaller, as far as the core sees it: the header space reserved at
offset 0 and the bytes the message body has been given. -/
structure SpiceMarshaller where
  header : SpiceDataHeader
  body : List Nat
  deriving DecidableEq, Repr

/-- The field `send_data` of the client. `header` tells whether the pointer
`send_data.header` is set; when it is it points at the marshaller's reserved
header. -/
structure SendData where
  marshaller : SpiceMarshaller
  header : Bool
  size : Nat
  item : Option PipeItem
  blocked : Bool
  serial : Nat
  deriving DecidableEq, Repr

/-- The fields of `OutgoingHandler` that carry state across calls. -/
structure OutgoingHandler where
  pos : Nat
  size : Nat
  deriving DecidableEq, Repr

/-- The client, `RedChannelClient`. -/
structure RedChannelClient where
  stream : RedsStream
  ack_data : AckData
  send_data : SendData
  outgoing : OutgoingHandler
  incoming : IncomingHandler
  during_send : Bool
  deriving DecidableEq, Repr

/-- The channel, `RedChannel`. The pipe is the ring as a sequence, the item
next to the ring head first; `rcc` tells whether `channel->rcc` is set, and
when it is it points at the one client. -/
structure RedChannel where
  handle_acks : Bool
  migrate : Bool
  rcc : Bool
  pipe : List PipeItem
  pipe_size : Nat
  deriving DecidableEq, Repr

/-- The channel, its client and the calls made so far. -/
structure World where
  channel : RedChannel
  client : RedChannelClient
  trace : List Event
  deriving DecidableEq, Repr

/-- What an error callback of the subclass does. -/
inductive ErrorAction where
  | ignore
  | shutdown
  | disconnect
  deriving DecidableEq, Repr

/-- The behaviour of the channel subclass. Its `send_item` calls
`red_channel_client_init_send_data` with the type `msg_type item`, marshals the
bytes `msg_body item` and calls `red_channel_client_begin_send_message`; its
`hold_item` and `release_item` are recorded in the trace. `on_error` is what
the `on_error` callbacks of both handlers end up doing. The migration hooks
are present or absent together. The message types are `uint16_t` values. -/
structure ChannelClass where
  msg_type : PipeItem → Nat
  msg_type_u16 : ∀ item, msg_type item < U16
  msg_body : PipeItem → List Nat
  on_error : ErrorAction
  handle_migrate_flush_mark : Bool
  handle_migrate_data : Bool
  handle_migrate_data_get_serial : Nat → List Nat → Nat

/-- Appends a call to the trace. -/
def World.log (w : World) (e : Event) : World :=
  { w with trace := w.trace ++ [e] }

/-! ## Ring primitives -/

/-- Modelled from the spec: `ring_add`, which pushes at the head of the ring
(`ring.h` is not among the sources). -/
def ring_add (ring : List PipeItem) (item : PipeItem) : List PipeItem :=
  item :: ring

/-- Modelled from the spec: `ring_add_before(item, ring)`, which for the ring
itself as position pushes at the tail. -/
def ring_add_tail (ring : List PipeItem) (item : PipeItem) : List PipeItem :=
  ring ++ [item]

/-- Modelled from the spec: `ring_add_after(item, pos)`, which inserts `item`
right after `pos`, on the side of the tail. -/
def ring_add_after (ring : List PipeItem) (item pos : PipeItem) : List PipeItem :=
  match ring with
  | [] => []
  | x :: rest => if x = pos then x :: item :: rest else x :: ring_add_after rest item pos

/-- Modelled from the spec: `ring_get_tail`, `none` for `NULL` on an empty
ring. -/
def ring_get_tail (ring : List PipeItem) : Option PipeItem :=
  ring.getLast?

/-- Modelled from the spec: `ring_get_head`. -/
def ring_get_head (ring : List PipeItem) : Option PipeItem :=
  ring.head?

/-- Modelled from the spec: `ring_remove`, which unlinks the item. -/
def ring_remove (ring : List PipeItem) (item : PipeItem) : List PipeItem :=
  ring.erase item

/-! ## Writer callbacks -/

/-- The call `core->watch_update_mask(stream->watch, mask)`. -/
def watch_update_mask (w : World) (mask : Nat) : World :=
  { w with
    client.stream.watch := w.client.stream.watch.map (fun _ => mask)
    trace := w.trace ++ [Event.watch_update_mask mask] }

/-- Embedding of `red_channel_client_peer_on_out_block`. -/
def red_channel_client_peer_on_out_block (w : World) : World :=
  watch_update_mask { w with client.send_data.blocked := true, trace := w.trace ++ [Event.on_block] }
    (SPICE_WATCH_EVENT_READ ||| SPICE_WATCH_EVENT_WRITE)

/-- Embedding of `red_channel_client_release_item`: the core frees a `SET_ACK`
item itself, every other item goes to the subclass. -/
def red_channel_client_release_item (w : World) (item : PipeItem) (item_pushed : Bool) : World :=
  if item.type = PIPE_ITEM_TYPE_SET_ACK then w.log (Event.free_item item)
  else w.log (Event.release_item item item_pushed)

/-- Embedding of `red_channel_client_release_sent_item`. -/
def red_channel_client_release_sent_item (w : World) : World :=
  match w.client.send_data.item with
  | some item =>
    let w1 := red_channel_client_release_item w item true
    { w1 with client.send_data.item := none }
  | none => w

/-- Embedding of `red_channel_peer_on_out_msg_done`. -/
def red_channel_peer_on_out_msg_done (w : World) : World :=
  let w1 := { w with client.send_data.size := 0, trace := w.trace ++ [Event.msg_done] }
  let w2 := red_channel_client_release_sent_item w1
  if w2.client.send_data.blocked then
    watch_update_mask { w2 with client.send_data.blocked := false } SPICE_WATCH_EVENT_READ
  else w2

/-- Embedding of `red_channel_client_clear_sent_item`. -/
def red_channel_client_clear_sent_item (w : World) : World :=
  let w1 := match w.client.send_data.item with
    | some item =>
      let w0 := red_channel_client_release_item w item true
      { w0 with client.send_data.item := none }
    | none => w
  { w1 with client.send_data.blocked := false, client.send_data.size := 0 }

/-- The loop of `red_channel_pipe_clear` over the items of the pipe, head
first. -/
def pipe_clear_items (w : World) : List PipeItem → World
  | [] => w
  | item :: rest => pipe_clear_items (red_channel_client_release_item w item false) rest

/-- Embedding of `red_channel_pipe_clear`. Without a client, releasing an
item that is not a `SET_ACK` goes through the null `channel->rcc`: the call does
not return. -/
def red_channel_pipe_clear (w : World) : Option World :=
  let w1 := if w.channel.rcc then red_channel_client_clear_sent_item w else w
  if !w1.channel.rcc && w1.channel.pipe.any (fun i => i.type ≠ PIPE_ITEM_TYPE_SET_ACK) then none
  else
    let w2 := pipe_clear_items w1 w1.channel.pipe
    some { w2 with channel.pipe := [], channel.pipe_size := 0 }

/-- Embedding of `red_channel_client_shutdown`; the pointer `rcc->stream` is
set at creation and never cleared. -/
def red_channel_client_shutdown (w : World) : World :=
  let w1 :=
    if !w.client.stream.shutdown then
      { w with
        client.stream.watch := none
        client.stream.socket_shut := true
        client.stream.shutdown := true
        client.incoming.shut := true
        trace := w.trace ++ [Event.watch_remove, Event.socket_shutdown] }
    else w
  red_channel_client_release_sent_item w1

/-- Embedding of `red_channel_shutdown`. -/
def red_channel_shutdown (w : World) : Option World :=
  red_channel_pipe_clear (if w.channel.rcc then red_channel_client_shutdown w else w)

/-- Embedding of `red_channel_client_disconnect`: the item in flight goes to
the subclass's `release_item` directly. -/
def red_channel_client_disconnect (w : World) : World :=
  let w1 := match w.client.send_data.item with
    | some item => w.log (Event.release_item item false)
    | none => w
  { w1 with
    client.stream.freed := true
    client.send_data.item := none
    client.send_data.blocked := false
    client.send_data.size := 0
    channel.rcc := false
    trace := w1.trace ++ [Event.stream_free] }

/-- Embedding of `red_channel_disconnect`. -/
def red_channel_disconnect (w : World) : Option World :=
  (red_channel_pipe_clear w).map
    (fun w1 => if w1.channel.rcc then red_channel_client_disconnect w1 else w1)

/-- The `on_error` callback of the outgoing handler, which ends in the
subclass. -/
def outgoing_on_error (cls : ChannelClass) (w : World) : Option World :=
  let w1 := w.log Event.on_outgoing_error
  match cls.on_error with
  | ErrorAction.ignore => some w1
  | ErrorAction.shutdown => red_channel_shutdown w1
  | ErrorAction.disconnect => red_channel_disconnect w1

/-! ## Vectored writer -/

/-- The bytes of the message in the marshaller: the header, then the body. -/
def marshaller_bytes (m : SpiceMarshaller) : List Nat :=
  header_to_bytes m.header ++ m.body

/-- Embedding of `spice_marshaller_get_total_size`. -/
def spice_marshaller_get_total_size (m : SpiceMarshaller) : Nat :=
  SIZEOF_HEADER + m.body.length

/-- The positive branch of the loop of `red_peer_handle_outgoing`: `n` bytes
were written. The result is `Sum.inl` when the message is done and the
function returns, `Sum.inr` when the loop goes round. The callback `on_output`
only feeds the statistics counter, which is left out. -/
def outgoing_written (w : World) (n : Nat) : World ⊕ World :=
  let bytes := ((marshaller_bytes w.client.send_data.marshaller).drop w.client.outgoing.pos).take n
  let w1 := { w with
    client.outgoing.pos := w.client.outgoing.pos + n
    client.stream.written := w.client.stream.written ++ bytes }
  if w1.client.outgoing.pos = w1.client.outgoing.size then
    let w2 := red_channel_peer_on_out_msg_done w1
    Sum.inl { w2 with client.outgoing.pos := 0, client.outgoing.size := 0 }
  else Sum.inr w1

/-- The bytes `prepare` offers to `writev`: those of the marshaller from
`pos` on. -/
def outgoing_offered (w : World) : Nat :=
  (marshaller_bytes w.client.send_data.marshaller).length - w.client.outgoing.pos

/-- The `for (;;)` of `red_peer_handle_outgoing` over the scripted writes. The
script that is left is stored in the stream before any callback runs. With the
script exhausted the transport takes all it is offered; if that does not end
the message the loop spins on writes of nothing and the call does not
return. -/
def red_peer_handle_outgoing_loop (cls : ChannelClass) : List WriteResult → World → Option World
  | [], w =>
    match outgoing_written { w with client.stream.wr := [] } (outgoing_offered w) with
    | Sum.inl w1 => some w1
    | Sum.inr _ => none
  | WriteResult.accept k :: rest, w =>
    match outgoing_written { w with client.stream.wr := rest } (min k (outgoing_offered w)) with
    | Sum.inl w1 => some w1
    | Sum.inr w1 => red_peer_handle_outgoing_loop cls rest w1
  | WriteResult.eagain :: rest, w =>
    some (red_channel_client_peer_on_out_block { w with client.stream.wr := rest })
  | WriteResult.eintr :: rest, w =>
    red_peer_handle_outgoing_loop cls rest { w with client.stream.wr := rest }
  | WriteResult.epipe :: rest, w => outgoing_on_error cls { w with client.stream.wr := rest }
  | WriteResult.other :: rest, w => outgoing_on_error cls { w with client.stream.wr := rest }

/-- Embedding of `red_peer_handle_outgoing` on the client's stream and
outgoing handler, `get_msg_size` being `send_data.size`. -/
def red_peer_handle_outgoing (cls : ChannelClass) (w : World) : Option World :=
  if w.client.outgoing.size = 0 then
    let w1 := { w with client.outgoing.size := w.client.send_data.size }
    if w1.client.outgoing.size = 0 then some w1
    else red_peer_handle_outgoing_loop cls w1.client.stream.wr w1
  else red_peer_handle_outgoing_loop cls w.client.stream.wr w

/-- Embedding of `red_channel_client_send`. -/
def red_channel_client_send (cls : ChannelClass) (w : World) : Option World :=
  red_peer_handle_outgoing cls w

/-! ## Send pipeline -/

/-- Embedding of `red_channel_client_no_item_being_sent` for the client of the
world. -/
def red_channel_client_no_item_being_sent (w : World) : Bool :=
  w.client.send_data.size = 0

/-- Embedding of `red_channel_client_reset_send_data`; the serial is a 64-bit
counter. -/
def red_channel_client_reset_send_data (w : World) : World :=
  let serial := (w.client.send_data.serial + 1) % U64
  { w with
    client.send_data.marshaller :=
      { header := { serial := serial, type := 0, size := 0, sub_list := 0 }, body := [] }
    client.send_data.header := true
    client.send_data.serial := serial }

/-- Embedding of `red_channel_client_init_send_data`; `none` when an `ASSERT`
fails or the null `send_data.header` is written through. An `item` of `none`
is the null pointer. The parameter `msg_type` is a `uint16_t`: the function
sees the argument modulo `2 ^ 16`. -/
def red_channel_client_init_send_data (w : World) (msg_type : Nat) (item : Option PipeItem) :
    Option World :=
  if !red_channel_client_no_item_being_sent w then none
  else if msg_type % U16 = 0 then none
  else if !w.client.send_data.header then none
  else
    let w1 := { w with
      client.send_data.marshaller.header.type := msg_type % U16
      client.send_data.item := item }
    match item with
    | some i => some (w1.log (Event.hold_item i))
    | none => some w1

/-- Embedding of `red_channel_client_begin_send_message`; `none` when the null
`send_data.header` is read through. The total size of a message is taken to
fit the size fields. -/
def red_channel_client_begin_send_message (cls : ChannelClass) (w : World) : Option World :=
  if !w.client.send_data.header then none
  else if w.client.send_data.marshaller.header.type = 0 then some w
  else
    let size := spice_marshaller_get_total_size w.client.send_data.marshaller
    let w1 := { w with
      client.send_data.size := size
      client.send_data.marshaller.header.size := size - SIZEOF_HEADER
      client.ack_data.messages_window := (w.client.ack_data.messages_window + 1) % U32
      client.send_data.header := false }
    let w2 := w1.log (Event.begin_message w1.client.send_data.marshaller.header
      w1.client.send_data.marshaller.body)
    red_channel_client_send cls w2

/-- Modelled from the spec: `spice_marshall_msg_set_ack`, which appends the
body `SET_ACK{u32 generation, u32 window}` (the generated marshallers are not
among the sources). -/
def spice_marshall_msg_set_ack (m : SpiceMarshaller) (generation window : Nat) : SpiceMarshaller :=
  { m with body := m.body ++ le_encode 4 generation ++ le_encode 4 window }

/-- Embedding of `red_channel_client_send_set_ack`. -/
def red_channel_client_send_set_ack (cls : ChannelClass) (w : World) : Option World :=
  (red_channel_client_init_send_data w SPICE_MSG_SET_ACK none).bind fun w1 =>
    let generation := (w1.client.ack_data.generation + 1) % U32
    let w2 := { w1 with
      client.ack_data.generation := generation
      client.ack_data.messages_window := 0
      client.send_data.marshaller :=
        spice_marshall_msg_set_ack w1.client.send_data.marshaller generation
          w1.client.ack_data.client_window }
    red_channel_client_begin_send_message cls w2

/-- The `send_item` of the subclass, as `ChannelClass` describes it. -/
def channel_send_item (cls : ChannelClass) (w : World) (item : PipeItem) : Option World :=
  (red_channel_client_init_send_data w (cls.msg_type item) (some item)).bind fun w1 =>
    let w2 := { w1 with
      client.send_data.marshaller.body := w1.client.send_data.marshaller.body ++ cls.msg_body item }
    red_channel_client_begin_send_message cls w2

/-- Embedding of `red_channel_client_send_item`; the call is recorded in the
trace. -/
def red_channel_client_send_item (cls : ChannelClass) (w : World) (item : PipeItem) :
    Option World :=
  if !red_channel_client_no_item_being_sent w then none
  else
    let w1 := red_channel_client_reset_send_data (w.log (Event.send_item item))
    if item.type = PIPE_ITEM_TYPE_SET_ACK then red_channel_client_send_set_ack cls w1
    else channel_send_item cls w1 item

/-- Embedding of `red_channel_client_waiting_for_ack`; the product is that of
32-bit unsigned operands. -/
def red_channel_client_waiting_for_ack (w : World) : Bool :=
  w.channel.handle_acks &&
    decide (w.client.ack_data.messages_window > (w.client.ack_data.client_window * 2) % U32)

/-- Embedding of `red_channel_client_pipe_get` for the client of the world
(the pointer `rcc` is not null at its call site): the item, `none` for `NULL`,
and the state. The item removed is the tail of the ring. -/
def red_channel_client_pipe_get (w : World) : Option PipeItem × World :=
  if w.client.send_data.blocked || red_channel_client_waiting_for_ack w then (none, w)
  else
    match ring_get_tail w.channel.pipe with
    | none => (none, w)
    | some item =>
      (some item, { w with
        channel.pipe_size := (w.channel.pipe_size + U32 - 1) % U32
        channel.pipe := w.channel.pipe.dropLast })

/-- The `while` of `red_channel_client_push`, with a bound on the number of
iterations. -/
def red_channel_client_push_loop (cls : ChannelClass) : Nat → World → Option World
  | 0, w => some w
  | fuel + 1, w =>
    match red_channel_client_pipe_get w with
    | (none, w1) => some w1
    | (some item, w1) =>
      (red_channel_client_send_item cls w1 item).bind (red_channel_client_push_loop cls fuel)

/-- Embedding of `red_channel_client_push`. Nothing the loop calls adds to the
pipe, so its length bounds the number of iterations. -/
def red_channel_client_push (cls : ChannelClass) (w : World) : Option World :=
  if w.client.during_send then some w
  else
    let w1 := { w with client.during_send := true }
    (if w1.client.send_data.blocked then red_channel_client_send cls w1 else some w1).bind
      fun w2 =>
        (red_channel_client_push_loop cls w2.channel.pipe.length w2).map
          fun w3 => { w3 with client.during_send := false }

/-- Embedding of `red_channel_push`. -/
def red_channel_push (cls : ChannelClass) (w : World) : Option World :=
  if !w.channel.rcc then some w else red_channel_client_push cls w

/-- Embedding of `red_channel_client_init_outgoing_messages_window`. -/
def red_channel_client_init_outgoing_messages_window (cls : ChannelClass) (w : World) :
    Option World :=
  red_channel_client_push cls { w with client.ack_data.messages_window := 0 }

/-- Embedding of `red_channel_init_outgoing_messages_window`, which passes
`channel->rcc` on without a test: without a client the null pointer is written
through, and the call does not return. -/
def red_channel_init_outgoing_messages_window (cls : ChannelClass) (w : World) : Option World :=
  if !w.channel.rcc then none else red_channel_client_init_outgoing_messages_window cls w

/-! ## Inbound control messages -/

/-- Embedding of `red_channel_client_get_message_serial`. -/
def red_channel_client_get_message_serial (w : World) : Nat :=
  w.client.send_data.serial

/-- Embedding of `red_channel_client_set_message_serial`. -/
def red_channel_client_set_message_serial (w : World) (serial : Nat) : World :=
  { w with client.send_data.serial := serial % U64 }

/-- Embedding of `red_channel_handle_migrate_flush_mark`. -/
def red_channel_handle_migrate_flush_mark (cls : ChannelClass) (w : World) : World :=
  if cls.handle_migrate_flush_mark then w.log Event.handle_migrate_flush_mark else w

/-- Embedding of `red_channel_handle_migrate_data`; `none` when the `ASSERT`
fails. -/
def red_channel_handle_migrate_data (cls : ChannelClass) (w : World) (size : Nat)
    (message : List Nat) : Option World :=
  if !cls.handle_migrate_data then some w
  else if red_channel_client_get_message_serial w ≠ 0 then none
  else
    let w1 := red_channel_client_set_message_serial w
      (cls.handle_migrate_data_get_serial size message)
    some (w1.log (Event.handle_migrate_data size message))

/-- Embedding of `red_channel_client_handle_message`: the return value and the
state. The subtraction of `ACK` is that of 32-bit unsigned operands. -/
def red_channel_client_handle_message (cls : ChannelClass) (w : World) (size type : Nat)
    (message : List Nat) : Option (Bool × World) :=
  if type = SPICE_MSGC_ACK_SYNC then
    if size ≠ 4 then some (false, w)
    else some (true, { w with client.ack_data.client_generation := le_decode (message.take 4) })
  else if type = SPICE_MSGC_ACK then
    if w.client.ack_data.client_generation = w.client.ack_data.generation then
      (red_channel_client_push cls
        { w with client.ack_data.messages_window :=
            (w.client.ack_data.messages_window
              + (U32 - w.client.ack_data.client_window % U32)) % U32 }).map
        fun w1 => (true, w1)
    else some (true, w)
  else if type = SPICE_MSGC_DISCONNECTING then some (true, w)
  else if type = SPICE_MSGC_MIGRATE_FLUSH_MARK then
    some (true, red_channel_handle_migrate_flush_mark cls w)
  else if type = SPICE_MSGC_MIGRATE_DATA then
    (red_channel_handle_migrate_data cls w size message).map fun w1 => (true, w1)
  else some (false, w)

/-! ## Pipe operations -/

/-- Embedding of `red_channel_pipe_add`. -/
def red_channel_pipe_add (w : World) (item : PipeItem) : World :=
  { w with
    channel.pipe_size := (w.channel.pipe_size + 1) % U32
    channel.pipe := ring_add w.channel.pipe item }

/-- Embedding of `red_channel_pipe_add_push`. -/
def red_channel_pipe_add_push (cls : ChannelClass) (w : World) (item : PipeItem) : Option World :=
  red_channel_push cls
    { w with
      channel.pipe_size := (w.channel.pipe_size + 1) % U32
      channel.pipe := ring_add w.channel.pipe item }

/-- Embedding of `red_channel_pipe_add_after`. -/
def red_channel_pipe_add_after (w : World) (item pos : PipeItem) : World :=
  { w with
    channel.pipe_size := (w.channel.pipe_size + 1) % U32
    channel.pipe := ring_add_after w.channel.pipe item pos }

/-- Embedding of `red_channel_pipe_item_remove`. -/
def red_channel_pipe_item_remove (w : World) (item : PipeItem) : World :=
  { w with channel.pipe := ring_remove w.channel.pipe item }

/-- Embedding of `red_channel_pipe_add_tail`. -/
def red_channel_pipe_add_tail (cls : ChannelClass) (w : World) (item : PipeItem) : Option World :=
  red_channel_push cls
    { w with
      channel.pipe_size := (w.channel.pipe_size + 1) % U32
      channel.pipe := ring_add_tail w.channel.pipe item }

/-- Embedding of `red_channel_pipe_add_type`; `id` stands for the address of
the item allocated. -/
def red_channel_pipe_add_type (cls : ChannelClass) (w : World) (pipe_item_type id : Nat) :
    Option World :=
  red_channel_push cls (red_channel_pipe_add w { type := pipe_item_type, id := id })

/-- Embedding of `red_channel_client_push_set_ack`. -/
def red_channel_client_push_set_ack (cls : ChannelClass) (w : World) (id : Nat) : Option World :=
  red_channel_pipe_add_type cls w PIPE_ITEM_TYPE_SET_ACK id

/-- Embedding of `red_channel_client_pipe_remove_and_release`. -/
def red_channel_client_pipe_remove_and_release (w : World) (item : PipeItem) : World :=
  red_channel_client_release_item
    { w with
      channel.pipe_size := (w.channel.pipe_size + U32 - 1) % U32
      channel.pipe := ring_remove w.channel.pipe item }
    item false

/-- Successive calls of `red_channel_client_pipe_get`: the items returned, in
order, up to the first `NULL`, and the state. -/
def pipe_get_n : Nat → World → List PipeItem × World
  | 0, w => ([], w)
  | n + 1, w =>
    match red_channel_client_pipe_get w with
    | (none, w1) => ([], w1)
    | (some item, w1) => let r := pipe_get_n n w1; (item :: r.1, r.2)

/-! ## Creation -/

/-- The channel as `red_channel_create` returns it (`spice_malloc0`, then the
fields it sets). -/
def red_channel_create (migrate handle_acks : Bool) : RedChannel :=
  { handle_acks := handle_acks, migrate := migrate, rcc := false, pipe := [], pipe_size := 0 }

/-- The client `red_channel_client_create` builds (`spice_malloc0`, then the
fields it sets) and links to the channel; `CLIENT_ACK_WINDOW` is the constant of
that name, defined outside the sources. -/
def client_new (CLIENT_ACK_WINDOW : Nat) (channel : RedChannel) (stream : RedsStream)
    (trace : List Event) : World :=
  { channel := { channel with rcc := true }
    client :=
      { stream := { stream with watch := some SPICE_WATCH_EVENT_READ }
        ack_data :=
          { generation := 0
            client_generation := U32 - 1
            messages_window := U32 - 1
            client_window := CLIENT_ACK_WINDOW % U32 }
        send_data :=
          { marshaller :=
              { header := { serial := 0, type := 0, size := 0, sub_list := 0 }, body := [] }
            header := false
            size := 0
            item := none
            blocked := false
            serial := 0 }
        outgoing := { pos := 0, size := 0 }
        incoming := { header := List.replicate SIZEOF_HEADER 0, header_pos := 0, msg := none,
                      msg_pos := 0, shut := false }
        during_send := false }
    trace := trace }

/-- Embedding of `red_channel_client_create` on a channel with the given
state; `config_socket` is what the subclass's `config_socket` returns. The
result is `none` for `NULL`. -/
def red_channel_client_create (CLIENT_ACK_WINDOW : Nat) (channel : RedChannel)
    (stream : RedsStream) (config_socket : Bool) (trace : List Event) : Option World :=
  if !config_socket then none
  else some (client_new CLIENT_ACK_WINDOW channel stream trace)

/-- Embedding of `red_channel_client_ack_zero_messages_window`. -/
def red_channel_client_ack_zero_messages_window (w : World) : World :=
  { w with client.ack_data.messages_window := 0 }

/-- Embedding of `red_channel_client_ack_set_client_window`; the `int` argument
is stored in a 32-bit unsigned field. -/
def red_channel_client_ack_set_client_window (w : World) (client_window : Int) : World :=
  { w with client.ack_data.client_window := (client_window % (U32 : Int)).toNat }

/-- The items a trace shows to have been handed to `send_item`, in order. -/
def sent_items : List Event → List PipeItem
  | [] => []
  | Event.send_item item :: rest => item :: sent_items rest
  | _ :: rest => sent_items rest

/-- The messages a trace shows to have been begun, in order. -/
def begun_messages : List Event → List (SpiceDataHeader × List Nat)
  | [] => []
  | Event.begin_message h body :: rest => (h, body) :: begun_messages rest
  | _ :: rest => begun_messages rest

/-- The number of messages a trace shows to have been written to the end. -/
def done_count : List Event → Nat
  | [] => 0
  | Event.msg_done :: rest => done_count rest + 1
  | _ :: rest => done_count rest

/-- A transport whose writes never block and never fail: every scripted
`writev` takes some bytes (possibly not all, possibly none) or is
interrupted. -/
def wr_never_blocks (wr : List WriteResult) : Prop :=
  ∀ e ∈ wr, (∃ k, e = WriteResult.accept k) ∨ e = WriteResult.eintr

/-- The writer and the send state are idle: nothing is blocked or in flight,
and the transport never blocks. -/
structure SendIdle (w : World) : Prop where
  blocked : w.client.send_data.blocked = false
  size : w.client.send_data.size = 0
  item : w.client.send_data.item = none
  opos : w.client.outgoing.pos = 0
  osize : w.client.outgoing.size = 0
  wr : wr_never_blocks w.client.stream.wr

/-- The subclass begins a message for every item: its message types are not
zero. -/
def sends_one_message (cls : ChannelClass) : Prop :=
  ∀ item, cls.msg_type item ≠ 0

/-- The messages window above which the client waits for an ack: the 32-bit
product `client_window * 2`. -/
def ack_threshold (w : World) : Nat :=
  (w.client.ack_data.client_window * 2) % U32

/-- Enqueues the items with `red_channel_pipe_add`, in order. -/
def pipe_add_all (w : World) (items : List PipeItem) : World :=
  items.foldl red_channel_pipe_add w

/-- The state in which the writer leaves a message it has written to the end:
all the bytes from `pos` on are out, `on_msg_done` has run. -/
def outgoing_finish (w : World) (wr : List WriteResult) : World :=
  let bytes := (marshaller_bytes w.client.send_data.marshaller).drop w.client.outgoing.pos
  let w2 := red_channel_peer_on_out_msg_done
    { w with
      client.outgoing.pos := w.client.outgoing.size
      client.stream.written := w.client.stream.written ++ bytes
      client.stream.wr := wr }
  { w2 with client.outgoing.pos := 0, client.outgoing.size := 0 }

/-- The header the subclass's message for `item` goes out with when the send
serial was `serial` before. -/
def item_header (cls : ChannelClass) (serial : Nat) (item : PipeItem) : SpiceDataHeader :=
  { serial := (serial + 1) % U64, type := cls.msg_type item,
    size := (cls.msg_body item).length, sub_list := 0 }

/-- The state after `red_channel_client_send_item` has sent the subclass's
message for `item` from an idle state on a transport that never blocks, `wr`
being the write script that is left. -/
def sent_one (cls : ChannelClass) (w : World) (item : PipeItem) (wr : List WriteResult) : World :=
  let hdr := item_header cls w.client.send_data.serial item
  { w with
    client.send_data :=
      { marshaller := { header := hdr, body := cls.msg_body item }
        header := false, size := 0, item := none, blocked := false
        serial := (w.client.send_data.serial + 1) % U64 }
    client.ack_data.messages_window := (w.client.ack_data.messages_window + 1) % U32
    client.stream.written := w.client.stream.written ++ (header_to_bytes hdr ++ cls.msg_body item)
    client.stream.wr := wr
    client.outgoing := { pos := 0, size := 0 }
    trace := w.trace ++ [Event.send_item item, Event.hold_item item,
      Event.begin_message hdr (cls.msg_body item), Event.msg_done,
      Event.release_item item true] }

/-- A subclass for the scenarios: the message of an item has the type
`100 + item.type % 256` and the one-byte body `[item.id]`; errors are ignored, the
migration hooks are set and the serial of migration data is the little-endian
value of its first eight bytes. -/
def scenario_cls : ChannelClass :=
  { msg_type := fun item => 100 + item.type % 256
    msg_type_u16 := fun item => Nat.lt_of_lt_of_le
      (Nat.add_lt_add_left (Nat.mod_lt item.type (by decide)) 100) (by decide)
    msg_body := fun item => [item.id]
    on_error := ErrorAction.ignore
    handle_migrate_flush_mark := true
    handle_migrate_data := true
    handle_migrate_data_get_serial := fun _ message => le_decode (message.take 8) }

/-- The items of the scenarios: `n` items of the subclass type 101, with the
identities `0`, ..., `n - 1` in the order they are enqueued. -/
def scenario_items (n : Nat) : List PipeItem :=
  (List.range n).map fun i => { type := 101, id := i }

/-- The client of the ack-throttle scenario: a new client on a channel that
handles acks, on a transport with nothing scripted, with
`ack_data.client_window = client_window` and its messages window zeroed. -/
def throttle_world (client_window : Nat) : World :=
  red_channel_client_ack_zero_messages_window
    { client_new 20 (red_channel_create false true) (stream_new [] []) [] with
      client.ack_data.client_window := client_window }

/-- The ack-throttle scenario up to the stall: `n` items enqueued on the
client with `client_window = 10`, and the pump run. -/
def stalled_world (n : Nat) : Option World :=
  red_channel_push scenario_cls (pipe_add_all (throttle_world 10) (scenario_items n))

/-- The peer's `ACK_SYNC` carrying the generation the server has now. -/
def ack_sync_current (w : World) : Option (Bool × World) :=
  red_channel_client_handle_message scenario_cls w 4 SPICE_MSGC_ACK_SYNC
    (le_encode 4 w.client.ack_data.generation)

/-- The header the `SET_ACK` message goes out with when the send serial was
`serial` before. -/
def set_ack_header (serial : Nat) : SpiceDataHeader :=
  { serial := (serial + 1) % U64, type := SPICE_MSG_SET_ACK, size := 8, sub_list := 0 }

/-- The body of the `SET_ACK` message sent from the state `w`. -/
def set_ack_body (w : World) : List Nat :=
  le_encode 4 ((w.client.ack_data.generation + 1) % U32)
    ++ le_encode 4 w.client.ack_data.client_window

/-- The state after `red_channel_client_send_item` has serviced a `SET_ACK`
item from an idle state on a transport that never blocks, `wr` being the write
script that is left. -/
def sent_set_ack (w : World) (item : PipeItem) (wr : List WriteResult) : World :=
  { w with
    client.send_data :=
      { marshaller := { header := set_ack_header w.client.send_data.serial, body := set_ack_body w }
        header := false, size := 0, item := none, blocked := false
        serial := (w.client.send_data.serial + 1) % U64 }
    client.ack_data.generation := (w.client.ack_data.generation + 1) % U32
    client.ack_data.messages_window := 1
    client.stream.written := w.client.stream.written
      ++ (header_to_bytes (set_ack_header w.client.send_data.serial) ++ set_ack_body w)
    client.stream.wr := wr
    client.outgoing := { pos := 0, size := 0 }
    trace := w.trace ++ [Event.send_item item,
      Event.begin_message (set_ack_header w.client.send_data.serial) (set_ack_body w),
      Event.msg_done] }

/-- Successive pipe items processed by `red_channel_client_send_item`. -/
def send_items (cls : ChannelClass) : World → List PipeItem → Option World
  | w, [] => some w
  | w, item :: rest =>
    (red_channel_client_send_item cls w item).bind fun w1 => send_items cls w1 rest

/-- The header serials of the messages a trace shows to have been begun. -/
def begun_serials (trace : List Event) : List Nat :=
  (begun_messages trace).map fun m => m.1.serial

/-- A subclass whose `handle_message` returns true after having set the
reader's `shut` flag, as a handler that calls `red_channel_set_shut` does. -/
def cb_shut : IncomingCb :=
  { alloc_msg_buf := fun _ => true
    parser := none
    handle_parsed := fun _ _ _ => { ret := true, shut := true }
    handle_message := fun _ _ => { ret := true, shut := true } }

/-- A subclass with a parser that rejects every message. -/
def cb_reject : IncomingCb :=
  { alloc_msg_buf := fun _ => true
    parser := some fun _ _ => none
    handle_parsed := fun _ _ _ => { ret := true, shut := false }
    handle_message := fun _ _ => { ret := true, shut := false } }

/-- A transport that delivers the message of the scenario twice: the header,
the body, and the same again. -/
def scenario_rd_twice : List ReadResult :=
  [ReadResult.data scenario_msg.header, ReadResult.data scenario_msg.body,
   ReadResult.data scenario_msg.header, ReadResult.data scenario_msg.body]

/-- The reader of a new client once it has read the header at the front of
`scenario_rd_twice`. -/
def reader_header_in : ReaderState :=
  { stream := stream_new
      [ReadResult.data scenario_msg.body, ReadResult.data scenario_msg.header,
       ReadResult.data scenario_msg.body] []
    handler := { incoming_new with header := scenario_msg.header, header_pos := SIZEOF_HEADER }
    trace := [] }

/-- The reader of a new client once it has read the first message of
`scenario_rd_twice`, before the dispatch. -/
def reader_body_in : ReaderState :=
  { stream := stream_new
      [ReadResult.data scenario_msg.header, ReadResult.data scenario_msg.body] []
    handler := { header := scenario_msg.header, header_pos := SIZEOF_HEADER,
                 msg := some scenario_msg.body, msg_pos := 6, shut := false }
    trace := [Event.alloc_msg_buf (header_of_bytes scenario_msg.header)] }

/-- A transport that fails in the middle of the body of the scenario's
message: the header, two bytes of the body, then `EPIPE`. -/
def scenario_rd_broken : List ReadResult :=
  [ReadResult.data scenario_msg.header, ReadResult.eagain, ReadResult.data [10, 11],
   ReadResult.eagain, ReadResult.epipe]

/-- The reader of a new client after two calls on `scenario_rd_broken`: the
header is complete, the buffer holds two bytes of the body. -/
def reader_body_partial : ReaderState :=
  { stream := stream_new [ReadResult.epipe] []
    handler := { header := scenario_msg.header, header_pos := SIZEOF_HEADER,
                 msg := some [10, 11, 0, 0, 0, 0], msg_pos := 2, shut := false }
    trace := [Event.alloc_msg_buf (header_of_bytes scenario_msg.header)] }

/-- The call `red_channel_client_release_item` ends in for `item`: `free` for
a `SET_ACK` item, the subclass's `release_item` with `item_pushed` for every
other item. -/
def release_call (item : PipeItem) (item_pushed : Bool) : Event :=
  if item.type = PIPE_ITEM_TYPE_SET_ACK then Event.free_item item
  else Event.release_item item item_pushed

/-- Embedding of `red_channel_set_shut`. -/
def red_channel_set_shut (w : World) : World :=
  if w.channel.rcc then { w with client.incoming.shut := true } else w

/-- The scenario "blocked in the middle of a message", before the pump runs:
a new client on a channel without acks, two items of the subclass in the pipe,
and a transport that takes 5 bytes and then reports `EAGAIN`. -/
def midsend_start : World :=
  pipe_add_all
    (client_new 20 (red_channel_create false false)
      (stream_new [] [WriteResult.accept 5, WriteResult.eagain]) [])
    (scenario_items 2)

/-- The scenario "blocked in the middle of a message": the pump has begun the
19-byte message of the first item and the writer is blocked after 5 bytes. -/
def midsend_world : Option World :=
  red_channel_push scenario_cls midsend_start

/-- The state of the scenario "blocked in the middle of a message"; the pump
of `midsend_world` returns. -/
def midsend_state : World :=
  midsend_world.getD midsend_start

/-- The item in flight in the scenario "blocked in the middle of a message". -/
def midsend_item : PipeItem :=
  { type := 101, id := 0 }

/-- Embedding of `red_channel_client_receive`: the framed reader on the
client's stream and incoming handler, its callbacks being those of `cb`. -/
def red_channel_client_receive (cb : IncomingCb) (w : World) : Option World :=
  (red_peer_handle_incoming cb
    { stream := w.client.stream, handler := w.client.incoming, trace := w.trace }).map
    fun s => { w with client.stream := s.stream, client.incoming := s.handler, trace := s.trace }

/-- Embedding of `red_channel_client_event`, the callback of the watch. -/
def red_channel_client_event (cls : ChannelClass) (cb : IncomingCb) (w : World) (event : Nat) :
    Option World :=
  (if event &&& SPICE_WATCH_EVENT_READ ≠ 0 then red_channel_client_receive cb w
    else some w).bind fun w1 =>
      if event &&& SPICE_WATCH_EVENT_WRITE ≠ 0 then red_channel_client_push cls w1 else some w1

/-- The number of bytes a write script takes when everything offered to it is
longer: the sum of its `accept`s. -/
def wr_total : List WriteResult → Nat
  | [] => 0
  | WriteResult.accept k :: rest => k + wr_total rest
  | _ :: rest => wr_total rest

/-- The state in which `red_channel_client_send_item` leaves the client when
the transport has taken `p` bytes of the subclass's message for `item` and then
reported `EAGAIN`, `wr` being the write script that is left. -/
def blocked_one (cls : ChannelClass) (w : World) (item : PipeItem) (p : Nat)
    (wr : List WriteResult) : World :=
  let hdr := item_header cls w.client.send_data.serial item
  { w with
    client.send_data :=
      { marshaller := { header := hdr, body := cls.msg_body item }
        header := false, size := SIZEOF_HEADER + (cls.msg_body item).length
        item := some item, blocked := true
        serial := (w.client.send_data.serial + 1) % U64 }
    client.ack_data.messages_window := (w.client.ack_data.messages_window + 1) % U32
    client.stream :=
      { w.client.stream with
        written := w.client.stream.written ++ (header_to_bytes hdr ++ cls.msg_body item).take p
        wr := wr
        watch := w.client.stream.watch.map
          fun _ => SPICE_WATCH_EVENT_READ ||| SPICE_WATCH_EVENT_WRITE }
    client.outgoing := { pos := p, size := SIZEOF_HEADER + (cls.msg_body item).length }
    trace := w.trace ++ [Event.send_item item, Event.hold_item item,
      Event.begin_message hdr (cls.msg_body item), Event.on_block,
      Event.watch_update_mask (SPICE_WATCH_EVENT_READ ||| SPICE_WATCH_EVENT_WRITE)] }

/-- The subclass of the backpressure scenario: every item gives a message of
type 201 with a body of 99982 zero bytes, 100000 bytes with the header. -/
def backpressure_cls : ChannelClass :=
  { scenario_cls with msg_body := fun _ => List.replicate 99982 0 }

/-- The client of the backpressure scenario: a new client on a channel without
acks, one item in the pipe, and a transport that takes 40000 bytes and then
reports `EAGAIN`. -/
def backpressure_world : World :=
  pipe_add_all
    (client_new 20 (red_channel_create false false)
      (stream_new [] [WriteResult.accept 40000, WriteResult.eagain]) [])
    [midsend_item]

/-- The number of `hold_item` calls a trace shows on the item `x`. -/
def hold_count (x : PipeItem) : List Event → Nat
  | [] => 0
  | Event.hold_item i :: rest => (if i = x then 1 else 0) + hold_count x rest
  | _ :: rest => hold_count x rest

/-- The number of `release_item` calls a trace shows on the item `x`, with
either value of `item_pushed`. -/
def release_count (x : PipeItem) : List Event → Nat
  | [] => 0
  | Event.release_item i _ :: rest => (if i = x then 1 else 0) + release_count x rest
  | _ :: rest => release_count x rest

/-- The bookkeeping of `hold_item` and `release_item` the code keeps, on the
pipe, the item in flight, `send_data.size` and the trace, `enq` being the items
enqueued so far: the pipe has no item twice; the item in flight is an item of
the subclass that was enqueued and has left the pipe, it has been held once and
not released, and its message is under way; an item in the pipe has been
neither held nor released; an item of the subclass that was enqueued and is
neither in the pipe nor in flight has been released once and held at most once;
no other item has been held or released. -/
structure Held (enq pipe : List PipeItem) (item : Option PipeItem) (size : Nat)
    (tr : List Event) : Prop where
  nodup : pipe.Nodup
  flight : ∀ x, item = some x →
    x ∉ pipe ∧ x.type ≠ PIPE_ITEM_TYPE_SET_ACK ∧ size ≠ 0 ∧ x ∈ enq ∧
      hold_count x tr = 1 ∧ release_count x tr = 0
  queued : ∀ x ∈ pipe, x ∈ enq ∧ hold_count x tr = 0 ∧ release_count x tr = 0
  gone : ∀ x, x ∉ pipe → item ≠ some x →
    (x ∈ enq → x.type ≠ PIPE_ITEM_TYPE_SET_ACK →
      release_count x tr = 1 ∧ hold_count x tr ≤ 1) ∧
    (x ∉ enq ∨ x.type = PIPE_ITEM_TYPE_SET_ACK →
      hold_count x tr = 0 ∧ release_count x tr = 0)

/-- The bookkeeping of `hold_item` and `release_item` in a state. -/
def HoldInv (enq : List PipeItem) (w : World) : Prop :=
  Held enq w.channel.pipe w.client.send_data.item w.client.send_data.size w.trace

/-- The operations on the pipe and the item in flight that the owner of the
channel and the event loop apply to a client: enqueueing, the pump, a WRITE
event, clearing, removal of one item, shutdown and the two disconnects. -/
inductive PipeOp where
  | pipe_add (item : PipeItem)
  | pipe_add_push (item : PipeItem)
  | pipe_add_tail (item : PipeItem)
  | push
  | write_event
  | pipe_clear
  | pipe_remove_and_release (item : PipeItem)
  | shutdown
  | disconnect
  | client_disconnect
  deriving DecidableEq, Repr

/-- The item an operation enqueues, if it is an enqueue. -/
def PipeOp.enqueued : PipeOp → List PipeItem
  | PipeOp.pipe_add item => [item]
  | PipeOp.pipe_add_push item => [item]
  | PipeOp.pipe_add_tail item => [item]
  | _ => []

/-- The items a sequence of operations enqueues. -/
def enqueued_items : List PipeOp → List PipeItem
  | [] => []
  | op :: ops => op.enqueued ++ enqueued_items ops

/-- One operation: the function of `red_channel.c` it stands for. The result
is `none` when the call does not return, and when the operation is applied
outside its contract: `red_channel_client_pipe_remove_and_release` on an item
that is not in the pipe, `red_channel_client_disconnect` on a client that is
disconnected already. -/
def PipeOp.run (cls : ChannelClass) (cb : IncomingCb) (w : World) : PipeOp → Option World
  | PipeOp.pipe_add item => some (red_channel_pipe_add w item)
  | PipeOp.pipe_add_push item => red_channel_pipe_add_push cls w item
  | PipeOp.pipe_add_tail item => red_channel_pipe_add_tail cls w item
  | PipeOp.push => red_channel_push cls w
  | PipeOp.write_event => red_channel_client_event cls cb w SPICE_WATCH_EVENT_WRITE
  | PipeOp.pipe_clear => red_channel_pipe_clear w
  | PipeOp.pipe_remove_and_release item =>
    if item ∈ w.channel.pipe then some (red_channel_client_pipe_remove_and_release w item)
    else none
  | PipeOp.shutdown => red_channel_shutdown w
  | PipeOp.disconnect => red_channel_disconnect w
  | PipeOp.client_disconnect =>
    if w.channel.rcc then some (red_channel_client_disconnect w) else none

/-- A sequence of operations, from the state `w`. -/
def run_ops (cls : ChannelClass) (cb : IncomingCb) : World → List PipeOp → Option World
  | w, [] => some w
  | w, op :: ops => (op.run cls cb w).bind fun w1 => run_ops cls cb w1 ops

/-- The operations of the scenario "hold and release": two items are
enqueued, the pump begins the message of the first and blocks, the pipe is
cleared. -/
def hold_scenario_ops : List PipeOp :=
  [PipeOp.pipe_add { type := 101, id := 0 }, PipeOp.pipe_add { type := 101, id := 1 },
   PipeOp.push, PipeOp.pipe_clear]

/-- The client of the scenario "hold and release": a new client on a channel
without acks, and a transport that takes 5 bytes and then reports `EAGAIN`. -/
def hold_scenario_start : World :=
  client_new 20 (red_channel_create false false)
    (stream_new [] [WriteResult.accept 5, WriteResult.eagain]) []

/-- The state at the end of the scenario "hold and release". -/
def hold_scenario_end : World :=
  (run_ops scenario_cls cb_accept hold_scenario_start hold_scenario_ops).getD hold_scenario_start

/-- Read results that neither stop `red_peer_receive` nor fail it: reads that
give bytes, and `EINTR`. -/
def rd_quiet (rd : List ReadResult) : Prop :=
  ∀ e ∈ rd, e = ReadResult.eintr ∨ ∃ bs, e = ReadResult.data bs ∧ bs ≠ []

/-- A read result at which `red_peer_receive` returns -1: a read returning 0,
`EPIPE`, or another error that is neither `EAGAIN` nor `EINTR`. -/
def rd_fatal (e : ReadResult) : Prop :=
  e = ReadResult.data [] ∨ e = ReadResult.epipe ∨ e = ReadResult.other

/-- A read script whose reads all give bytes, `2 ^ 32 - 1` bytes in all, each
read fewer than `2 ^ 31`. -/
def wrap_rd : List ReadResult :=
  [ReadResult.data (List.replicate 2147483647 0), ReadResult.data (List.replicate 2147483647 0),
   ReadResult.data [0]]

/-- The header of a message of type 7 whose `size` field is `2 ^ 32 - 1`. -/
def wrap_header : List Nat :=
  [1, 0, 0, 0, 0, 0, 0, 0, 7, 0, 255, 255, 255, 255, 0, 0, 0, 0]

/-- The bounds on the fill counts of the reader: `header_pos` is at most the
size of a header, `msg_pos` is at most the `size` field of the header, and no
byte of a body is in while the header is incomplete. -/
def reader_bounds (s : ReaderState) : Prop :=
  s.handler.header_pos ≤ SIZEOF_HEADER ∧
    s.handler.msg_pos ≤ (header_of_bytes s.handler.header).size ∧
    (s.handler.header_pos < SIZEOF_HEADER → s.handler.msg_pos = 0)

/-- A reader in the middle of a body: the header of a six-byte message is in,
and two bytes of the body. -/
def reader_mid_body : ReaderState :=
  { stream := stream_new [ReadResult.data [9, 9], ReadResult.eagain, ReadResult.data [9, 9]] []
    handler := { header := [1, 0, 0, 0, 0, 0, 0, 0, 7, 0, 6, 0, 0, 0, 0, 0, 0, 0]
                 header_pos := 18, msg := some [5, 5, 0, 0, 0, 0], msg_pos := 2, shut := false }
    trace := [] }

/-- The counter `pipe_size`, a 32-bit unsigned field, counts the items of the
pipe. -/
def pipe_counted (w : World) : Prop :=
  w.channel.pipe_size = w.channel.pipe.length % U32

/-- A new client with one item enqueued by `red_channel_pipe_add`. -/
def one_item_world : World :=
  red_channel_pipe_add (throttle_world 10) { type := 101, id := 0 }

/-- The statement `rcc->ack_data.messages_window -= rcc->ack_data.client_window`
of the `ACK` case of `red_channel_client_handle_message`, on 32-bit unsigned
operands. -/
def ack_subtract (w : World) : World :=
  { w with client.ack_data.messages_window :=
      (w.client.ack_data.messages_window
        + (U32 - w.client.ack_data.client_window % U32)) % U32 }

/-- A client on a channel that handles acks, in step with the peer's
generation, with `client_window = 10` and five messages sent since the last
`ACK`. -/
def ack_early_world : World :=
  { throttle_world 10 with
    client.ack_data.messages_window := 5
    client.ack_data.client_generation := 0 }

/-- The client of `one_item_world` in the middle of a push: `during_send` is
set. -/
def pushing_world : World :=
  { one_item_world with client.during_send := true }

/-- The send state between two calls of the core: a message is in flight only
while the client is blocked. -/
def send_state_settled (w : World) : Prop :=
  w.client.send_data.blocked = false → w.client.send_data.size = 0

/-- The state in which the writer leaves the client of a channel: settled, and
the channel still has its client unless the pipe has been emptied. -/
def pump_settled (w : World) : Prop :=
  send_state_settled w ∧ (w.channel.rcc = true ∨ w.channel.pipe = [])

/-- The assertions on `red_channel_client_no_item_being_sent` hold at every
call of `red_channel_client_send_item` that the loop of the pump makes from `w`:
the one in `red_channel_client_send_item` itself, and the one in
`red_channel_client_init_send_data`, which is called after
`red_channel_client_reset_send_data`. -/
def push_loop_asserts (cls : ChannelClass) : Nat → World → Prop
  | 0, _ => True
  | fuel + 1, w =>
    match red_channel_client_pipe_get w with
    | (none, _) => True
    | (some item, w1) =>
      red_channel_client_no_item_being_sent w1 = true ∧
      red_channel_client_no_item_being_sent
        (red_channel_client_reset_send_data (w1.log (Event.send_item item))) = true ∧
      ∀ w2, red_channel_client_send_item cls w1 item = some w2 → push_loop_asserts cls fuel w2

/-- The assertions hold throughout a call of `red_channel_client_push` from
`w`. -/
def client_push_asserts (cls : ChannelClass) (w : World) : Prop :=
  w.client.during_send = false →
    ∀ w2, (if w.client.send_data.blocked then
        red_channel_client_send cls { w with client.during_send := true }
      else some { w with client.during_send := true }) = some w2 →
      push_loop_asserts cls w2.channel.pipe.length w2

/-- The assertions hold throughout a call of `red_channel_push` from `w`. -/
def push_asserts (cls : ChannelClass) (w : World) : Prop :=
  w.channel.rcc = true → client_push_asserts cls w

/-- A subclass whose `on_error` shuts the channel down. -/
def shutdown_cls : ChannelClass :=
  { scenario_cls with on_error := ErrorAction.shutdown }

/-- A new client on a transport that takes 5 bytes, reports `EAGAIN`, takes 3
bytes and then fails with `EPIPE`. -/
def broken_pipe_start : World :=
  client_new 20 (red_channel_create false false)
    (stream_new [] [WriteResult.accept 5, WriteResult.eagain, WriteResult.accept 3,
      WriteResult.epipe]) []

/-- Two items are enqueued, the pump blocks in the message of the first, the
pump is called again and the write fails, a third item is enqueued. -/
def broken_pipe_ops : List PipeOp :=
  [PipeOp.pipe_add { type := 101, id := 0 }, PipeOp.pipe_add { type := 101, id := 1 },
   PipeOp.push, PipeOp.push, PipeOp.pipe_add { type := 101, id := 2 }]

/-- The state at the end of `broken_pipe_ops`. -/
def broken_pipe_end : World :=
  (run_ops shutdown_cls cb_accept broken_pipe_start broken_pipe_ops).getD broken_pipe_start

/-- A new client on a transport whose first write fails with `EPIPE`. -/
def epipe_start : World :=
  client_new 20 (red_channel_create false false) (stream_new [] [WriteResult.epipe]) []

/-- The client of the ack-throttle scenario with `client_window = 2 ^ 31`,
after two items have been enqueued and the pump has run. -/
def gate_wrap_world : World :=
  (red_channel_push scenario_cls
    (pipe_add_all (throttle_world (2 ^ 31)) (scenario_items 2))).getD (throttle_world (2 ^ 31))

/-- A client with one item in the pipe, after `red_channel_client_disconnect`:
the channel has no client, and the item is still in the pipe. -/
def orphan_item_world : World :=
  red_channel_client_disconnect one_item_world

/-- The state at the head of the `for (;;)` of `red_peer_handle_incoming` after
`j` iterations that went round to the head, in an invocation entered in `s`;
`none` when the function has returned before. -/
def incoming_rounds (cb : IncomingCb) : Nat → ReaderState → Option ReaderState
  | 0, s => some s
  | j + 1, s =>
    match incoming_header s with
    | Flow.ret _ => none
    | Flow.go s1 =>
      match incoming_body cb s1 with
      | Flow.ret _ => none
      | Flow.go s2 =>
        match incoming_dispatch cb s2 with
        | Flow.ret _ => none
        | Flow.go s3 => incoming_rounds cb j s3

/-- The state a phase of the reader ends in, returning or not. -/
def Flow.state : Flow → ReaderState
  | Flow.ret s => s
  | Flow.go s => s

/-- A subclass whose `handle_message` returns true, and sets the reader's
`shut` flag when the message has the type 8. -/
def cb_shut_second : IncomingCb :=
  { alloc_msg_buf := fun _ => true
    parser := none
    handle_parsed := fun _ _ _ => { ret := true, shut := false }
    handle_message := fun h _ => { ret := true, shut := decide (h.type = 8) } }

/-- A transport that delivers three messages with no `EAGAIN`: the message of
the scenario, a message of type 8 with a two-byte body, and the message of the
scenario again. -/
def scenario_rd_three : List ReadResult :=
  [ReadResult.data scenario_msg.header, ReadResult.data scenario_msg.body,
   ReadResult.data [2, 0, 0, 0, 0, 0, 0, 0, 8, 0, 2, 0, 0, 0, 0, 0, 0, 0],
   ReadResult.data [20, 21],
   ReadResult.data scenario_msg.header, ReadResult.data scenario_msg.body]

/-- The reader on `scenario_rd_three` at the head of the second iteration: the
first message has been dispatched. -/
def reader_second_head : ReaderState :=
  (incoming_rounds cb_shut_second 1 (reader_new scenario_rd_three)).getD
    (reader_new scenario_rd_three)

/-- The reader on `scenario_rd_three` with the header of the second message
in. -/
def reader_second_header : ReaderState :=
  (incoming_header reader_second_head).state

/-- The reader on `scenario_rd_three` with the second message in, before the
dispatch. -/
def reader_second_body : ReaderState :=
  (incoming_body cb_shut_second reader_second_header).state

set_option maxRecDepth 100000

theorem U32_eq : U32 = 4294967296 := by norm_num [U32]

theorem U16_eq : U16 = 65536 := by norm_num [U16]

theorem U64_eq : U64 = 18446744073709551616 := by norm_num [U64]

/-- A count below `2 ^ 32 - 1` is not -1 as an `int`. -/
theorem int_of_count_ne (n : Nat) (h : n < U32 - 1) : int_of_count n ≠ -1 := by
  unfold int_of_count
  simp only [U32_eq] at h ⊢
  split <;> omega

/-- The count `2 ^ 32 - 1` is -1 as an `int`. -/
theorem int_of_count_max (n : Nat) (h : n = U32 - 1) : int_of_count n = -1 := by
  unfold int_of_count
  simp only [U32_eq] at h ⊢
  split <;> omega

theorem buf_write_length (buf bs : List Nat) (pos : Nat) (h : pos + bs.length ≤ buf.length) :
    (buf_write buf pos bs).length = buf.length := by
  simp [buf_write]
  omega

theorem buf_write_take (buf bs : List Nat) (pos : Nat) (h : pos ≤ buf.length) :
    (buf_write buf pos bs).take (pos + bs.length) = buf.take pos ++ bs := by
  have h1 : (buf.take pos ++ bs).length = pos + bs.length := by simp; omega
  unfold buf_write
  rw [← h1, List.take_left]

theorem buf_write_full (buf bs : List Nat) (pos : Nat) (h : pos + bs.length = buf.length) :
    buf_write buf pos bs = buf.take pos ++ bs := by
  unfold buf_write
  rw [h, List.drop_length]; simp

/-- What `red_peer_receive_loop` does on a transport that only delivers bytes or
reports `EAGAIN`. -/
theorem receive_chunked (rd : List ReadResult) : ∀ (size : Nat), rd_chunked rd →
    ∃ bs rd', red_peer_receive_loop false rd size = { failed := false, bytes := bs, rd := rd' } ∧
      bs ++ rd_bytes rd' = rd_bytes rd ∧ bs.length ≤ size ∧ rd_chunked rd' ∧
      rd_eagains rd' ≤ rd_eagains rd ∧
      (bs.length < size → rd' = [] ∨ rd_eagains rd' < rd_eagains rd) := by
  induction rd with
  | nil =>
    intro size _
    cases size with
    | zero => exact ⟨[], [], by simp [red_peer_receive_loop, rd_bytes, rd_chunked]⟩
    | succ n => exact ⟨[], [], by simp [red_peer_receive_loop, rd_bytes, rd_chunked]⟩
  | cons e rest ih =>
    intro size hc
    cases size with
    | zero => exact ⟨[], e :: rest, by simp [red_peer_receive_loop, hc]⟩
    | succ n =>
      cases e with
      | data bs =>
        obtain ⟨hne, hrest⟩ : bs ≠ [] ∧ rd_chunked rest := hc
        have hlen : bs.length ≠ 0 := by simpa using hne
        by_cases hle : bs.length ≤ n + 1
        · obtain ⟨more, rd', h1, h2, h3, h4, h5, h6⟩ := ih (n + 1 - bs.length) hrest
          refine ⟨bs ++ more, rd', ?_, ?_, ?_, h4, ?_, ?_⟩
          · simp [red_peer_receive_loop, hlen, hle, h1]
          · simp [rd_bytes, h2]
          · simp; omega
          · simpa [rd_eagains] using h5
          · intro hlt
            have : more.length < n + 1 - bs.length := by simp at hlt; omega
            simpa [rd_eagains] using h6 this
        · refine ⟨bs.take (n + 1), ReadResult.data (bs.drop (n + 1)) :: rest, ?_, ?_, ?_, ?_, ?_, ?_⟩
          · simp [red_peer_receive_loop, hlen, hle]
          · simp [rd_bytes, ← List.append_assoc]
          · simp
          · refine ⟨?_, hrest⟩
            simp; omega
          · simp [rd_eagains]
          · intro hlt
            simp at hlt; omega
      | eagain =>
        refine ⟨[], rest, by simp [red_peer_receive_loop], by simp [rd_bytes], by simp, hc,
          by simp [rd_eagains], fun _ => Or.inr (by simp [rd_eagains])⟩
      | eintr => exact hc.elim
      | epipe => exact hc.elim
      | other => exact hc.elim

theorem red_peer_receive_chunked (st : RedsStream) (size : Nat) (hs : st.shutdown = false)
    (hc : rd_chunked st.rd) (hsz : size < U32 - 1) :
    ∃ bs rd', red_peer_receive st size
        = ({ failed := false, bytes := bs, rd := rd' }, { st with rd := rd' }) ∧
      bs ++ rd_bytes rd' = rd_bytes st.rd ∧ bs.length ≤ size ∧ rd_chunked rd' ∧
      rd_eagains rd' ≤ rd_eagains st.rd ∧
      (bs.length < size → rd' = [] ∨ rd_eagains rd' < rd_eagains st.rd) := by
  obtain ⟨bs, rd', h1, h2⟩ := receive_chunked st.rd size hc
  have hne : int_of_count bs.length ≠ -1 := int_of_count_ne _ (by have := h2.2.1; omega)
  exact ⟨bs, rd', by simp [red_peer_receive, hs, h1, hne], h2⟩

theorem dispatched_append (t1 t2 : List Event) :
    dispatched (t1 ++ t2) = dispatched t1 ++ dispatched t2 := by
  induction t1 with
  | nil => rfl
  | cons e t ih => cases e <;> simp [dispatched, ih]

/-- Dispatch of a complete message by a subclass that accepts everything. -/
theorem incoming_dispatch_accept (cb : IncomingCb) (hp : cb.parser = none)
    (hh : ∀ h m, cb.handle_message h m = { ret := true, shut := false })
    (s : ReaderState) (hs : s.handler.shut = false) :
    incoming_dispatch cb s = Flow.go
      { s with
        handler := { s.handler with msg_pos := 0, msg := none, header_pos := 0 }
        trace := s.trace ++ [Event.handle_message (header_of_bytes s.handler.header)
                  (incoming_msg s)] } := by
  obtain ⟨st, ⟨hd, hpos, msg, mpos, sh⟩, tr⟩ := s
  simp only at hs
  subst hs
  simp [incoming_dispatch, hp, hh, incoming_after_handler, incoming_msg]

theorem wire_bytes_append (a b : List WireMsg) :
    wire_bytes (a ++ b) = wire_bytes a ++ wire_bytes b := by
  induction a with
  | nil => rfl
  | cons m t ih => simp [wire_bytes, ih]

/-- Dispatching the complete message `m` leads to the state between messages. -/
theorem dispatch_step (cb : IncomingCb) (hp : cb.parser = none)
    (hh : ∀ h m, cb.handle_message h m = { ret := true, shut := false })
    (future : List Nat) (done rest : List WireMsg) (m : WireMsg) (s : ReaderState)
    (hshut : s.handler.shut = false) (hsd : s.stream.shutdown = false)
    (hc : rd_chunked s.stream.rd) (hl : ∀ x ∈ rest, x.legal)
    (hd : dispatched s.trace = done.map wire_event)
    (hlen : s.handler.header.length = SIZEOF_HEADER)
    (hhdr : s.handler.header = m.header) (hmsg : incoming_msg s = m.body)
    (hb : rd_bytes s.stream.rd ++ future = wire_bytes rest) :
    ∃ s3, incoming_dispatch cb s = Flow.go s3 ∧ ReaderInv future (done ++ [m]) rest s3 ∧
      s3.stream = s.stream := by
  refine ⟨_, incoming_dispatch_accept cb hp hh s hshut, ?_, rfl⟩
  constructor
  · exact hshut
  · exact hsd
  · exact hc
  · exact hl
  · simp [dispatched_append, dispatched, hd, wire_event, hhdr, hmsg]
  · exact hlen
  · left
    simpa [SIZEOF_HEADER] using hb

/-- The body phase and the dispatch after it, from a state that has the whole
header of `m`: either the call returns short of the body, or `m` is
dispatched. -/
theorem body_iter (cb : IncomingCb) (hp : cb.parser = none)
    (ha : ∀ h, cb.alloc_msg_buf h = true)
    (hh : ∀ h m, cb.handle_message h m = { ret := true, shut := false })
    (future : List Nat) (done rest : List WireMsg) (m : WireMsg) (s : ReaderState)
    (hshut : s.handler.shut = false) (hsd : s.stream.shutdown = false)
    (hc : rd_chunked s.stream.rd) (hl : ∀ x ∈ m :: rest, x.legal)
    (hd : dispatched s.trace = done.map wire_event)
    (hpos : s.handler.header_pos = SIZEOF_HEADER) (hhdr : s.handler.header = m.header)
    (pre : List Nat)
    (hph : (s.handler.msg = none ∧ s.handler.msg_pos = 0 ∧ pre = []) ∨
      (∃ buf, s.handler.msg = some buf ∧ buf.length = m.body.length ∧
        s.handler.msg_pos < m.body.length ∧ pre = buf.take s.handler.msg_pos))
    (hb : pre ++ rd_bytes s.stream.rd ++ future = m.body ++ wire_bytes rest) :
    (∃ s', incoming_body cb s = Flow.ret s' ∧ ReaderInv future done (m :: rest) s' ∧
      (s'.stream.rd = [] ∨ rd_eagains s'.stream.rd < rd_eagains s.stream.rd) ∧
      rd_eagains s'.stream.rd ≤ rd_eagains s.stream.rd) ∨
    (∃ s2 s3, incoming_body cb s = Flow.go s2 ∧ incoming_dispatch cb s2 = Flow.go s3 ∧
      ReaderInv future (done ++ [m]) rest s3 ∧
      (rd_bytes s3.stream.rd).length + (m.body.length - s.handler.msg_pos)
        = (rd_bytes s.stream.rd).length ∧
      rd_eagains s3.stream.rd ≤ rd_eagains s.stream.rd) := by
  have hml : m.legal := hl m (List.mem_cons_self _ _)
  have hrl : ∀ x ∈ rest, x.legal := fun x hx => hl x (List.mem_cons_of_mem _ hx)
  obtain ⟨st, ⟨hdr, hp0, msg, mpos, sh⟩, tr⟩ := s
  simp only at hshut hsd hc hd hpos hhdr hph hb
  subst hshut hpos hhdr
  have hsize : (header_of_bytes m.header).size = m.body.length := hml.2.1
  have hshort : m.body.length < U32 - 1 := hml.2.2
  have hlen : m.header.length = SIZEOF_HEADER := hml.1
  rcases hph with ⟨hm, hq, hpre⟩ | ⟨buf, hm, hbl, hq, hpre⟩
  · subst hm hq hpre
    by_cases hz : m.body.length = 0
    · right
      have hbody : m.body = [] := List.length_eq_zero.mp hz
      have e1 : incoming_body cb ⟨st, ⟨m.header, SIZEOF_HEADER, none, 0, false⟩, tr⟩
          = Flow.go ⟨st, ⟨m.header, SIZEOF_HEADER, none, 0, false⟩, tr⟩ := by
        simp [incoming_body, incoming_fill, hsize, hz]
      obtain ⟨s3, e3, inv3, hst⟩ := dispatch_step cb hp hh future done rest m
        ⟨st, ⟨m.header, SIZEOF_HEADER, none, 0, false⟩, tr⟩ rfl hsd hc hrl hd hlen rfl
        (by simp [incoming_msg, hbody]) (by simpa [hbody] using hb)
      exact ⟨_, s3, e1, e3, inv3, by simp [hst, hz], by simp [hst]⟩
    · obtain ⟨bs, rd', hrecv, hbytes, hle, hc', heg, hpart⟩ :=
        red_peer_receive_chunked st (m.body.length - 0) hsd hc (by omega)
      simp only [Nat.sub_zero] at hrecv hle hpart
      have hb' : bs ++ (rd_bytes rd' ++ future) = m.body ++ wire_bytes rest := by
        rw [← hbytes] at hb; simpa using hb
      by_cases hfull : bs.length = m.body.length
      · right
        have hbs : bs = m.body := (List.append_inj hb' hfull).1
        have hrest : rd_bytes rd' ++ future = wire_bytes rest := (List.append_inj hb' hfull).2
        have e1 : incoming_body cb ⟨st, ⟨m.header, SIZEOF_HEADER, none, 0, false⟩, tr⟩
            = Flow.go ⟨{ st with rd := rd' }, ⟨m.header, SIZEOF_HEADER,
                some (buf_write (List.replicate m.body.length 0) 0 bs), 0 + bs.length, false⟩,
                tr ++ [Event.alloc_msg_buf (header_of_bytes m.header)]⟩ := by
          simp [incoming_body, incoming_fill, hsize, hz, ha, hrecv, hfull, Nat.pos_of_ne_zero hz]
        obtain ⟨s3, e3, inv3, hst⟩ := dispatch_step cb hp hh future done rest m
          ⟨{ st with rd := rd' }, ⟨m.header, SIZEOF_HEADER,
                some (buf_write (List.replicate m.body.length 0) 0 bs), 0 + bs.length, false⟩,
                tr ++ [Event.alloc_msg_buf (header_of_bytes m.header)]⟩ rfl hsd hc' hrl
          (by simp [dispatched_append, dispatched, hd]) hlen rfl
          (by
            simp only [incoming_msg, hsize]
            rw [buf_write_full _ _ _ (by simp [hfull])]
            simp [hbs])
          hrest
        refine ⟨_, s3, e1, e3, inv3, ?_, by simpa [hst] using heg⟩
        simp only [hst, Nat.sub_zero]
        rw [← hbytes, List.length_append, hfull]; omega
      · left
        have hlt : bs.length < m.body.length := lt_of_le_of_ne hle hfull
        refine ⟨⟨{ st with rd := rd' }, ⟨m.header, SIZEOF_HEADER,
                some (buf_write (List.replicate m.body.length 0) 0 bs), 0 + bs.length, false⟩,
                tr ++ [Event.alloc_msg_buf (header_of_bytes m.header)]⟩, ?_, ?_, hpart hlt, heg⟩
        · simp [incoming_body, incoming_fill, hsize, hz, ha, hrecv, hfull, Nat.pos_of_ne_zero hz]
        · constructor
          · rfl
          · exact hsd
          · exact hc'
          · exact hl
          · simp [dispatched_append, dispatched, hd]
          · exact hlen
          · right
            refine ⟨m, rest, _, rfl, rfl, rfl, rfl, ?_, ?_, ?_⟩
            · rw [buf_write_length _ _ _ (by simp; omega)]; simp
            · simpa using hlt
            · have := buf_write_take (List.replicate m.body.length 0) bs 0 (by simp)
              simp only [this]
              simpa using hb'
  · subst hm hpre
    obtain ⟨bs, rd', hrecv, hbytes, hle, hc', heg, hpart⟩ :=
      red_peer_receive_chunked st (m.body.length - mpos) hsd hc (by omega)
    have hb' : (buf.take mpos ++ bs) ++ (rd_bytes rd' ++ future) = m.body ++ wire_bytes rest := by
      rw [← hbytes] at hb; simpa using hb
    have htl : (buf.take mpos ++ bs).length = mpos + bs.length := by
      simp; omega
    by_cases hfull : mpos + bs.length = m.body.length
    · right
      have hbs : buf.take mpos ++ bs = m.body := (List.append_inj hb' (by omega)).1
      have hrest : rd_bytes rd' ++ future = wire_bytes rest :=
        (List.append_inj hb' (by omega)).2
      have e1 : incoming_body cb ⟨st, ⟨m.header, SIZEOF_HEADER, some buf, mpos, false⟩, tr⟩
          = Flow.go ⟨{ st with rd := rd' }, ⟨m.header, SIZEOF_HEADER,
              some (buf_write buf mpos bs), mpos + bs.length, false⟩, tr⟩ := by
        simp [incoming_body, incoming_fill, hsize, hq, hrecv, hfull]
      obtain ⟨s3, e3, inv3, hst⟩ := dispatch_step cb hp hh future done rest m
        ⟨{ st with rd := rd' }, ⟨m.header, SIZEOF_HEADER,
              some (buf_write buf mpos bs), mpos + bs.length, false⟩, tr⟩ rfl hsd hc' hrl
        hd hlen rfl
        (by
          simp only [incoming_msg, hsize]
          rw [buf_write_full _ _ _ (by omega), ← hbs]
          simp [← hfull])
        hrest
      refine ⟨_, s3, e1, e3, inv3, ?_, by simpa [hst] using heg⟩
      simp only [hst]
      rw [← hbytes, List.length_append]; omega
    · left
      have hlt : bs.length < m.body.length - mpos := by omega
      refine ⟨⟨{ st with rd := rd' }, ⟨m.header, SIZEOF_HEADER,
              some (buf_write buf mpos bs), mpos + bs.length, false⟩, tr⟩, ?_, ?_,
              hpart hlt, heg⟩
      · simp [incoming_body, incoming_fill, hsize, hq, hrecv, hfull]
      · constructor
        · rfl
        · exact hsd
        · exact hc'
        · exact hl
        · exact hd
        · exact hlen
        · right
          refine ⟨m, rest, _, rfl, rfl, rfl, rfl, ?_, ?_, ?_⟩
          · rw [buf_write_length _ _ _ (by omega)]; exact hbl
          · show mpos + bs.length < m.body.length
            omega
          · show List.take (mpos + bs.length) (buf_write buf mpos bs) ++ rd_bytes rd' ++ future = _
            rw [buf_write_take _ _ _ (by omega)]
            simpa using hb'

theorem wire_bytes_length_legal (m : WireMsg) (rest : List WireMsg) (hm : m.legal) :
    SIZEOF_HEADER + m.body.length ≤ (wire_bytes (m :: rest)).length := by
  simp [wire_bytes, hm.1]

/-- One iteration of the loop of `red_peer_handle_incoming` from a state between
calls: either the call returns, or one more message has been dispatched and
the loop goes round. -/
theorem incoming_iter (cb : IncomingCb) (hp : cb.parser = none)
    (ha : ∀ h, cb.alloc_msg_buf h = true)
    (hh : ∀ h m, cb.handle_message h m = { ret := true, shut := false })
    (future : List Nat) (done rest : List WireMsg) (s : ReaderState)
    (inv : ReaderInv future done rest s) :
    (∃ s', (∀ fuel, red_peer_handle_incoming_loop cb (fuel + 1) s = some s') ∧
      ReaderInv future done rest s' ∧
      (s'.stream.rd = [] ∨ rd_eagains s'.stream.rd < rd_eagains s.stream.rd)) ∨
    (∃ m rest' s3, rest = m :: rest' ∧
      (∀ fuel, red_peer_handle_incoming_loop cb (fuel + 1) s
        = red_peer_handle_incoming_loop cb fuel s3) ∧
      ReaderInv future (done ++ [m]) rest' s3 ∧
      (rd_bytes s3.stream.rd).length < (rd_bytes s.stream.rd).length ∧
      rd_eagains s3.stream.rd ≤ rd_eagains s.stream.rd) := by
  obtain ⟨hshut, hsd, hc, hl, hd, hlen, hph⟩ := inv
  obtain ⟨st, ⟨hdr, p, msg, mpos, sh⟩, tr⟩ := s
  simp only at hshut hsd hc hd hlen hph
  subst hshut
  rcases hph with ⟨hp18, hm, hq, hb⟩ | ⟨m, rest', buf, hrest, hp18, hhdr, hm, hbl, hq, hb⟩
  · subst hm hq
    obtain ⟨bs, rd', hrecv, hbytes, hle, hc', heg, hpart⟩ :=
      red_peer_receive_chunked st (SIZEOF_HEADER - p) hsd hc
        (by simp only [SIZEOF_HEADER, U32_eq]; omega)
    have hb' : (hdr.take p ++ bs) ++ (rd_bytes rd' ++ future) = wire_bytes rest := by
      rw [← hbytes] at hb; simpa using hb
    have htl : (hdr.take p ++ bs).length = p + bs.length := by
      simp; omega
    by_cases hfull : p + bs.length = SIZEOF_HEADER
    · -- the header is complete
      cases rest with
      | nil =>
        exfalso
        have := congrArg List.length hb'
        simp only [wire_bytes, List.length_append, List.length_nil] at this
        rw [List.length_append] at htl
        have h18 : SIZEOF_HEADER = 18 := rfl
        omega
      | cons m rest' =>
        have hml : m.legal := hl m (List.mem_cons_self _ _)
        have hb'' : (hdr.take p ++ bs) ++ (rd_bytes rd' ++ future)
            = m.header ++ (m.body ++ wire_bytes rest') := by
          rw [hb']; simp [wire_bytes]
        have hh1 : hdr.take p ++ bs = m.header :=
          (List.append_inj hb'' (by rw [htl, hfull, hml.1])).1
        have hb1 : rd_bytes rd' ++ future = m.body ++ wire_bytes rest' :=
          (List.append_inj hb'' (by rw [htl, hfull, hml.1])).2
        have eh : incoming_header ⟨st, ⟨hdr, p, none, 0, false⟩, tr⟩
            = Flow.go ⟨{ st with rd := rd' }, ⟨m.header, SIZEOF_HEADER, none, 0, false⟩, tr⟩ := by
          simp only [incoming_header, hp18, if_true, hrecv, hfull, ne_eq, not_true_eq_false,
            if_false]
          rw [buf_write_full _ _ _ (by omega), hh1]
          simp
        rcases body_iter cb hp ha hh future done rest' m
          ⟨{ st with rd := rd' }, ⟨m.header, SIZEOF_HEADER, none, 0, false⟩, tr⟩ rfl hsd hc' hl
          hd rfl rfl [] (Or.inl ⟨rfl, rfl, rfl⟩) (by simpa using hb1) with
          ⟨s', eb, inv', hrd, heg'⟩ | ⟨s2, s3, eb, ed, inv3, hlen3, heg3⟩
        · left
          refine ⟨s', ?_, inv', ?_⟩
          · intro fuel
            simp only [red_peer_handle_incoming_loop, eh, eb]
          · rcases hrd with h | h
            · exact Or.inl h
            · right
              simp only at h heg ⊢
              omega
        · right
          refine ⟨m, rest', s3, rfl, ?_, inv3, ?_, ?_⟩
          · intro fuel
            simp only [red_peer_handle_incoming_loop, eh, eb, ed]
          · simp only at hlen3 ⊢
            rw [← hbytes, List.length_append]
            omega
          · simp only at heg3 heg ⊢
            omega
    · left
      have hlt : bs.length < SIZEOF_HEADER - p := by omega
      refine ⟨⟨{ st with rd := rd' }, ⟨buf_write hdr p bs, p + bs.length, none, 0, false⟩, tr⟩,
        ?_, ?_, hpart hlt⟩
      · intro fuel
        simp [red_peer_handle_incoming_loop, incoming_header, hp18, hrecv, hfull]
      · constructor
        · rfl
        · exact hsd
        · exact hc'
        · exact hl
        · exact hd
        · show (buf_write hdr p bs).length = SIZEOF_HEADER
          rw [buf_write_length _ _ _ (by omega)]; exact hlen
        · left
          refine ⟨?_, rfl, rfl, ?_⟩
          · show p + bs.length < SIZEOF_HEADER
            omega
          · show List.take (p + bs.length) (buf_write hdr p bs) ++ rd_bytes rd' ++ future = _
            rw [buf_write_take _ _ _ (by omega)]
            simpa using hb'
  · subst hrest hp18 hhdr hm
    have eh : incoming_header ⟨st, ⟨m.header, SIZEOF_HEADER, some buf, mpos, false⟩, tr⟩
        = Flow.go ⟨st, ⟨m.header, SIZEOF_HEADER, some buf, mpos, false⟩, tr⟩ := by
      simp [incoming_header]
    rcases body_iter cb hp ha hh future done rest' m
      ⟨st, ⟨m.header, SIZEOF_HEADER, some buf, mpos, false⟩, tr⟩ rfl hsd hc hl
      hd rfl rfl (buf.take mpos) (Or.inr ⟨buf, rfl, hbl, hq, rfl⟩) hb with
      ⟨s', eb, inv', hrd, _⟩ | ⟨s2, s3, eb, ed, inv3, hlen3, heg3⟩
    · left
      refine ⟨s', ?_, inv', hrd⟩
      intro fuel
      simp only [red_peer_handle_incoming_loop, eh, eb]
    · right
      refine ⟨m, rest', s3, rfl, ?_, inv3, ?_, heg3⟩
      · intro fuel
        simp only [red_peer_handle_incoming_loop, eh, eb, ed]
      · simp only at hlen3 ⊢
        omega

/-- The whole loop of `red_peer_handle_incoming` from a state between calls:
with more fuel than bytes in the transport it returns, in a state between
calls again. -/
theorem incoming_loop_spec (cb : IncomingCb) (hp : cb.parser = none)
    (ha : ∀ h, cb.alloc_msg_buf h = true)
    (hh : ∀ h m, cb.handle_message h m = { ret := true, shut := false })
    (future : List Nat) :
    ∀ (fuel : Nat) (done rest : List WireMsg) (s : ReaderState),
      ReaderInv future done rest s → (rd_bytes s.stream.rd).length < fuel →
      ∃ s' done' rest', red_peer_handle_incoming_loop cb fuel s = some s' ∧
        ReaderInv future done' rest' s' ∧ done' ++ rest' = done ++ rest ∧
        (s'.stream.rd = [] ∨ rd_eagains s'.stream.rd < rd_eagains s.stream.rd) := by
  intro fuel
  induction fuel with
  | zero => intro _ _ _ _ h; omega
  | succ fuel ih =>
    intro done rest s inv hf
    rcases incoming_iter cb hp ha hh future done rest s inv with
      ⟨s', e, inv', hrd⟩ | ⟨m, rest', s3, hrest, e, inv3, hlt, heg⟩
    · exact ⟨s', done, rest, e fuel, inv', rfl, hrd⟩
    · obtain ⟨s', done', rest'', e', inv', hsplit, hrd⟩ :=
        ih (done ++ [m]) rest' s3 inv3 (by omega)
      refine ⟨s', done', rest'', by rw [e fuel, e'], inv', ?_, ?_⟩
      · rw [hsplit, hrest]; simp
      · rcases hrd with h | h
        · exact Or.inl h
        · exact Or.inr (by omega)

/-- One call of `red_peer_handle_incoming` from a state between calls. -/
theorem incoming_call_spec (cb : IncomingCb) (hp : cb.parser = none)
    (ha : ∀ h, cb.alloc_msg_buf h = true)
    (hh : ∀ h m, cb.handle_message h m = { ret := true, shut := false })
    (future : List Nat) (done rest : List WireMsg) (s : ReaderState)
    (inv : ReaderInv future done rest s) :
    ∃ s' done' rest', red_peer_handle_incoming cb s = some s' ∧
      ReaderInv future done' rest' s' ∧ done' ++ rest' = done ++ rest ∧
      (s'.stream.rd = [] ∨ rd_eagains s'.stream.rd < rd_eagains s.stream.rd) :=
  incoming_loop_spec cb hp ha hh future _ done rest s inv (by omega)

/-- Any number of calls of `red_peer_handle_incoming` from a state between
calls; after more calls than the transport has `EAGAIN`s the transport is
drained. -/
theorem incoming_calls_spec (cb : IncomingCb) (hp : cb.parser = none)
    (ha : ∀ h, cb.alloc_msg_buf h = true)
    (hh : ∀ h m, cb.handle_message h m = { ret := true, shut := false })
    (future : List Nat) :
    ∀ (n : Nat) (done rest : List WireMsg) (s : ReaderState),
      ReaderInv future done rest s →
      ∃ s' done' rest', red_peer_handle_incoming_n cb n s = some s' ∧
        ReaderInv future done' rest' s' ∧ done' ++ rest' = done ++ rest ∧
        (s.stream.rd = [] → s'.stream.rd = []) ∧
        (s'.stream.rd = [] ∨ rd_eagains s'.stream.rd + n ≤ rd_eagains s.stream.rd) := by
  intro n
  induction n with
  | zero =>
    intro done rest s inv
    exact ⟨s, done, rest, rfl, inv, rfl, id, Or.inr (by omega)⟩
  | succ n ih =>
    intro done rest s inv
    obtain ⟨s1, done1, rest1, e1, inv1, hs1, hrd1⟩ :=
      incoming_call_spec cb hp ha hh future done rest s inv
    obtain ⟨s', done', rest', e', inv', hs', hkeep, hrd'⟩ := ih done1 rest1 s1 inv1
    refine ⟨s', done', rest', ?_, inv', by rw [hs', hs1], ?_, ?_⟩
    · simp [red_peer_handle_incoming_n, e1, e']
    · intro h0
      apply hkeep
      rcases hrd1 with h | h
      · exact h
      · simp [h0, rd_eagains] at h
    · rcases hrd1 with h | h
      · exact Or.inl (hkeep h)
      · rcases hrd' with h' | h'
        · exact Or.inl h'
        · exact Or.inr (by omega)

/-- C1 (framed reader round trip). On a transport that delivers, in any
chunking and with any `EAGAIN`s in between, a prefix of the bytes of the legal
messages `msgs`, each with a body shorter than `2 ^ 32 - 1` bytes, any number
`n` of calls of `red_peer_handle_incoming` (no
parser, `alloc_msg_buf` never refusing, `handle_message` returning true and
never setting `shut`) returns, and `handle_message` has then been called for
exactly the first `k` messages, once each and in stream order, with the header
and the complete body of each; the bytes of these `k` messages are among those
the transport had to give, so no message is dispatched before its last byte
has arrived. When the transport delivers all the bytes and there are more
calls than `EAGAIN`s, every message has been dispatched. -/
theorem framed_reader_round_trip (cb : IncomingCb) (hp : cb.parser = none)
    (ha : ∀ h, cb.alloc_msg_buf h = true)
    (hh : ∀ h m, cb.handle_message h m = { ret := true, shut := false })
    (msgs : List WireMsg) (rd : List ReadResult) (n : Nat)
    (hlegal : ∀ m ∈ msgs, m.legal) (hchunk : rd_chunked rd)
    (hpre : rd_bytes rd <+: wire_bytes msgs) :
    ∃ s k, red_peer_handle_incoming_n cb n (reader_new rd) = some s ∧
      dispatched s.trace = (msgs.take k).map wire_event ∧
      (wire_bytes (msgs.take k)).length ≤ (rd_bytes rd).length ∧
      (rd_bytes rd = wire_bytes msgs → rd_eagains rd < n →
        dispatched s.trace = msgs.map wire_event) := by
  obtain ⟨future, hfut⟩ := hpre
  have inv0 : ReaderInv future [] msgs (reader_new rd) := by
    constructor
    · rfl
    · rfl
    · exact hchunk
    · exact hlegal
    · rfl
    · simp [reader_new, incoming_new]
    · left
      refine ⟨by simp [reader_new, incoming_new, SIZEOF_HEADER], rfl, rfl, ?_⟩
      simpa [reader_new, incoming_new, stream_new] using hfut
  obtain ⟨s, done, rest, e, inv, hsplit, _, hrd⟩ :=
    incoming_calls_spec cb hp ha hh future n [] msgs (reader_new rd) inv0
  simp only [List.nil_append] at hsplit
  have htake : msgs.take done.length = done := by
    rw [← hsplit]; simp
  -- the bytes the reader holds but has not dispatched
  have hpend : ∃ pend : List Nat, pend ++ rd_bytes s.stream.rd ++ future = wire_bytes rest ∧
      (rest = [] ∨ ∃ m r, rest = m :: r ∧ pend.length < SIZEOF_HEADER + m.body.length) := by
    rcases inv.phase with ⟨h18, _, _, hb⟩ | ⟨m, r, buf, hr, _, _, _, hbl, hq, hb⟩
    · refine ⟨_, hb, ?_⟩
      cases hrest : rest with
      | nil => exact Or.inl rfl
      | cons m r =>
        right
        refine ⟨m, r, rfl, ?_⟩
        have := inv.hlen
        simp only [List.length_take]
        omega
    · refine ⟨s.handler.header ++ buf.take s.handler.msg_pos, ?_, Or.inr ⟨m, r, hr, ?_⟩⟩
      · have h1 : s.handler.header = m.header := by assumption
        rw [hr, h1]
        simp only [wire_bytes, List.append_assoc] at hb ⊢
        rw [hb]
      · have := inv.hlen
        simp only [List.length_append, List.length_take]
        omega
  obtain ⟨pend, hpb, hshort⟩ := hpend
  have hall : rd_bytes rd ++ future = wire_bytes done ++ (pend ++ rd_bytes s.stream.rd ++ future) := by
    rw [hfut, hpb, ← wire_bytes_append, hsplit]
  refine ⟨s, done.length, e, by rw [htake]; exact inv.disp, ?_, ?_⟩
  · rw [htake]
    have := congrArg List.length hall
    simp only [List.length_append] at this
    omega
  · intro hcomplete hn
    have hrd0 : s.stream.rd = [] := by
      rcases hrd with h | h
      · exact h
      · simp only [reader_new, stream_new] at h
        omega
    have hf0 : future = [] := by
      have := congrArg List.length hfut
      rw [hcomplete] at this
      simpa using this
    have hrest : rest = [] := by
      rcases hshort with h | ⟨m, r, hr, hlt⟩
      · exact h
      · exfalso
        have hml : m.legal := inv.legal m (by rw [hr]; exact List.mem_cons_self _ _)
        have h1 := wire_bytes_length_legal m r hml
        have h2 := congrArg List.length hpb
        rw [hrd0, hf0, hr] at h2
        simp only [rd_bytes, List.append_nil] at h2
        omega
    rw [inv.disp, ← hsplit, hrest, List.append_nil]

/-- C1 at the scenario of the spec: one message with a six-byte body, its
header delivered as 5 bytes then 13 bytes, its body in three chunks. -/
theorem framed_reader_round_trip_witness :
    (∀ m ∈ [scenario_msg], m.legal) ∧ rd_chunked scenario_rd ∧
    ∃ s k, red_peer_handle_incoming_n cb_accept 5 (reader_new scenario_rd) = some s ∧
      dispatched s.trace = ([scenario_msg].take k).map wire_event ∧
      (wire_bytes ([scenario_msg].take k)).length ≤ (rd_bytes scenario_rd).length ∧
      (rd_bytes scenario_rd = wire_bytes [scenario_msg] → rd_eagains scenario_rd < 5 →
        dispatched s.trace = [scenario_msg].map wire_event) :=
  have hl : ∀ m ∈ [scenario_msg], m.legal := by
    intro m hm
    rw [List.mem_singleton] at hm
    subst hm
    exact ⟨rfl, rfl, by decide⟩
  have hc : rd_chunked scenario_rd := by
    simp [rd_chunked, scenario_rd]
  ⟨hl, hc, framed_reader_round_trip cb_accept rfl (fun _ => rfl) (fun _ _ => rfl)
    [scenario_msg] scenario_rd 5 hl hc ⟨[], rfl⟩⟩

/-- A call of `red_peer_receive_loop` takes the bytes it stores out of the
script, and stores no more than `size` bytes. -/
theorem receive_loop_bytes (shutdown : Bool) (rd : List ReadResult) : ∀ (size : Nat),
    (red_peer_receive_loop shutdown rd size).bytes.length
        + (rd_bytes (red_peer_receive_loop shutdown rd size).rd).length
      ≤ (rd_bytes rd).length ∧
    (red_peer_receive_loop shutdown rd size).bytes.length ≤ size := by
  induction rd with
  | nil =>
    intro size
    cases size <;> simp [red_peer_receive_loop, rd_bytes]
  | cons e rest ih =>
    intro size
    cases size with
    | zero => simp [red_peer_receive_loop]
    | succ n =>
      cases shutdown with
      | true => cases e <;> simp [red_peer_receive_loop, rd_bytes]
      | false =>
        cases e with
        | data bs =>
          by_cases h0 : bs.length = 0
          · simp [red_peer_receive_loop, h0, rd_bytes]
          · by_cases hle : bs.length ≤ n + 1
            · have := ih (n + 1 - bs.length)
              simp only [red_peer_receive_loop, h0, hle, if_true, if_false, rd_bytes,
                List.length_append, Bool.false_eq_true]
              omega
            · simp only [red_peer_receive_loop, h0, hle, if_false, rd_bytes,
                List.length_append, List.length_take, List.length_drop, Bool.false_eq_true]
              omega
        | eagain => simp [red_peer_receive_loop, rd_bytes]
        | eintr =>
          have := ih (n + 1)
          simpa [red_peer_receive_loop, rd_bytes] using this
        | epipe => simp [red_peer_receive_loop, rd_bytes]
        | other => simp [red_peer_receive_loop, rd_bytes]

/-- The header phase takes out of the script the bytes it stores: when it goes
on from an incomplete header, at least one byte. -/
theorem incoming_header_bytes (s : ReaderState) :
    (∀ s1, incoming_header s = Flow.ret s1 →
      (rd_bytes s1.stream.rd).length ≤ (rd_bytes s.stream.rd).length) ∧
    (∀ s1, incoming_header s = Flow.go s1 →
      (rd_bytes s1.stream.rd).length ≤ (rd_bytes s.stream.rd).length ∧
      (s.handler.header_pos < SIZEOF_HEADER →
        (rd_bytes s1.stream.rd).length < (rd_bytes s.stream.rd).length)) := by
  have hb := receive_loop_bytes s.stream.shutdown s.stream.rd
    (SIZEOF_HEADER - s.handler.header_pos)
  unfold incoming_header
  by_cases hlt : s.handler.header_pos < SIZEOF_HEADER
  · simp only [hlt, if_true]
    split
    · constructor
      · intro s1 h
        injection h with h
        subst h
        simp only [red_peer_receive]
        omega
      · intro s1 h
        cases h
    · split
      · constructor
        · intro s1 h
          injection h with h
          subst h
          simp only [red_peer_receive]
          omega
        · intro s1 h
          cases h
      · rename_i hfull
        simp only [red_peer_receive, ne_eq, Decidable.not_not] at hfull
        constructor
        · intro s1 h
          cases h
        · intro s1 h
          injection h with h
          subst h
          simp only [red_peer_receive]
          constructor
          · omega
          · intro _
            omega
  · simp only [hlt, if_false]
    constructor
    · intro s1 h
      cases h
    · intro s1 h
      injection h with h
      subst h
      exact ⟨le_refl _, fun h => absurd h (by simpa using hlt)⟩

theorem incoming_fill_bytes (s : ReaderState) (buf : List Nat) :
    ∀ s1, (incoming_fill s buf = Flow.ret s1 ∨ incoming_fill s buf = Flow.go s1) →
      (rd_bytes s1.stream.rd).length ≤ (rd_bytes s.stream.rd).length := by
  have hb := receive_loop_bytes s.stream.shutdown s.stream.rd
    ((header_of_bytes s.handler.header).size - s.handler.msg_pos)
  intro s1 h
  unfold incoming_fill at h
  simp only [red_peer_receive] at h
  split at h
  · rcases h with h | h
    · injection h with h
      subst h
      simp only
      omega
    · cases h
  · split at h
    · rcases h with h | h
      · injection h with h
        subst h
        simp only
        omega
      · cases h
    · rcases h with h | h
      · cases h
      · injection h with h
        subst h
        simp only
        omega

theorem incoming_body_bytes (cb : IncomingCb) (s : ReaderState) :
    ∀ s1, (incoming_body cb s = Flow.ret s1 ∨ incoming_body cb s = Flow.go s1) →
      (rd_bytes s1.stream.rd).length ≤ (rd_bytes s.stream.rd).length := by
  intro s1 h
  unfold incoming_body at h
  simp only at h
  split at h
  · split at h
    · split at h
      · exact incoming_fill_bytes
          { s with trace := s.trace ++ [Event.alloc_msg_buf (header_of_bytes s.handler.header)] }
          _ s1 h
      · rcases h with h | h
        · injection h with h
          subst h
          exact le_refl _
        · cases h
    · exact incoming_fill_bytes _ _ s1 h
  · rcases h with h | h
    · cases h
    · injection h with h
      subst h
      exact le_refl _

theorem incoming_after_handler_go (r : HandlerResult) (s s1 : ReaderState)
    (h : incoming_after_handler r s = Flow.go s1) :
    s1.stream = s.stream ∧ s1.handler.header_pos = 0 := by
  unfold incoming_after_handler at h
  simp only at h
  split at h
  · cases h
  · split at h
    · cases h
    · injection h with h
      subst h
      exact ⟨rfl, rfl⟩

theorem incoming_dispatch_go (cb : IncomingCb) (s s1 : ReaderState)
    (h : incoming_dispatch cb s = Flow.go s1) :
    s1.stream = s.stream ∧ s1.handler.header_pos = 0 := by
  unfold incoming_dispatch at h
  simp only at h
  split at h
  · split at h
    · cases h
    · have := incoming_after_handler_go _ _ _ h
      exact this
  · have := incoming_after_handler_go _ _ _ h
    exact this

/-- The loop of `red_peer_handle_incoming` returns when it is given more
iterations than the script has bytes, one more when the header is complete at
the start. -/
theorem incoming_loop_returns (cb : IncomingCb) : ∀ (fuel : Nat) (s : ReaderState),
    (rd_bytes s.stream.rd).length + (if s.handler.header_pos < SIZEOF_HEADER then 0 else 1)
      < fuel →
    ∃ s', red_peer_handle_incoming_loop cb fuel s = some s' := by
  intro fuel
  induction fuel with
  | zero => intro s h; omega
  | succ fuel ih =>
    intro s hf
    unfold red_peer_handle_incoming_loop
    obtain ⟨_, hgo⟩ := incoming_header_bytes s
    cases h1 : incoming_header s with
    | ret s1 => exact ⟨s1, rfl⟩
    | go s1 =>
      obtain ⟨hle1, hlt1⟩ := hgo s1 h1
      simp only
      cases h2 : incoming_body cb s1 with
      | ret s2 => exact ⟨s2, rfl⟩
      | go s2 =>
        have hle2 := incoming_body_bytes cb s1 s2 (Or.inr h2)
        simp only
        cases h3 : incoming_dispatch cb s2 with
        | ret s3 => exact ⟨s3, rfl⟩
        | go s3 =>
          obtain ⟨hst, hpos⟩ := incoming_dispatch_go cb s2 s3 h3
          simp only
          apply ih
          rw [hst, hpos]
          have h18 : (0 : Nat) < SIZEOF_HEADER := by decide
          simp only [h18, if_true, Nat.add_zero]
          by_cases hlt : s.handler.header_pos < SIZEOF_HEADER
          · have := hlt1 hlt
            omega
          · simp only [hlt, if_false] at hf
            omega

/-- Termination of `red_peer_handle_incoming`: for every callback table and
every state the call returns. -/
theorem red_peer_handle_incoming_returns (cb : IncomingCb) (s : ReaderState) :
    ∃ s', red_peer_handle_incoming cb s = some s' := by
  apply incoming_loop_returns
  split <;> omega

theorem le_encode_length (k n : Nat) : (le_encode k n).length = k := by
  induction k generalizing n with
  | zero => rfl
  | succ k ih => simp [le_encode, ih]

theorem header_to_bytes_length (h : SpiceDataHeader) :
    (header_to_bytes h).length = SIZEOF_HEADER := by
  simp [header_to_bytes, le_encode_length, SIZEOF_HEADER]

theorem marshaller_bytes_length (m : SpiceMarshaller) :
    (marshaller_bytes m).length = spice_marshaller_get_total_size m := by
  simp [marshaller_bytes, header_to_bytes_length, spice_marshaller_get_total_size]

theorem wr_never_blocks_tail (e : WriteResult) (rest : List WriteResult)
    (h : wr_never_blocks (e :: rest)) : wr_never_blocks rest :=
  fun x hx => h x (List.mem_cons_of_mem _ hx)

theorem take_drop_append (l : List Nat) (p n : Nat) :
    (l.drop p).take n ++ l.drop (p + n) = l.drop p := by
  rw [← List.drop_drop]
  exact List.take_append_drop n (l.drop p)

/-- On a transport that never blocks the loop of the writer writes the message
to the end. -/
theorem outgoing_loop_never_blocks (cls : ChannelClass) (wr : List WriteResult) :
    ∀ (w : World), wr_never_blocks wr →
      (marshaller_bytes w.client.send_data.marshaller).length = w.client.outgoing.size →
      w.client.outgoing.pos < w.client.outgoing.size →
      ∃ wr', wr_never_blocks wr' ∧
        red_peer_handle_outgoing_loop cls wr w = some (outgoing_finish w wr') := by
  induction wr with
  | nil =>
    intro w _ hlen hpos
    refine ⟨[], by intro e he; simp at he, ?_⟩
    have hoff : outgoing_offered w = w.client.outgoing.size - w.client.outgoing.pos := by
      simp [outgoing_offered, hlen]
    simp only [red_peer_handle_outgoing_loop, outgoing_written, hoff]
    have : w.client.outgoing.pos + (w.client.outgoing.size - w.client.outgoing.pos)
        = w.client.outgoing.size := by omega
    simp only [this, if_true, outgoing_finish]
    rw [List.take_of_length_le (by simp [hlen])]
  | cons e rest ih =>
    intro w hnb hlen hpos
    have hrest := wr_never_blocks_tail e rest hnb
    rcases hnb e (List.mem_cons_self _ _) with ⟨k, rfl⟩ | rfl
    · have hoff : outgoing_offered w = w.client.outgoing.size - w.client.outgoing.pos := by
        simp [outgoing_offered, hlen]
      by_cases hdone : w.client.outgoing.pos + min k (outgoing_offered w) = w.client.outgoing.size
      · refine ⟨rest, hrest, ?_⟩
        simp only [red_peer_handle_outgoing_loop, outgoing_written, hdone, if_true,
          outgoing_finish]
        have hmin : min k (outgoing_offered w) = w.client.outgoing.size - w.client.outgoing.pos := by
          omega
        rw [hmin, List.take_of_length_le (by simp [hlen])]
      · simp only [red_peer_handle_outgoing_loop, outgoing_written, hdone, if_false]
        obtain ⟨wr', hnb', e'⟩ := ih
          { w with
            client.outgoing.pos := w.client.outgoing.pos + min k (outgoing_offered w)
            client.stream.written := w.client.stream.written ++
              ((marshaller_bytes w.client.send_data.marshaller).drop w.client.outgoing.pos).take
                (min k (outgoing_offered w))
            client.stream.wr := rest }
          hrest hlen (by simp only; omega)
        refine ⟨wr', hnb', ?_⟩
        rw [e']
        simp only [outgoing_finish, List.append_assoc, take_drop_append]
    · obtain ⟨wr', hnb', e'⟩ := ih { w with client.stream.wr := rest } hrest hlen hpos
      refine ⟨wr', hnb', ?_⟩
      simp only [red_peer_handle_outgoing_loop, e']
      rfl

/-- From an idle state, on a transport that never blocks,
`red_channel_client_send_item` sends the subclass's message for the item to
the end. -/
theorem send_item_idle (cls : ChannelClass) (w : World) (item : PipeItem) (hidle : SendIdle w)
    (hty : item.type ≠ PIPE_ITEM_TYPE_SET_ACK) (hmt : cls.msg_type item ≠ 0) :
    ∃ wr', wr_never_blocks wr' ∧
      red_channel_client_send_item cls w item = some (sent_one cls w item wr') := by
  obtain ⟨hb, hs, hi, hop, hos, hwr⟩ := hidle
  obtain ⟨ch, ⟨st, ack, ⟨m, hdrp, size, it, blocked, serial⟩, ⟨opos, osize⟩, inc, ds⟩, tr⟩ := w
  simp only at hb hs hi hop hos hwr
  subst hb hs hi hop hos
  -- the state handed to the writer
  obtain ⟨wr', hnb', e'⟩ := outgoing_loop_never_blocks cls st.wr
    ⟨ch, ⟨st, { ack with messages_window := (ack.messages_window + 1) % U32 },
      ⟨⟨item_header cls serial item, cls.msg_body item⟩, false,
        SIZEOF_HEADER + (cls.msg_body item).length, some item, false, (serial + 1) % U64⟩,
      ⟨0, SIZEOF_HEADER + (cls.msg_body item).length⟩, inc, ds⟩,
      tr ++ [Event.send_item item, Event.hold_item item,
        Event.begin_message (item_header cls serial item) (cls.msg_body item)]⟩
    hwr (by simp [marshaller_bytes_length, spice_marshaller_get_total_size])
    (by simp [SIZEOF_HEADER])
  refine ⟨wr', hnb', ?_⟩
  have h18 : SIZEOF_HEADER + (cls.msg_body item).length ≠ 0 := by simp [SIZEOF_HEADER]
  have hmod : cls.msg_type item % U16 = cls.msg_type item :=
    Nat.mod_eq_of_lt (cls.msg_type_u16 item)
  simp only [red_channel_client_send_item, red_channel_client_no_item_being_sent,
    red_channel_client_reset_send_data, World.log, hty, channel_send_item,
    red_channel_client_init_send_data, hmod, hmt, red_channel_client_begin_send_message,
    red_channel_client_send, red_peer_handle_outgoing, spice_marshaller_get_total_size,
    decide_True, Bool.not_true, if_false, Option.bind, List.nil_append, Nat.add_sub_cancel_left,
    h18, if_true, item_header, List.append_assoc, List.singleton_append,
    Bool.false_eq_true] at e' ⊢
  refine e'.trans ?_
  simp [outgoing_finish, red_channel_peer_on_out_msg_done, red_channel_client_release_sent_item,
    red_channel_client_release_item, hty, World.log, sent_one, item_header, marshaller_bytes]

theorem ack_threshold_lt (w : World) : ack_threshold w + 2 ≤ U32 := by
  simp only [ack_threshold, U32_eq]
  omega

theorem sent_items_append (t1 t2 : List Event) :
    sent_items (t1 ++ t2) = sent_items t1 ++ sent_items t2 := by
  induction t1 with
  | nil => rfl
  | cons e t ih => cases e <;> simp [sent_items, ih]

theorem done_count_append (t1 t2 : List Event) :
    done_count (t1 ++ t2) = done_count t1 + done_count t2 := by
  induction t1 with
  | nil => simp [done_count]
  | cons e t ih =>
    cases e <;> simp [done_count, ih]
    omega

theorem begun_messages_append (t1 t2 : List Event) :
    begun_messages (t1 ++ t2) = begun_messages t1 ++ begun_messages t2 := by
  induction t1 with
  | nil => rfl
  | cons e t ih => cases e <;> simp [begun_messages, ih]

/-- When `red_channel_client_pipe_get` returns no item it leaves the state as
it was. -/
theorem pipe_get_none (w : World) (h : (red_channel_client_pipe_get w).1 = none) :
    red_channel_client_pipe_get w = (none, w) := by
  unfold red_channel_client_pipe_get at h ⊢
  split
  · rfl
  · rename_i hgate
    simp only [hgate, if_false] at h
    cases htail : ring_get_tail w.channel.pipe with
    | none => rfl
    | some item => simp [htail] at h

/-- With the gate open `red_channel_client_pipe_get` takes the tail of the
pipe. -/
theorem pipe_get_open (w : World) (p : List PipeItem) (x : PipeItem)
    (hb : w.client.send_data.blocked = false)
    (hw : red_channel_client_waiting_for_ack w = false) (hp : w.channel.pipe = p ++ [x]) :
    red_channel_client_pipe_get w = (some x, { w with
      channel.pipe_size := (w.channel.pipe_size + U32 - 1) % U32
      channel.pipe := p }) := by
  simp [red_channel_client_pipe_get, hb, hw, hp, ring_get_tail]

theorem sent_one_idle (cls : ChannelClass) (w : World) (item : PipeItem)
    (wr : List WriteResult) (h : wr_never_blocks wr) : SendIdle (sent_one cls w item wr) :=
  ⟨rfl, rfl, rfl, rfl, rfl, h⟩

/-- The loop of the pump on an idle client with ack handling: it sends items
from the tail of the pipe until the messages window exceeds the threshold. -/
theorem push_loop_throttle (cls : ChannelClass) (hcls : sends_one_message cls) :
    ∀ (q : List PipeItem) (fuel : Nat) (w : World), SendIdle w →
      w.channel.handle_acks = true → w.channel.pipe = q.reverse →
      (∀ x ∈ q, x.type ≠ PIPE_ITEM_TYPE_SET_ACK) → q.length ≤ fuel →
      w.client.ack_data.messages_window ≤ ack_threshold w + 1 →
      ∃ w', red_channel_client_push_loop cls fuel w = some w' ∧ SendIdle w' ∧
        w'.channel.handle_acks = true ∧ w'.channel.rcc = w.channel.rcc ∧
        w'.channel.pipe
          = (q.drop (ack_threshold w + 1 - w.client.ack_data.messages_window)).reverse ∧
        sent_items w'.trace = sent_items w.trace
          ++ q.take (ack_threshold w + 1 - w.client.ack_data.messages_window) ∧
        done_count w'.trace = done_count w.trace
          + min q.length (ack_threshold w + 1 - w.client.ack_data.messages_window) ∧
        w'.client.ack_data = { w.client.ack_data with
          messages_window := w.client.ack_data.messages_window
            + min q.length (ack_threshold w + 1 - w.client.ack_data.messages_window) } ∧
        w'.client.during_send = w.client.during_send ∧
        (red_channel_client_pipe_get w').1 = none := by
  intro q
  induction q with
  | nil =>
    intro fuel w hidle hacks hpipe _ _ _
    have hnone : (red_channel_client_pipe_get w).1 = none := by
      unfold red_channel_client_pipe_get
      split
      · rfl
      · simp [hpipe, ring_get_tail]
    refine ⟨w, ?_, hidle, hacks, rfl, by simpa using hpipe, by simp, by simp, by simp, rfl, hnone⟩
    cases fuel with
    | zero => rfl
    | succ f => simp [red_channel_client_push_loop, pipe_get_none w hnone]
  | cons x q ih =>
    intro fuel w hidle hacks hpipe hty hfuel hmw
    have hT := ack_threshold_lt w
    cases fuel with
    | zero => simp at hfuel
    | succ f =>
      by_cases hopen : w.client.ack_data.messages_window ≤ ack_threshold w
      · -- the gate is open: the tail of the pipe is sent
        have hwait : red_channel_client_waiting_for_ack w = false := by
          simp only [red_channel_client_waiting_for_ack, hacks, Bool.true_and, decide_eq_false_iff_not]
          simpa [ack_threshold] using hopen
        have hget := pipe_get_open w q.reverse x hidle.blocked hwait (by simpa using hpipe)
        have hidle1 : SendIdle { w with
            channel.pipe_size := (w.channel.pipe_size + U32 - 1) % U32
            channel.pipe := q.reverse } :=
          ⟨hidle.blocked, hidle.size, hidle.item, hidle.opos, hidle.osize, hidle.wr⟩
        obtain ⟨wr', hnb', hsend⟩ := send_item_idle cls _ x hidle1
          (hty x (List.mem_cons_self _ _)) (hcls x)
        have hmw1 : (w.client.ack_data.messages_window + 1) % U32
            = w.client.ack_data.messages_window + 1 := by
          apply Nat.mod_eq_of_lt
          omega
        obtain ⟨w', hloop, hidle', hacks', hrcc', hpipe', hsent', hdone', hack', hds', hexit⟩ :=
          ih f (sent_one cls { w with
              channel.pipe_size := (w.channel.pipe_size + U32 - 1) % U32
              channel.pipe := q.reverse } x wr')
            (sent_one_idle cls _ x wr' hnb') hacks rfl
            (fun y hy => hty y (List.mem_cons_of_mem _ hy)) (by simpa using hfuel)
            (by
              simp only [sent_one, ack_threshold] at hmw1 ⊢
              rw [hmw1]
              simp only [ack_threshold] at hopen
              omega)
        have hth : ack_threshold (sent_one cls { w with
              channel.pipe_size := (w.channel.pipe_size + U32 - 1) % U32
              channel.pipe := q.reverse } x wr') = ack_threshold w := rfl
        have hmw2 : (sent_one cls { w with
              channel.pipe_size := (w.channel.pipe_size + U32 - 1) % U32
              channel.pipe := q.reverse } x wr').client.ack_data.messages_window
            = w.client.ack_data.messages_window + 1 := hmw1
        rw [hth, hmw2] at hpipe' hsent' hdone' hack'
        have hk : ack_threshold w + 1 - w.client.ack_data.messages_window
            = (ack_threshold w + 1 - (w.client.ack_data.messages_window + 1)) + 1 := by omega
        refine ⟨w', ?_, hidle', hacks', hrcc', ?_, ?_, ?_, ?_, hds', hexit⟩
        · simp only [red_channel_client_push_loop, hget, hsend, Option.bind]
          exact hloop
        · rw [hk, List.drop_succ_cons]; exact hpipe'
        · rw [hk, List.take_succ_cons, hsent']
          simp [sent_one, sent_items_append, sent_items]
        · rw [hdone']
          simp only [sent_one, done_count_append, done_count, List.length_cons]
          omega
        · rw [hack']
          simp only [sent_one, hmw1, List.length_cons]
          congr 1
          omega
      · -- the client waits for an ack
        have hwait : red_channel_client_waiting_for_ack w = true := by
          simp only [red_channel_client_waiting_for_ack, hacks, Bool.true_and, decide_eq_true_eq]
          simp only [ack_threshold] at hopen
          omega
        have hnone : red_channel_client_pipe_get w = (none, w) := by
          simp [red_channel_client_pipe_get, hwait]
        have hk : ack_threshold w + 1 - w.client.ack_data.messages_window = 0 := by omega
        refine ⟨w, ?_, hidle, hacks, rfl, ?_, ?_, ?_, ?_, rfl, by rw [hnone]⟩
        · simp [red_channel_client_push_loop, hnone]
        · rw [hk]; simpa using hpipe
        · rw [hk]; simp
        · rw [hk]; simp
        · rw [hk]; simp

theorem pipe_add_all_pipe (items : List PipeItem) : ∀ (w : World),
    (pipe_add_all w items).channel.pipe = items.reverse ++ w.channel.pipe ∧
    (pipe_add_all w items).client = w.client ∧ (pipe_add_all w items).trace = w.trace ∧
    (pipe_add_all w items).channel.handle_acks = w.channel.handle_acks ∧
    (pipe_add_all w items).channel.rcc = w.channel.rcc := by
  induction items with
  | nil => intro w; simp [pipe_add_all]
  | cons x rest ih =>
    intro w
    obtain ⟨h1, h2, h3, h4, h5⟩ := ih (red_channel_pipe_add w x)
    simp only [pipe_add_all, List.foldl_cons] at h1 h2 h3 h4 h5 ⊢
    refine ⟨?_, h2, h3, h4, h5⟩
    rw [h1]
    simp [red_channel_pipe_add, ring_add]

/-- A pump that finds nothing to dequeue changes nothing. -/
theorem push_noop (cls : ChannelClass) (w : World) (hds : w.client.during_send = false)
    (hb : w.client.send_data.blocked = false)
    (hget : (red_channel_client_pipe_get w).1 = none) :
    red_channel_client_push cls w = some w := by
  have hget' : red_channel_client_pipe_get { w with client.during_send := true }
      = (none, { w with client.during_send := true }) := by
    apply pipe_get_none
    unfold red_channel_client_pipe_get at hget ⊢
    simp only [red_channel_client_waiting_for_ack] at hget ⊢
    split
    · rfl
    · rename_i hgate
      simp only [hgate, if_false] at hget
      cases htail : ring_get_tail w.channel.pipe with
      | none => rfl
      | some item => simp [htail] at hget
  have hloop : ∀ fuel, red_channel_client_push_loop cls fuel { w with client.during_send := true }
      = some { w with client.during_send := true } := by
    intro fuel
    cases fuel with
    | zero => rfl
    | succ f => simp [red_channel_client_push_loop, hget']
  obtain ⟨ch, ⟨st, ack, sd, og, inc, ds⟩, tr⟩ := w
  simp only at hds hb hloop
  subst hds
  simp [red_channel_client_push, hb, hloop]

/-- From an idle state, on a transport that never blocks,
`red_channel_client_send_item` sends the `SET_ACK` message to the end. -/
theorem send_set_ack_idle (cls : ChannelClass) (w : World) (item : PipeItem) (hidle : SendIdle w)
    (hty : item.type = PIPE_ITEM_TYPE_SET_ACK) :
    ∃ wr', wr_never_blocks wr' ∧
      red_channel_client_send_item cls w item = some (sent_set_ack w item wr') := by
  obtain ⟨hb, hs, hi, hop, hos, hwr⟩ := hidle
  obtain ⟨ch, ⟨st, ack, ⟨m, hdrp, size, it, blocked, serial⟩, ⟨opos, osize⟩, inc, ds⟩, tr⟩ := w
  simp only at hb hs hi hop hos hwr
  subst hb hs hi hop hos
  obtain ⟨wr', hnb', e'⟩ := outgoing_loop_never_blocks cls st.wr
    ⟨ch, ⟨st, { ack with generation := (ack.generation + 1) % U32, messages_window := 1 },
      ⟨⟨set_ack_header serial,
          le_encode 4 ((ack.generation + 1) % U32) ++ le_encode 4 ack.client_window⟩, false,
        SIZEOF_HEADER + 8, none, false, (serial + 1) % U64⟩,
      ⟨0, SIZEOF_HEADER + 8⟩, inc, ds⟩,
      tr ++ [Event.send_item item,
        Event.begin_message (set_ack_header serial)
          (le_encode 4 ((ack.generation + 1) % U32) ++ le_encode 4 ack.client_window)]⟩
    hwr (by simp [marshaller_bytes_length, spice_marshaller_get_total_size, le_encode_length])
    (by simp [SIZEOF_HEADER])
  refine ⟨wr', hnb', ?_⟩
  have h1 : (0 + 1) % U32 = 1 := by norm_num [U32]
  have h3 : SPICE_MSG_SET_ACK ≠ 0 := by decide
  have h3m : SPICE_MSG_SET_ACK % U16 = SPICE_MSG_SET_ACK := by decide
  have h26 : SIZEOF_HEADER + 8 ≠ 0 := by simp [SIZEOF_HEADER]
  simp only [red_channel_client_send_item, red_channel_client_no_item_being_sent,
    red_channel_client_reset_send_data, World.log, hty, red_channel_client_send_set_ack,
    red_channel_client_init_send_data, h3m, h3, red_channel_client_begin_send_message,
    red_channel_client_send, red_peer_handle_outgoing, spice_marshaller_get_total_size,
    spice_marshall_msg_set_ack, le_encode_length, List.length_append,
    decide_True, Bool.not_true, if_false, Option.bind, List.nil_append, Nat.add_sub_cancel_left,
    h26, if_true, set_ack_header, List.append_assoc, List.singleton_append,
    Bool.false_eq_true, h1] at e' ⊢
  refine e'.trans ?_
  simp [outgoing_finish, red_channel_peer_on_out_msg_done, red_channel_client_release_sent_item,
    sent_set_ack, set_ack_header, set_ack_body, marshaller_bytes]

theorem sent_set_ack_idle (w : World) (item : PipeItem)
    (wr : List WriteResult) (h : wr_never_blocks wr) : SendIdle (sent_set_ack w item wr) :=
  ⟨rfl, rfl, rfl, rfl, rfl, h⟩

/-- From an idle state, on a transport that never blocks, with a subclass that
begins one message per item, `red_channel_client_send_item` returns in an idle
state, having begun one message, whose header carries the next serial. -/
theorem send_item_idle_serial (cls : ChannelClass) (hcls : sends_one_message cls) (w : World)
    (item : PipeItem) (hidle : SendIdle w) :
    ∃ w' hdr body, red_channel_client_send_item cls w item = some w' ∧ SendIdle w' ∧
      w'.channel = w.channel ∧
      w'.client.send_data.serial = (w.client.send_data.serial + 1) % U64 ∧
      w'.client.send_data.marshaller.header.serial = (w.client.send_data.serial + 1) % U64 ∧
      hdr.serial = (w.client.send_data.serial + 1) % U64 ∧
      begun_messages w'.trace = begun_messages w.trace ++ [(hdr, body)] ∧
      sent_items w'.trace = sent_items w.trace ++ [item] := by
  by_cases hty : item.type = PIPE_ITEM_TYPE_SET_ACK
  · obtain ⟨wr', hnb, e⟩ := send_set_ack_idle cls w item hidle hty
    exact ⟨_, set_ack_header w.client.send_data.serial, set_ack_body w, e,
      sent_set_ack_idle w item wr' hnb, rfl, rfl, rfl, rfl,
      by simp [sent_set_ack, begun_messages_append, begun_messages],
      by simp [sent_set_ack, sent_items_append, sent_items]⟩
  · obtain ⟨wr', hnb, e⟩ := send_item_idle cls w item hidle hty (hcls item)
    exact ⟨_, item_header cls w.client.send_data.serial item, cls.msg_body item, e,
      sent_one_idle cls w item wr' hnb, rfl, rfl, rfl, rfl,
      by simp [sent_one, begun_messages_append, begun_messages],
      by simp [sent_one, sent_items_append, sent_items]⟩

/-- With the gate open the pump first hands the tail of the pipe to
`red_channel_client_send_item`, then goes on with the rest of the pipe. -/
theorem push_first (cls : ChannelClass) (w : World) (p : List PipeItem) (x : PipeItem)
    (hds : w.client.during_send = false) (hb : w.client.send_data.blocked = false)
    (hw : red_channel_client_waiting_for_ack w = false) (hp : w.channel.pipe = p ++ [x]) :
    red_channel_client_push cls w
      = ((red_channel_client_send_item cls
            { w with
              client.during_send := true
              channel.pipe_size := (w.channel.pipe_size + U32 - 1) % U32
              channel.pipe := p } x).bind
          (red_channel_client_push_loop cls p.length)).map
        fun w3 => { w3 with client.during_send := false } := by
  have hget := pipe_get_open { w with client.during_send := true } p x hb
    (by simpa [red_channel_client_waiting_for_ack] using hw) hp
  simp only [red_channel_client_push, hds, hb, Bool.false_eq_true, if_false, Option.bind, hp,
    List.length_append, List.length_singleton, red_channel_client_push_loop, hget]

theorem release_item_channel (w : World) (item : PipeItem) (b : Bool) :
    (red_channel_client_release_item w item b).channel = w.channel := by
  unfold red_channel_client_release_item
  split <;> rfl

theorem release_sent_item_channel (w : World) :
    (red_channel_client_release_sent_item w).channel = w.channel := by
  unfold red_channel_client_release_sent_item
  split
  · exact release_item_channel _ _ _
  · rfl

theorem on_out_msg_done_channel (w : World) :
    (red_channel_peer_on_out_msg_done w).channel = w.channel := by
  unfold red_channel_peer_on_out_msg_done
  simp only
  split
  · exact release_sent_item_channel _
  · exact release_sent_item_channel _

theorem clear_sent_item_channel (w : World) :
    (red_channel_client_clear_sent_item w).channel = w.channel := by
  unfold red_channel_client_clear_sent_item
  simp only
  split
  · exact release_item_channel _ _ _
  · rfl

theorem pipe_clear_pipe (w w' : World) (h : red_channel_pipe_clear w = some w') :
    w'.channel.pipe = [] := by
  unfold red_channel_pipe_clear at h
  simp only at h
  generalize (if w.channel.rcc = true then red_channel_client_clear_sent_item w else w) = w1 at h
  split at h
  · cases h
  · injection h with h
    subst h
    rfl

theorem shutdown_pipe (w w' : World) (h : red_channel_shutdown w = some w') :
    w'.channel.pipe = [] :=
  pipe_clear_pipe _ _ h

theorem disconnect_pipe (w w' : World) (h : red_channel_disconnect w = some w') :
    w'.channel.pipe = [] := by
  unfold red_channel_disconnect at h
  cases hc : red_channel_pipe_clear w with
  | none => simp [hc] at h
  | some w1 =>
    have hp := pipe_clear_pipe w w1 hc
    simp only [hc, Option.map_some', Option.some.injEq] at h
    subst h
    split
    · unfold red_channel_client_disconnect
      split <;> exact hp
    · exact hp

theorem outgoing_on_error_pipe (cls : ChannelClass) (w w' : World)
    (h : outgoing_on_error cls w = some w') :
    w'.channel.pipe.length ≤ w.channel.pipe.length := by
  unfold outgoing_on_error at h
  simp only at h
  split at h
  · injection h with h
    subst h
    exact le_refl _
  · rw [shutdown_pipe _ _ h]; exact Nat.zero_le _
  · rw [disconnect_pipe _ _ h]; exact Nat.zero_le _

theorem outgoing_written_channel (w : World) (n : Nat) :
    (∀ w1, outgoing_written w n = Sum.inl w1 → w1.channel = w.channel) ∧
    (∀ w1, outgoing_written w n = Sum.inr w1 → w1.channel = w.channel) := by
  unfold outgoing_written
  simp only
  split
  · constructor
    · intro w1 h
      injection h with h
      subst h
      exact on_out_msg_done_channel _
    · intro w1 h
      cases h
  · constructor
    · intro w1 h
      cases h
    · intro w1 h
      injection h with h
      subst h
      rfl

/-- The writer never adds to the pipe. -/
theorem outgoing_loop_pipe (cls : ChannelClass) (wr : List WriteResult) : ∀ (w w' : World),
    red_peer_handle_outgoing_loop cls wr w = some w' →
    w'.channel.pipe.length ≤ w.channel.pipe.length := by
  induction wr with
  | nil =>
    intro w w' h
    unfold red_peer_handle_outgoing_loop at h
    split at h
    · rename_i w1 hw
      injection h with h
      subst h
      rw [(outgoing_written_channel _ _).1 _ hw]
    · cases h
  | cons e rest ih =>
    intro w w' h
    cases e with
    | accept k =>
      unfold red_peer_handle_outgoing_loop at h
      split at h
      · rename_i w1 hw
        injection h with h
        subst h
        rw [(outgoing_written_channel _ _).1 _ hw]
      · rename_i w1 hw
        have := ih w1 w' h
        rw [(outgoing_written_channel _ _).2 _ hw] at this
        exact this
    | eagain =>
      unfold red_peer_handle_outgoing_loop at h
      injection h with h
      subst h
      exact le_refl _
    | eintr =>
      unfold red_peer_handle_outgoing_loop at h
      have := ih _ w' h
      exact this
    | epipe =>
      unfold red_peer_handle_outgoing_loop at h
      have := outgoing_on_error_pipe cls _ w' h
      exact this
    | other =>
      unfold red_peer_handle_outgoing_loop at h
      have := outgoing_on_error_pipe cls _ w' h
      exact this

theorem send_pipe (cls : ChannelClass) (w w' : World)
    (h : red_channel_client_send cls w = some w') :
    w'.channel.pipe.length ≤ w.channel.pipe.length := by
  unfold red_channel_client_send red_peer_handle_outgoing at h
  split at h
  · simp only at h
    split at h
    · injection h with h
      subst h
      exact le_refl _
    · have := outgoing_loop_pipe cls _ _ w' h
      exact this
  · exact outgoing_loop_pipe cls _ _ w' h

theorem init_send_data_channel (w w' : World) (t : Nat) (item : Option PipeItem)
    (h : red_channel_client_init_send_data w t item = some w') : w'.channel = w.channel := by
  unfold red_channel_client_init_send_data at h
  split at h
  · cases h
  · split at h
    · cases h
    · split at h
      · cases h
      · split at h <;>
        · injection h with h
          subst h
          rfl

theorem begin_send_message_pipe (cls : ChannelClass) (w w' : World)
    (h : red_channel_client_begin_send_message cls w = some w') :
    w'.channel.pipe.length ≤ w.channel.pipe.length := by
  unfold red_channel_client_begin_send_message at h
  split at h
  · cases h
  · split at h
    · injection h with h
      subst h
      exact le_refl _
    · have := send_pipe cls _ w' h
      exact this

/-- Nothing `red_channel_client_send_item` calls adds to the pipe. -/
theorem send_item_pipe (cls : ChannelClass) (w w' : World) (item : PipeItem)
    (h : red_channel_client_send_item cls w item = some w') :
    w'.channel.pipe.length ≤ w.channel.pipe.length := by
  unfold red_channel_client_send_item at h
  split at h
  · cases h
  · simp only at h
    split at h
    · unfold red_channel_client_send_set_ack at h
      cases hi : red_channel_client_init_send_data
          (red_channel_client_reset_send_data (w.log (Event.send_item item)))
          SPICE_MSG_SET_ACK none with
      | none => simp [hi] at h
      | some w1 =>
        have hc := init_send_data_channel _ _ _ _ hi
        simp only [hi, Option.bind] at h
        have := begin_send_message_pipe cls _ w' h
        simpa [hc, red_channel_client_reset_send_data, World.log] using this
    · unfold channel_send_item at h
      cases hi : red_channel_client_init_send_data
          (red_channel_client_reset_send_data (w.log (Event.send_item item)))
          (cls.msg_type item) (some item) with
      | none => simp [hi] at h
      | some w1 =>
        have hc := init_send_data_channel _ _ _ _ hi
        simp only [hi, Option.bind] at h
        have := begin_send_message_pipe cls _ w' h
        simpa [hc, red_channel_client_reset_send_data, World.log] using this

theorem pipe_get_some_length (w w1 : World) (item : PipeItem)
    (h : red_channel_client_pipe_get w = (some item, w1)) :
    w1.channel.pipe.length + 1 = w.channel.pipe.length := by
  unfold red_channel_client_pipe_get at h
  split at h
  · cases h
  · split at h
    · cases h
    · rename_i x hx
      injection h with _ h2
      subst h2
      have hne : w.channel.pipe ≠ [] := by
        intro hnil
        simp [hnil, ring_get_tail] at hx
      simp only [List.length_dropLast]
      have := List.length_pos.mpr hne
      omega

/-- The loop of the pump, given as many iterations as the pipe has items, ends
because `red_channel_client_pipe_get` returns no item, whenever it returns. -/
theorem push_loop_exit (cls : ChannelClass) : ∀ (fuel : Nat) (w w' : World),
    w.channel.pipe.length ≤ fuel → red_channel_client_push_loop cls fuel w = some w' →
    (red_channel_client_pipe_get w').1 = none := by
  intro fuel
  induction fuel with
  | zero =>
    intro w w' hlen h
    simp only [red_channel_client_push_loop, Option.some.injEq] at h
    subst h
    have hnil : w.channel.pipe = [] := List.length_eq_zero.mp (Nat.le_zero.mp hlen)
    unfold red_channel_client_pipe_get
    split
    · rfl
    · simp [hnil, ring_get_tail]
  | succ fuel ih =>
    intro w w' hlen h
    unfold red_channel_client_push_loop at h
    split at h
    · rename_i w1 hget
      injection h with h
      subst h
      have h1 : (red_channel_client_pipe_get w).1 = none := by rw [hget]
      have := pipe_get_none w h1
      rw [this] at hget
      injection hget with _ h2
      rw [← h2]
      exact h1
    · rename_i item w1 hget
      have hl := pipe_get_some_length w w1 item hget
      cases hs : red_channel_client_send_item cls w1 item with
      | none => simp [hs] at h
      | some w2 =>
        have hp := send_item_pipe cls w1 w2 item hs
        simp only [hs, Option.bind] at h
        exact ih w2 w' (by omega) h

/-- The pump, whenever it returns from a call that was not re-entrant, has
stopped because `red_channel_client_pipe_get` returns no item: the bound on
its loop is never what stops it. -/
theorem push_exit (cls : ChannelClass) (w w' : World) (hds : w.client.during_send = false)
    (h : red_channel_client_push cls w = some w') :
    (red_channel_client_pipe_get w').1 = none := by
  unfold red_channel_client_push at h
  simp only [hds, Bool.false_eq_true, if_false] at h
  cases h2 : (if w.client.send_data.blocked = true then
      red_channel_client_send cls { w with client.during_send := true }
    else some { w with client.during_send := true }) with
  | none => simp [h2] at h
  | some w2 =>
    simp only [h2, Option.bind] at h
    cases h3 : red_channel_client_push_loop cls w2.channel.pipe.length w2 with
    | none => simp [h3] at h
    | some w3 =>
      simp only [h3, Option.map_some', Option.some.injEq] at h
      subst h
      have hexit := push_loop_exit cls _ w2 w3 (le_refl _) h3
      unfold red_channel_client_pipe_get at hexit ⊢
      simp only [red_channel_client_waiting_for_ack] at hexit ⊢
      split
      · rfl
      · rename_i hgate
        simp only [hgate, if_false] at hexit
        cases htail : ring_get_tail w3.channel.pipe with
        | none => rfl
        | some item => simp [htail] at hexit

/-- C2, amended (ack throttle). On a channel that handles acks, from an idle
client with `messages_window = 0`, an empty pipe and a transport that never
blocks, with a subclass that begins one message per item: after the items are
enqueued with `red_channel_pipe_add` and the pump runs, exactly the first
`min n (t + 1)` of the `n` items have been sent, in the order they were
enqueued, where `t` is the 32-bit product `client_window * 2`; the other items
are still in the pipe; pumping again changes nothing, and once the pump has
stalled enqueuing more items and pumping sends nothing. For a
`client_window` below `2 ^ 31` the bound `t + 1` is `2 * client_window + 1`. -/
theorem ack_throttle (cls : ChannelClass) (hcls : sends_one_message cls) (w : World)
    (items : List PipeItem) (hidle : SendIdle w) (hacks : w.channel.handle_acks = true)
    (hrcc : w.channel.rcc = true) (hds : w.client.during_send = false)
    (hmw : w.client.ack_data.messages_window = 0) (hpipe : w.channel.pipe = [])
    (hty : ∀ x ∈ items, x.type ≠ PIPE_ITEM_TYPE_SET_ACK) :
    ∃ w', red_channel_push cls (pipe_add_all w items) = some w' ∧
      sent_items w'.trace = sent_items w.trace ++ items.take (ack_threshold w + 1) ∧
      done_count w'.trace = done_count w.trace + min items.length (ack_threshold w + 1) ∧
      w'.channel.pipe = (items.drop (ack_threshold w + 1)).reverse ∧
      w'.client.ack_data.messages_window = min items.length (ack_threshold w + 1) ∧
      red_channel_push cls w' = some w' ∧
      (ack_threshold w + 1 ≤ items.length → ∀ more : List PipeItem,
        red_channel_push cls (pipe_add_all w' more) = some (pipe_add_all w' more)) ∧
      (w.client.ack_data.client_window < 2 ^ 31 →
        ack_threshold w + 1 = 2 * w.client.ack_data.client_window + 1) := by
  obtain ⟨hp1, hc1, ht1, ha1, hr1⟩ := pipe_add_all_pipe items w
  rw [hpipe, List.append_nil] at hp1
  obtain ⟨w1, hw1⟩ : ∃ w1 : World, w1 = { pipe_add_all w items with client.during_send := true } :=
    ⟨_, rfl⟩
  have hw1p : w1.channel.pipe = items.reverse := by rw [hw1]; exact hp1
  have hw1a : w1.channel.handle_acks = true := by rw [hw1]; exact ha1.trans hacks
  have hw1r : w1.channel.rcc = true := by rw [hw1]; exact hr1.trans hrcc
  have hw1t : w1.trace = w.trace := by rw [hw1]; exact ht1
  have hw1k : w1.client.ack_data = w.client.ack_data := by rw [hw1]; simp [hc1]
  have hw1b : w1.client.send_data = w.client.send_data := by rw [hw1]; simp [hc1]
  have hw1o : w1.client.outgoing = w.client.outgoing := by rw [hw1]; simp [hc1]
  have hw1s : w1.client.stream = w.client.stream := by rw [hw1]; simp [hc1]
  have hidle1 : SendIdle w1 := by
    constructor
    · rw [hw1b]; exact hidle.blocked
    · rw [hw1b]; exact hidle.size
    · rw [hw1b]; exact hidle.item
    · rw [hw1o]; exact hidle.opos
    · rw [hw1o]; exact hidle.osize
    · rw [hw1s]; exact hidle.wr
  have hth : ack_threshold w1 = ack_threshold w := by simp [ack_threshold, hw1k]
  obtain ⟨w3, hloop, hidle3, hacks3, hrcc3, hpipe3, hsent3, hdone3, hack3, hds3, hexit3⟩ :=
    push_loop_throttle cls hcls items items.length w1 hidle1 hw1a hw1p hty (le_refl _)
      (by rw [hw1k, hmw]; omega)
  rw [hth, hw1k, hmw, Nat.sub_zero] at hpipe3 hsent3 hdone3 hack3
  rw [hw1t] at hsent3 hdone3
  rw [hw1r] at hrcc3
  simp only [Nat.zero_add] at hack3
  have hpush : red_channel_push cls (pipe_add_all w items)
      = some { w3 with client.during_send := false } := by
    have hb : (pipe_add_all w items).client.send_data.blocked = false := by
      rw [hc1]; exact hidle.blocked
    have hds1 : (pipe_add_all w items).client.during_send = false := by rw [hc1]; exact hds
    have hlen : (pipe_add_all w items).channel.pipe.length = items.length := by simp [hp1]
    rw [hw1] at hloop
    simp only [red_channel_push, hr1, hrcc, Bool.not_true, Bool.false_eq_true, if_false,
      red_channel_client_push, hds1, hb, Option.bind, hlen, hloop, Option.map]
  -- the final state finds nothing to dequeue
  have hexit : ∀ more : List PipeItem,
      (more = [] ∨ ack_threshold w + 1 ≤ items.length) →
      (red_channel_client_pipe_get (pipe_add_all { w3 with client.during_send := false } more)).1
        = none := by
    intro more hcase
    obtain ⟨hp, hc, _, ha, _⟩ := pipe_add_all_pipe more { w3 with client.during_send := false }
    unfold red_channel_client_pipe_get
    split
    · rfl
    · rename_i hgate
      rcases hcase with hm | hstall
      · subst hm
        unfold red_channel_client_pipe_get at hexit3
        have hgate3 : ¬ ((w3.client.send_data.blocked
            || red_channel_client_waiting_for_ack w3) = true) := by
          simpa [pipe_add_all, red_channel_client_waiting_for_ack] using hgate
        simp only [hgate3, if_false] at hexit3
        simp only [pipe_add_all, List.foldl_nil]
        cases htail : ring_get_tail w3.channel.pipe with
        | none => rfl
        | some item => simp [htail] at hexit3
      · exfalso
        apply hgate
        have hT := ack_threshold_lt w
        have hmw3 : w3.client.ack_data.messages_window = ack_threshold w + 1 := by
          rw [hack3]
          show min items.length (ack_threshold w + 1) = _
          omega
        have hcw3 : w3.client.ack_data.client_window = w.client.ack_data.client_window := by
          rw [hack3]
        have hw : red_channel_client_waiting_for_ack
            (pipe_add_all { w3 with client.during_send := false } more) = true := by
          unfold red_channel_client_waiting_for_ack
          rw [ha, hc]
          show (w3.channel.handle_acks && decide (w3.client.ack_data.messages_window
            > (w3.client.ack_data.client_window * 2) % U32)) = true
          rw [hacks3, hmw3, hcw3]
          simp only [Bool.true_and, decide_eq_true_eq, ack_threshold]
          omega
        simp [hw]
  refine ⟨{ w3 with client.during_send := false }, hpush, hsent3, hdone3, hpipe3, ?_, ?_, ?_, ?_⟩
  · show w3.client.ack_data.messages_window = _
    rw [hack3]
  · have := hexit [] (Or.inl rfl)
    simp only [red_channel_push, hrcc3, Bool.not_true, Bool.false_eq_true, if_false]
    exact push_noop cls { w3 with client.during_send := false } rfl hidle3.blocked this
  · intro hstall more
    have := hexit more (Or.inr hstall)
    obtain ⟨_, hc, _, _, hr⟩ := pipe_add_all_pipe more { w3 with client.during_send := false }
    have hr' : (pipe_add_all { w3 with client.during_send := false } more).channel.rcc = true := by
      rw [hr]
      exact hrcc3
    simp only [red_channel_push, hr', Bool.not_true, Bool.false_eq_true, if_false]
    exact push_noop cls _ (by rw [hc]) (by rw [hc]; exact hidle3.blocked) this
  · intro hlt
    simp only [ack_threshold, U32_eq]
    omega

/-- C2 at the scenario of the spec: `client_window = 10`, 30 items enqueued,
exactly 21 sent and 9 left in the pipe. -/
theorem ack_throttle_witness :
    ∃ w', red_channel_push scenario_cls (pipe_add_all (throttle_world 10) (scenario_items 30))
        = some w' ∧
      sent_items w'.trace = scenario_items 21 ∧ done_count w'.trace = 21 ∧
      w'.channel.pipe = ((scenario_items 30).drop 21).reverse ∧
      w'.client.ack_data.messages_window = 21 ∧
      red_channel_push scenario_cls w' = some w' := by
  obtain ⟨w', h1, h2, h3, h4, h5, h6, _, _⟩ :=
    ack_throttle scenario_cls (fun item => by simp [scenario_cls]) (throttle_world 10)
      (scenario_items 30) ⟨rfl, rfl, rfl, rfl, rfl, fun e he => by cases he⟩ rfl rfl rfl rfl rfl
      (by decide)
  have ht : ack_threshold (throttle_world 10) + 1 = 21 := by decide
  rw [ht] at h2 h3 h4 h5
  exact ⟨w', h1, by rw [h2]; decide, by rw [h3]; decide, h4, by rw [h5]; decide, h6⟩

/-- C2 as stated fails: with `client_window = 2 ^ 31` the 32-bit product
`client_window * 2` is 0, and of two items enqueued only one is sent, not
`min 2 (2 * 2 ^ 31 + 1) = 2`. -/
theorem ack_throttle_counterexample :
    (throttle_world (2 ^ 31)).channel.handle_acks = true ∧
    (throttle_world (2 ^ 31)).client.ack_data.messages_window = 0 ∧
    (throttle_world (2 ^ 31)).client.ack_data.client_window = 2 ^ 31 ∧
    (throttle_world (2 ^ 31)).client.send_data.blocked = false ∧
    (red_channel_push scenario_cls
        (pipe_add_all (throttle_world (2 ^ 31)) (scenario_items 2))).map
      (fun w' => (sent_items w'.trace, w'.channel.pipe))
      = some ([{ type := 101, id := 0 }], [{ type := 101, id := 1 }]) ∧
    min 2 (2 * 2 ^ 31 + 1) ≠ 1 := by
  decide

/-- C3 as stated fails: in the ack-throttle scenario 21 of the 30 items are
sent before the stall, and after `ACK_SYNC` with the server's generation and
`ACK` all 30 have been sent: 9 more, not 10. -/
theorem ack_credit_counterexample :
    (stalled_world 30).map (fun w => (sent_items w.trace).length) = some 21 ∧
    (((stalled_world 30).bind ack_sync_current).bind
        (fun r => red_channel_client_handle_message scenario_cls r.2 0 SPICE_MSGC_ACK [])).map
        (fun r => (sent_items r.2.trace).length)
      = some 30 ∧
    30 - 21 ≠ 10 := by
  decide

/-- The scenarios of C3 with 30 and with 40 items, evaluated. In the
ack-throttle scenario (`client_window = 10`, 30 items
enqueued, pump stalled after 21 items with `messages_window = 21`), handling
`ACK_SYNC` carrying the server's generation returns true and makes the
generations equal; handling `ACK` then returns true, subtracts 10 from
`messages_window` and runs the pump, which from `messages_window = 11` sends
the 9 items left in the pipe, in order, leaving the pipe empty and
`messages_window` at 20. With 40 items enqueued, so that at least 10 are left,
exactly 10 more are sent, and the pump stalls again at
`messages_window = 21`. -/
theorem ack_credit_scenario :
    (stalled_world 30).map
        (fun w => (sent_items w.trace, w.client.ack_data.messages_window, w.channel.pipe.length))
      = some (scenario_items 21, 21, 9) ∧
    ((stalled_world 30).bind ack_sync_current).map
        (fun r => (r.1, decide (r.2.client.ack_data.client_generation
          = r.2.client.ack_data.generation)))
      = some (true, true) ∧
    (((stalled_world 30).bind ack_sync_current).bind
        (fun r => red_channel_client_push scenario_cls
          { r.2 with client.ack_data.messages_window := 21 - 10 })).map
        (fun w => (sent_items w.trace, w.channel.pipe, w.client.ack_data.messages_window))
      = some (scenario_items 30, [], 11 + 9) ∧
    (((stalled_world 30).bind ack_sync_current).bind
        (fun r => red_channel_client_handle_message scenario_cls r.2 0 SPICE_MSGC_ACK [])).map
        (fun r => (r.1, sent_items r.2.trace, r.2.channel.pipe,
          r.2.client.ack_data.messages_window))
      = some (true, scenario_items 30, [], 20) ∧
    (((stalled_world 40).bind ack_sync_current).bind
        (fun r => red_channel_client_handle_message scenario_cls r.2 0 SPICE_MSGC_ACK [])).map
        (fun r => (r.1, sent_items r.2.trace, r.2.channel.pipe.length,
          r.2.client.ack_data.messages_window))
      = some (true, scenario_items 31, 9, 21) := by
  refine ⟨by decide, by decide, by decide, by decide, by decide⟩

/-- C4, amended (gate of the pipe pump). `red_channel_client_pipe_get` returns no item
and leaves the whole state, so the pipe and `pipe_size`, unchanged whenever
`send_data.blocked` is set or the client is waiting for ack; in every other
state with a non-empty pipe, of tail `x`, it returns `x`, removes it from the
pipe and decrements the 32-bit `pipe_size` by one. The client is waiting for
ack exactly when `handle_acks` is true and `messages_window` exceeds the
32-bit product `client_window * 2`, which is `2 * client_window` for a window
below `2 ^ 31`. -/
theorem pipe_get_gate (w : World) :
    ((w.client.send_data.blocked = true ∨ red_channel_client_waiting_for_ack w = true) →
      red_channel_client_pipe_get w = (none, w)) ∧
    (w.client.send_data.blocked = false → red_channel_client_waiting_for_ack w = false →
      ∀ p x, w.channel.pipe = p ++ [x] →
        red_channel_client_pipe_get w = (some x, { w with
          channel.pipe_size := (w.channel.pipe_size + U32 - 1) % U32
          channel.pipe := p }) ∧
        (0 < w.channel.pipe_size → w.channel.pipe_size < U32 →
          (w.channel.pipe_size + U32 - 1) % U32 = w.channel.pipe_size - 1)) ∧
    (red_channel_client_waiting_for_ack w = true ↔
      w.channel.handle_acks = true ∧
        w.client.ack_data.messages_window > (w.client.ack_data.client_window * 2) % U32) ∧
    (w.client.ack_data.client_window < 2 ^ 31 →
      (w.client.ack_data.client_window * 2) % U32 = 2 * w.client.ack_data.client_window) := by
  refine ⟨?_, ?_, ?_, ?_⟩
  · intro h
    apply pipe_get_none
    unfold red_channel_client_pipe_get
    rcases h with h | h <;> simp [h]
  · intro hb hw p x hp
    refine ⟨pipe_get_open w p x hb hw hp, ?_⟩
    intro h0 hlt
    simp only [U32_eq] at hlt ⊢
    omega
  · simp [red_channel_client_waiting_for_ack]
  · intro hlt
    simp only [U32_eq]
    omega

/-- C4 at a concrete state: three items enqueued on the client of the
ack-throttle scenario; the tail, the item enqueued first, is returned and
`pipe_size` goes from 3 to 2. -/
theorem pipe_get_gate_witness :
    red_channel_client_pipe_get (pipe_add_all (throttle_world 10) (scenario_items 3))
        = (some { type := 101, id := 0 },
            { pipe_add_all (throttle_world 10) (scenario_items 3) with
              channel.pipe_size := (3 + U32 - 1) % U32
              channel.pipe := [{ type := 101, id := 2 }, { type := 101, id := 1 }] }) ∧
    (3 + U32 - 1) % U32 = 3 - 1 :=
  (pipe_get_gate (pipe_add_all (throttle_world 10) (scenario_items 3))).2.1 rfl rfl
    [{ type := 101, id := 2 }, { type := 101, id := 1 }] { type := 101, id := 0 } rfl
  |>.imp id (fun h => h (by decide) (by decide))

/-- C4 as stated fails: with `client_window = 2 ^ 31`, after one message the
client is not blocked, `messages_window = 1` does not exceed
`2 * client_window`, and the pipe holds an item; `red_channel_client_pipe_get`
returns no item, the 32-bit product `client_window * 2` being 0. -/
theorem pipe_get_gate_counterexample :
    red_channel_push scenario_cls (pipe_add_all (throttle_world (2 ^ 31)) (scenario_items 2))
        = some gate_wrap_world ∧
      (gate_wrap_world.client.send_data.blocked = false ∧
        gate_wrap_world.channel.handle_acks = true ∧
        gate_wrap_world.client.ack_data.messages_window = 1 ∧
        gate_wrap_world.client.ack_data.client_window = 2 ^ 31) ∧
      ¬ (gate_wrap_world.client.ack_data.messages_window
          > 2 * gate_wrap_world.client.ack_data.client_window) ∧
      gate_wrap_world.channel.pipe = [{ type := 101, id := 1 }] ∧
      red_channel_client_pipe_get gate_wrap_world = (none, gate_wrap_world) := by
  refine ⟨rfl, by decide, by decide, by decide, rfl⟩

theorem pipe_get_waiting (w : World) (h : red_channel_client_waiting_for_ack w = true) :
    red_channel_client_pipe_get w = (none, w) := by
  simp [red_channel_client_pipe_get, h]

/-- C6, amended (`SET_ACK` emission). From an idle client on a transport that
never blocks, with the gate open: servicing a `SET_ACK` item with
`red_channel_client_send_item`, and so pumping a pipe that holds just that
item, begins exactly one message, of type `SPICE_MSG_SET_ACK` and body
`{generation = g + 1, window = client_window}` (`g + 1` as a 32-bit value),
and leaves `ack_data.generation = g + 1` and `ack_data.messages_window = 1`:
the counter is zeroed and then counts the `SET_ACK` message itself. -/
theorem set_ack_emission (cls : ChannelClass) (w : World) (item : PipeItem) (hidle : SendIdle w)
    (hty : item.type = PIPE_ITEM_TYPE_SET_ACK) (hds : w.client.during_send = false)
    (hw : red_channel_client_waiting_for_ack w = false) (hp : w.channel.pipe = [item]) :
    (∃ w1, red_channel_client_send_item cls w item = some w1 ∧
      begun_messages w1.trace = begun_messages w.trace ++
        [({ serial := (w.client.send_data.serial + 1) % U64, type := SPICE_MSG_SET_ACK,
            size := 8, sub_list := 0 },
          le_encode 4 ((w.client.ack_data.generation + 1) % U32)
            ++ le_encode 4 w.client.ack_data.client_window)] ∧
      w1.client.ack_data.generation = (w.client.ack_data.generation + 1) % U32 ∧
      w1.client.ack_data.messages_window = 1) ∧
    (∃ w', red_channel_client_push cls w = some w' ∧
      begun_messages w'.trace = begun_messages w.trace ++
        [({ serial := (w.client.send_data.serial + 1) % U64, type := SPICE_MSG_SET_ACK,
            size := 8, sub_list := 0 },
          le_encode 4 ((w.client.ack_data.generation + 1) % U32)
            ++ le_encode 4 w.client.ack_data.client_window)] ∧
      done_count w'.trace = done_count w.trace + 1 ∧
      w'.client.ack_data.generation = (w.client.ack_data.generation + 1) % U32 ∧
      w'.client.ack_data.messages_window = 1 ∧
      w'.channel.pipe = []) ∧
    (w.client.ack_data.generation + 1 < U32 →
      (w.client.ack_data.generation + 1) % U32 = w.client.ack_data.generation + 1) := by
  refine ⟨?_, ?_, fun h => Nat.mod_eq_of_lt h⟩
  · obtain ⟨wr', _, e⟩ := send_set_ack_idle cls w item hidle hty
    exact ⟨_, e, by simp [sent_set_ack, begun_messages_append, begun_messages, set_ack_header,
      set_ack_body], rfl, rfl⟩
  · have hfirst := push_first cls w [] item hds hidle.blocked hw (by simpa using hp)
    have hidle1 : SendIdle { w with
        client.during_send := true
        channel.pipe_size := (w.channel.pipe_size + U32 - 1) % U32
        channel.pipe := [] } :=
      ⟨hidle.blocked, hidle.size, hidle.item, hidle.opos, hidle.osize, hidle.wr⟩
    obtain ⟨wr', _, e⟩ := send_set_ack_idle cls _ item hidle1 hty
    rw [hfirst, e]
    refine ⟨_, rfl, ?_, ?_, rfl, rfl, rfl⟩
    · simp [sent_set_ack, begun_messages_append, begun_messages, set_ack_header, set_ack_body]
    · simp [sent_set_ack, done_count_append, done_count]

/-- C6 at the scenario of the spec: `push_set_ack` on the client of the
ack-throttle scenario, whose generation is 0 and window 10. -/
theorem set_ack_emission_witness :
    ∃ w', red_channel_client_push scenario_cls
        (red_channel_pipe_add (throttle_world 10) { type := PIPE_ITEM_TYPE_SET_ACK, id := 7 })
        = some w' ∧
      begun_messages w'.trace
        = [({ serial := 1, type := SPICE_MSG_SET_ACK, size := 8, sub_list := 0 },
            [1, 0, 0, 0, 10, 0, 0, 0])] ∧
      w'.client.ack_data.generation = 1 ∧ w'.client.ack_data.messages_window = 1 := by
  obtain ⟨_, ⟨w', h1, h2, _, h4, h5, _⟩, _⟩ :=
    set_ack_emission scenario_cls
      (red_channel_pipe_add (throttle_world 10) { type := PIPE_ITEM_TYPE_SET_ACK, id := 7 })
      { type := PIPE_ITEM_TYPE_SET_ACK, id := 7 }
      ⟨rfl, rfl, rfl, rfl, rfl, fun e he => by cases he⟩ rfl rfl (by decide) rfl
  exact ⟨w', h1, h2, h4, h5⟩

/-- C6 as stated fails: after `push_set_ack` has enqueued a `SET_ACK` item and
the pump has serviced it, one `SET_ACK` message with generation 1 and window
10 has been begun and the generation is 1, but `messages_window` is 1, not
0. -/
theorem set_ack_emission_counterexample :
    (red_channel_client_push_set_ack scenario_cls (throttle_world 10) 7).map
        (fun w => (begun_messages w.trace, w.client.ack_data.generation,
          w.client.ack_data.messages_window))
      = some ([({ serial := 1, type := SPICE_MSG_SET_ACK, size := 8, sub_list := 0 },
                [1, 0, 0, 0, 10, 0, 0, 0])], 1, 1) ∧
    (1 : Nat) ≠ 0 := by
  decide

/-- C7 (a new client waits for ack). A client as `red_channel_client_create`
returns it on a channel with `handle_acks` true has `messages_window = ~0`,
`client_generation = ~0` (both `2 ^ 32 - 1`) and
`client_window = CLIENT_ACK_WINDOW`, and it is waiting for ack: whatever the
pipe holds, `SET_ACK` items included, the pump changes nothing, and enqueuing
with `red_channel_pipe_add_push` only enqueues.
`red_channel_init_outgoing_messages_window` sets `messages_window` to 0 and
pumps; the client is then not waiting, and when the pipe is not empty the pump
dequeues its tail and hands it to `red_channel_client_send_item`. -/
theorem new_client_waits (CLIENT_ACK_WINDOW : Nat) (hc : CLIENT_ACK_WINDOW < U32)
    (channel : RedChannel) (hacks : channel.handle_acks = true) (stream : RedsStream)
    (trace : List Event) (cls : ChannelClass) :
    ∃ w, red_channel_client_create CLIENT_ACK_WINDOW channel stream true trace = some w ∧
      w.client.ack_data.messages_window = 2 ^ 32 - 1 ∧
      w.client.ack_data.client_generation = 2 ^ 32 - 1 ∧
      w.client.ack_data.client_window = CLIENT_ACK_WINDOW ∧
      w.channel.pipe = channel.pipe ∧
      red_channel_client_waiting_for_ack w = true ∧
      red_channel_client_push cls w = some w ∧
      (∀ item, red_channel_pipe_add_push cls w item = some (red_channel_pipe_add w item)) ∧
      red_channel_init_outgoing_messages_window cls w
        = red_channel_client_push cls (red_channel_client_ack_zero_messages_window w) ∧
      (red_channel_client_ack_zero_messages_window w).client.ack_data.messages_window = 0 ∧
      red_channel_client_waiting_for_ack (red_channel_client_ack_zero_messages_window w)
        = false ∧
      (∀ p x, channel.pipe = p ++ [x] →
        red_channel_init_outgoing_messages_window cls w
          = ((red_channel_client_send_item cls
                { red_channel_client_ack_zero_messages_window w with
                  client.during_send := true
                  channel.pipe_size := (channel.pipe_size + U32 - 1) % U32
                  channel.pipe := p } x).bind
              (red_channel_client_push_loop cls p.length)).map
            fun w3 => { w3 with client.during_send := false }) := by
  have hwait0 : red_channel_client_waiting_for_ack
      (client_new CLIENT_ACK_WINDOW channel stream trace) = true := by
    simp only [red_channel_client_waiting_for_ack, client_new, hacks, Bool.true_and,
      decide_eq_true_eq, U32_eq]
    omega
  have hzero : red_channel_client_waiting_for_ack
      (red_channel_client_ack_zero_messages_window
        (client_new CLIENT_ACK_WINDOW channel stream trace)) = false := by
    simp [red_channel_client_waiting_for_ack, red_channel_client_ack_zero_messages_window,
      client_new]
  refine ⟨client_new CLIENT_ACK_WINDOW channel stream trace, by simp [red_channel_client_create],
    by norm_num [client_new, U32], by norm_num [client_new, U32],
    by simp [client_new, Nat.mod_eq_of_lt hc], rfl, hwait0, ?_, ?_, rfl, rfl, hzero, ?_⟩
  · exact push_noop cls _ rfl rfl (by rw [pipe_get_waiting _ hwait0])
  · intro item
    have hw : red_channel_client_waiting_for_ack (red_channel_pipe_add
        (client_new CLIENT_ACK_WINDOW channel stream trace) item) = true := hwait0
    have := push_noop cls (red_channel_pipe_add
      (client_new CLIENT_ACK_WINDOW channel stream trace) item) rfl rfl
      (by rw [pipe_get_waiting _ hw])
    simpa [red_channel_pipe_add_push, red_channel_push, red_channel_pipe_add, client_new]
      using this
  · intro p x hp
    exact push_first cls _ p x rfl rfl hzero hp

/-- C7 at a concrete channel: `CLIENT_ACK_WINDOW = 20`, a pipe holding a
subclass item and a `SET_ACK` item. -/
theorem new_client_waits_witness :
    ∃ w, red_channel_client_create 20
        { red_channel_create false true with
          pipe := [{ type := 101, id := 1 }, { type := PIPE_ITEM_TYPE_SET_ACK, id := 0 }]
          pipe_size := 2 }
        (stream_new [] []) true [] = some w ∧
      red_channel_client_waiting_for_ack w = true ∧
      red_channel_client_push scenario_cls w = some w ∧
      (red_channel_init_outgoing_messages_window scenario_cls w).map
          (fun w' => (sent_items w'.trace, w'.channel.pipe))
        = some ([{ type := PIPE_ITEM_TYPE_SET_ACK, id := 0 }, { type := 101, id := 1 }], []) := by
  obtain ⟨w, h1, _, _, _, _, h6, h7, _⟩ :=
    new_client_waits 20 (by decide)
      { red_channel_create false true with
        pipe := [{ type := 101, id := 1 }, { type := PIPE_ITEM_TYPE_SET_ACK, id := 0 }]
        pipe_size := 2 }
      rfl (stream_new [] []) [] scenario_cls
  refine ⟨w, h1, h6, h7, ?_⟩
  simp only [red_channel_client_create, Bool.not_true, Bool.false_eq_true, if_false,
    Option.some.injEq] at h1
  subst h1
  decide

/-- Successive items processed by `red_channel_client_send_item` from an idle
client, on a transport that never blocks: each begins one message, and the
serials of the messages go up by one, as 64-bit values, from the serial the
client had. -/
theorem send_items_serials (cls : ChannelClass) (hcls : sends_one_message cls) :
    ∀ (items : List PipeItem) (w : World), SendIdle w → w.client.send_data.serial < U64 →
      ∃ w', send_items cls w items = some w' ∧ SendIdle w' ∧
        w'.client.send_data.serial = (w.client.send_data.serial + items.length) % U64 ∧
        begun_serials w'.trace = begun_serials w.trace ++
          (List.range items.length).map (fun i => (w.client.send_data.serial + (i + 1)) % U64) ∧
        sent_items w'.trace = sent_items w.trace ++ items ∧
        (items ≠ [] →
          w'.client.send_data.marshaller.header.serial = w'.client.send_data.serial) := by
  intro items
  induction items with
  | nil =>
    intro w hidle hlt
    refine ⟨w, rfl, hidle, ?_, by simp, by simp, fun h => absurd rfl h⟩
    simp only [List.length_nil, Nat.add_zero]
    exact (Nat.mod_eq_of_lt hlt).symm
  | cons x rest ih =>
    intro w hidle _
    obtain ⟨w1, hdr, body, e1, hidle1, _, hs1, hm1, hh1, hb1, hsent1⟩ :=
      send_item_idle_serial cls hcls w x hidle
    obtain ⟨w', e', hidle', hs', hb', hsent', hm'⟩ := ih w1 hidle1
      (by rw [hs1]; exact Nat.mod_lt _ (by norm_num [U64]))
    refine ⟨w', by simp [send_items, e1, e'], hidle', ?_, ?_, ?_, ?_⟩
    · rw [hs', hs1]
      simp only [List.length_cons, U64_eq]
      omega
    · rw [hb', begun_serials, hb1]
      simp only [List.map_append, List.map_cons, List.map_nil, hh1, List.length_cons,
        List.range_succ_eq_map, List.append_assoc, List.singleton_append, List.map_map, hs1]
      congr 2
      · apply List.map_congr_left
        intro i _
        simp only [Function.comp, U64_eq]
        omega
    · rw [hsent', hsent1]; simp
    · intro _
      cases rest with
      | nil =>
        simp only [send_items, Option.some.injEq] at e'
        subst e'
        rw [hm1, hs1]
      | cons y r => exact hm' (by simp)

/-- Items processed in turn on a transport that never blocks: for a client
whose send serial is 0, idle, with a subclass that begins one message per item,
the items processed in turn by `red_channel_client_send_item` each begin one
message, and the `k`-th of them is given the header serial `k mod 2 ^ 64`; as
long as fewer than `2 ^ 64` items have been processed that is `k`. -/
theorem send_items_from_one (cls : ChannelClass) (hcls : sends_one_message cls) (w : World)
    (items : List PipeItem) (hidle : SendIdle w) (hs : w.client.send_data.serial = 0) :
    ∃ w', send_items cls w items = some w' ∧
      sent_items w'.trace = sent_items w.trace ++ items ∧
      begun_serials w'.trace = begun_serials w.trace ++
        (List.range items.length).map (fun i => (i + 1) % U64) ∧
      (items.length < U64 →
        begun_serials w'.trace = begun_serials w.trace ++
          (List.range items.length).map (fun i => i + 1)) := by
  obtain ⟨w', e, _, _, hb, hsent, _⟩ :=
    send_items_serials cls hcls items w hidle (by rw [hs]; norm_num [U64])
  simp only [hs, Nat.zero_add] at hb
  refine ⟨w', e, hsent, hb, ?_⟩
  intro hlt
  rw [hb]
  congr 1
  apply List.map_congr_left
  intro i hi
  have := List.mem_range.mp hi
  exact Nat.mod_eq_of_lt (by omega)

/-- C9, amended (migration data sets the serial). For a client whose send
serial is 0, on a channel whose `handle_migrate_data` is set, handling
`MIGRATE_DATA` returns true, invokes `handle_migrate_data` once and sets the
send serial to what `handle_migrate_data_get_serial` returns, `s` (a 64-bit
value). The next message is given the header serial `s + 1` as a 64-bit value:
`red_channel_client_reset_send_data` stamps `(s + 1) mod 2 ^ 64`, and from an
idle client on a transport that never blocks the next item sent begins one
message with that serial; it is `s + 1` unless `s = 2 ^ 64 - 1`. -/
theorem migrate_data_serial (cls : ChannelClass) (w : World) (size : Nat) (message : List Nat)
    (hs : w.client.send_data.serial = 0) (hm : cls.handle_migrate_data = true) :
    red_channel_client_handle_message cls w size SPICE_MSGC_MIGRATE_DATA message
      = some (true, { w with
          client.send_data.serial := cls.handle_migrate_data_get_serial size message % U64
          trace := w.trace ++ [Event.handle_migrate_data size message] }) ∧
    (cls.handle_migrate_data_get_serial size message < U64 →
      cls.handle_migrate_data_get_serial size message % U64
        = cls.handle_migrate_data_get_serial size message) ∧
    (red_channel_client_reset_send_data { w with
        client.send_data.serial := cls.handle_migrate_data_get_serial size message % U64
        trace := w.trace ++ [Event.handle_migrate_data size message]
      }).client.send_data.marshaller.header.serial
      = (cls.handle_migrate_data_get_serial size message % U64 + 1) % U64 ∧
    (SendIdle w → sends_one_message cls → ∀ item, ∃ w' hdr body,
      red_channel_client_send_item cls { w with
          client.send_data.serial := cls.handle_migrate_data_get_serial size message % U64
          trace := w.trace ++ [Event.handle_migrate_data size message] } item = some w' ∧
        begun_messages w'.trace
          = begun_messages (w.trace ++ [Event.handle_migrate_data size message])
            ++ [(hdr, body)] ∧
        hdr.serial = (cls.handle_migrate_data_get_serial size message % U64 + 1) % U64) ∧
    (cls.handle_migrate_data_get_serial size message + 1 < U64 →
      (cls.handle_migrate_data_get_serial size message % U64 + 1) % U64
        = cls.handle_migrate_data_get_serial size message + 1) := by
  have h1 : SPICE_MSGC_MIGRATE_DATA ≠ SPICE_MSGC_ACK_SYNC := by decide
  have h2 : SPICE_MSGC_MIGRATE_DATA ≠ SPICE_MSGC_ACK := by decide
  have h3 : SPICE_MSGC_MIGRATE_DATA ≠ SPICE_MSGC_DISCONNECTING := by decide
  have h4 : SPICE_MSGC_MIGRATE_DATA ≠ SPICE_MSGC_MIGRATE_FLUSH_MARK := by decide
  refine ⟨?_, fun h => Nat.mod_eq_of_lt h, rfl, ?_, ?_⟩
  · simp [red_channel_client_handle_message, h1, h2, h3, h4, red_channel_handle_migrate_data, hm,
      red_channel_client_get_message_serial, hs, red_channel_client_set_message_serial, World.log]
  · intro hidle hcls item
    obtain ⟨w', hdr, body, e, _, _, _, _, hh, hb, _⟩ :=
      send_item_idle_serial cls hcls { w with
          client.send_data.serial := cls.handle_migrate_data_get_serial size message % U64
          trace := w.trace ++ [Event.handle_migrate_data size message] } item
        ⟨hidle.blocked, hidle.size, hidle.item, hidle.opos, hidle.osize, hidle.wr⟩
    exact ⟨w', hdr, body, e, hb, hh⟩
  · intro h
    simp only [U64_eq] at h ⊢
    omega

/-- C9 at the scenario of the spec: `get_serial` returns 42, the send serial
becomes 42 and the next message carries the serial 43. -/
theorem migrate_data_serial_witness :
    red_channel_client_handle_message scenario_cls (throttle_world 10) 1
        SPICE_MSGC_MIGRATE_DATA [42]
      = some (true, { throttle_world 10 with
          client.send_data.serial := 42
          trace := [Event.handle_migrate_data 1 [42]] }) ∧
    (red_channel_client_reset_send_data { throttle_world 10 with
        client.send_data.serial := 42
        trace := [Event.handle_migrate_data 1 [42]] }).client.send_data.marshaller.header.serial
      = 43 :=
  have h := migrate_data_serial scenario_cls (throttle_world 10) 1 [42] rfl rfl
  ⟨h.1, h.2.2.1⟩

/-- C9 as stated fails for `s = 2 ^ 64 - 1`: the send serial becomes
`2 ^ 64 - 1` and the next outgoing message carries the serial 0, not
`2 ^ 64`. -/
theorem migrate_data_serial_counterexample :
    (throttle_world 10).client.send_data.serial = 0 ∧
    scenario_cls.handle_migrate_data_get_serial 8 [255, 255, 255, 255, 255, 255, 255, 255]
      = 2 ^ 64 - 1 ∧
    (red_channel_client_handle_message scenario_cls (throttle_world 10) 8
        SPICE_MSGC_MIGRATE_DATA [255, 255, 255, 255, 255, 255, 255, 255]).map
      (fun r => (r.1, r.2.client.send_data.serial))
      = some (true, 2 ^ 64 - 1) ∧
    ((red_channel_client_handle_message scenario_cls (throttle_world 10) 8
        SPICE_MSGC_MIGRATE_DATA [255, 255, 255, 255, 255, 255, 255, 255]).bind
      (fun r => red_channel_pipe_add_push scenario_cls r.2 { type := 101, id := 0 })).map
      (fun w => begun_serials w.trace)
      = some [0] ∧
    (0 : Nat) ≠ 2 ^ 64 - 1 + 1 := by
  decide

/-- Successive calls of `red_channel_client_pipe_get` with the gate open
return the pipe from its tail on. -/
theorem pipe_get_n_open : ∀ (q : List PipeItem) (n : Nat) (w : World),
    w.client.send_data.blocked = false → red_channel_client_waiting_for_ack w = false →
    w.channel.pipe = q.reverse → q.length ≤ n →
    (pipe_get_n n w).1 = q ∧ (pipe_get_n n w).2.channel.pipe = [] := by
  intro q
  induction q with
  | nil =>
    intro n w hb hw hp _
    have hnone : red_channel_client_pipe_get w = (none, w) := by
      apply pipe_get_none
      simp [red_channel_client_pipe_get, hb, hw, hp, ring_get_tail]
    cases n with
    | zero => exact ⟨rfl, by simpa using hp⟩
    | succ n => simp [pipe_get_n, hnone, hp]
  | cons x q ih =>
    intro n w hb hw hp hn
    cases n with
    | zero => simp at hn
    | succ n =>
      have hget := pipe_get_open w q.reverse x hb hw (by simpa using hp)
      obtain ⟨h1, h2⟩ := ih n { w with
          channel.pipe_size := (w.channel.pipe_size + U32 - 1) % U32
          channel.pipe := q.reverse } hb
        (by simpa [red_channel_client_waiting_for_ack] using hw) rfl (by simpa using hn)
      simp only [pipe_get_n, hget]
      exact ⟨by rw [h1], h2⟩

/-- C10 (order of the pipe). With the gate open, after the items `items` have
been enqueued with `red_channel_pipe_add`, successive calls of
`red_channel_client_pipe_get` return first what the pipe held before, from its
tail on, and then the items in the order they were enqueued. An item enqueued
at the tail, as `red_channel_pipe_add_tail` does, is returned before every item
the pipe held; and the pump `red_channel_pipe_add_tail` runs hands that item
to `red_channel_client_send_item` first and goes on with the pipe as it was. -/
theorem pipe_fifo (w : World) (items : List PipeItem)
    (hb : w.client.send_data.blocked = false)
    (hw : red_channel_client_waiting_for_ack w = false) :
    (pipe_get_n (w.channel.pipe.length + items.length) (pipe_add_all w items)).1
      = w.channel.pipe.reverse ++ items ∧
    (∀ item, (pipe_get_n (w.channel.pipe.length + 1) { w with
        channel.pipe_size := (w.channel.pipe_size + 1) % U32
        channel.pipe := ring_add_tail w.channel.pipe item }).1
      = item :: w.channel.pipe.reverse) ∧
    (∀ cls item, w.channel.rcc = true → w.client.during_send = false →
      red_channel_pipe_add_tail cls w item
        = ((red_channel_client_send_item cls { w with
              client.during_send := true
              channel.pipe_size := ((w.channel.pipe_size + 1) % U32 + U32 - 1) % U32
              channel.pipe := w.channel.pipe } item).bind
            (red_channel_client_push_loop cls w.channel.pipe.length)).map
          fun w3 => { w3 with client.during_send := false }) := by
  refine ⟨?_, ?_, ?_⟩
  · obtain ⟨hp, hc, _, ha, _⟩ := pipe_add_all_pipe items w
    exact (pipe_get_n_open (w.channel.pipe.reverse ++ items)
      (w.channel.pipe.length + items.length) (pipe_add_all w items)
      (by rw [hc]; exact hb)
      (by simpa [red_channel_client_waiting_for_ack, hc, ha] using hw)
      (by simp [hp]) (by simp)).1
  · intro item
    exact (pipe_get_n_open (item :: w.channel.pipe.reverse) (w.channel.pipe.length + 1)
      { w with
        channel.pipe_size := (w.channel.pipe_size + 1) % U32
        channel.pipe := ring_add_tail w.channel.pipe item } hb
      (by simpa [red_channel_client_waiting_for_ack] using hw)
      (by simp [ring_add_tail]) (by simp)).1
  · intro cls item hr hds
    have := push_first cls { w with
        channel.pipe_size := (w.channel.pipe_size + 1) % U32
        channel.pipe := ring_add_tail w.channel.pipe item } w.channel.pipe item hds hb
      (by simpa [red_channel_client_waiting_for_ack] using hw) rfl
    simpa [red_channel_pipe_add_tail, red_channel_push, hr] using this

/-- C10 at a concrete pipe: three items enqueued on the client of the
ack-throttle scenario come out in the order 0, 1, 2, and an item added at the
tail of that pipe comes out before them. -/
theorem pipe_fifo_witness :
    (pipe_get_n (0 + 3) (pipe_add_all (throttle_world 10) (scenario_items 3))).1
      = [{ type := 101, id := 0 }, { type := 101, id := 1 }, { type := 101, id := 2 }] ∧
    (pipe_get_n (3 + 1) { pipe_add_all (throttle_world 10) (scenario_items 3) with
        channel.pipe_size := (3 + 1) % U32
        channel.pipe := ring_add_tail
          [{ type := 101, id := 2 }, { type := 101, id := 1 }, { type := 101, id := 0 }]
          { type := 101, id := 9 } }).1
      = [{ type := 101, id := 9 }, { type := 101, id := 0 }, { type := 101, id := 1 },
         { type := 101, id := 2 }] :=
  ⟨(pipe_fifo (throttle_world 10) (scenario_items 3) rfl rfl).1,
   (pipe_fifo (pipe_add_all (throttle_world 10) (scenario_items 3)) [] rfl rfl).2.1
     { type := 101, id := 9 }⟩

/-- One iteration of the reader that ends in the dispatch. -/
theorem incoming_loop_step (cb : IncomingCb) (fuel : Nat) (s s1 s2 s3 : ReaderState)
    (hh : incoming_header s = Flow.go s1) (hb : incoming_body cb s1 = Flow.go s2)
    (hd : incoming_dispatch cb s2 = Flow.ret s3) :
    red_peer_handle_incoming_loop cb (fuel + 1) s = some s3 := by
  simp [red_peer_handle_incoming_loop, hh, hb, hd]

/-- C18 (the sticky `shut` flag). In an invocation of `red_peer_handle_incoming`
entered in the state `s`, take any iteration of its loop, the first or a later
one, reached in the state `t` after `j` iterations that went round, in which the
header and the body of a message are in, so that `incoming_header` and
`incoming_body` go on to the dispatch from the state `t2`. If the reader's `shut`
flag is set when the handler returns, because it was set before or because the
handler has set it, then whatever the handler returned the invocation returns
after exactly one `on_error`: the trace is that of `t2` followed by the one
handler call and one `on_incoming_error`, the stream is that of `t2`, nothing
more being read, and no further message is dispatched. This holds for
`handle_message`, when no parser is configured, and for `handle_parsed`, when the
parser has accepted the body. -/
theorem shut_stops_reader (cb : IncomingCb) (j : Nat) (s t t1 t2 : ReaderState)
    (hj : incoming_rounds cb j s = some t)
    (hh : incoming_header t = Flow.go t1) (hb : incoming_body cb t1 = Flow.go t2) :
    (cb.parser = none →
      (t2.handler.shut ||
        (cb.handle_message (header_of_bytes t2.handler.header) (incoming_msg t2)).shut) = true →
      red_peer_handle_incoming cb s = some
        { t2 with
          handler := { t2.handler with shut := true }
          trace := t2.trace ++
            [Event.handle_message (header_of_bytes t2.handler.header) (incoming_msg t2),
             Event.on_incoming_error] }) ∧
    (∀ parser parsed, cb.parser = some parser →
      parser (header_of_bytes t2.handler.header).type (incoming_msg t2) = some parsed →
      (t2.handler.shut ||
        (cb.handle_parsed parsed.length (header_of_bytes t2.handler.header).type parsed).shut)
          = true →
      red_peer_handle_incoming cb s = some
        { t2 with
          handler := { t2.handler with shut := true }
          trace := t2.trace ++
            [Event.handle_parsed parsed.length (header_of_bytes t2.handler.header).type parsed,
             Event.on_incoming_error] }) := by
  -- an invocation that has gone round to the head of the loop in the state `t`
  -- returns what the loop returns from `t`
  have hloop : ∀ (j : Nat) (s r : ReaderState) (fuel : Nat),
      incoming_rounds cb j s = some t → red_peer_handle_incoming_loop cb fuel s = some r →
      ∃ fuel1, red_peer_handle_incoming_loop cb fuel1 t = some r := by
    intro j
    induction j with
    | zero =>
      intro s r fuel hj hr
      simp only [incoming_rounds, Option.some.injEq] at hj
      subst hj
      exact ⟨fuel, hr⟩
    | succ j ih =>
      intro s r fuel hj hr
      unfold incoming_rounds at hj
      cases fuel with
      | zero => simp [red_peer_handle_incoming_loop] at hr
      | succ f =>
        unfold red_peer_handle_incoming_loop at hr
        cases e1 : incoming_header s with
        | ret a =>
          rw [e1] at hj
          cases hj
        | go a =>
          rw [e1] at hj hr
          simp only at hj hr
          cases e2 : incoming_body cb a with
          | ret b =>
            rw [e2] at hj
            cases hj
          | go b =>
            rw [e2] at hj hr
            simp only at hj hr
            cases e3 : incoming_dispatch cb b with
            | ret c =>
              rw [e3] at hj
              cases hj
            | go c =>
              rw [e3] at hj hr
              exact ih c r f hj hr
  -- so a dispatch that returns, in any iteration, ends the invocation
  have hret : ∀ t3, incoming_dispatch cb t2 = Flow.ret t3 →
      red_peer_handle_incoming cb s = some t3 := by
    intro t3 hd
    obtain ⟨r, hr⟩ := red_peer_handle_incoming_returns cb s
    obtain ⟨fuel1, h1⟩ := hloop j s r _ hj hr
    cases fuel1 with
    | zero => simp [red_peer_handle_incoming_loop] at h1
    | succ f =>
      simp only [red_peer_handle_incoming_loop, hh, hb, hd, Option.some.injEq] at h1
      rw [hr, ← h1]
  constructor
  · intro hp hs
    apply hret
    simp only [incoming_dispatch, hp, incoming_after_handler]
    simp [hs]
  · intro parser parsed hp hsome hs
    apply hret
    simp only [incoming_dispatch, hp, hsome, incoming_after_handler]
    simp [hs]

/-- C18 at a concrete input: the transport holds three messages, and
`handle_message` sets `shut` at the second. The one invocation dispatches the
first message, goes round, dispatches the second and returns after one
`on_incoming_error`, the third message still in the transport. -/
theorem shut_stops_reader_witness :
    incoming_rounds cb_shut_second 1 (reader_new scenario_rd_three) = some reader_second_head ∧
      red_peer_handle_incoming cb_shut_second (reader_new scenario_rd_three) = some
        { reader_second_body with
          handler := { reader_second_body.handler with shut := true }
          trace := reader_second_body.trace ++
            [Event.handle_message (header_of_bytes reader_second_body.handler.header)
              (incoming_msg reader_second_body), Event.on_incoming_error] } ∧
      (red_peer_handle_incoming cb_shut_second (reader_new scenario_rd_three)).map
          (fun r => (dispatched r.trace, r.stream.rd, r.handler.shut))
        = some ([wire_event scenario_msg,
              ({ serial := 2, type := 8, size := 2, sub_list := 0 }, [20, 21])],
            [ReadResult.data scenario_msg.header, ReadResult.data scenario_msg.body], true) ∧
      (red_peer_handle_incoming cb_shut_second (reader_new scenario_rd_three)).map
          (fun r => r.trace.drop 3)
        = some [Event.handle_message { serial := 2, type := 8, size := 2, sub_list := 0 }
            [20, 21], Event.on_incoming_error] :=
  ⟨rfl,
    (shut_stops_reader cb_shut_second 1 (reader_new scenario_rd_three) reader_second_head
      reader_second_header reader_second_body rfl rfl rfl).1 rfl rfl,
    by decide, by decide⟩

/-- A failed read of the body: the buffer is released, then `on_error`. -/
theorem incoming_fill_failed (s : ReaderState) (buf : List Nat)
    (hf : (red_peer_receive s.stream
      ((header_of_bytes s.handler.header).size - s.handler.msg_pos)).1.failed = true) :
    ∃ s3, incoming_fill s buf = Flow.ret s3 ∧
      s3.trace = s.trace ++ [Event.release_msg_buf (header_of_bytes s.handler.header),
        Event.on_incoming_error] := by
  simp only [incoming_fill, hf, if_true]
  exact ⟨_, rfl, rfl⟩

/-- C17 (release of the body buffer on the error exits of the reader), the
behaviour of the code. With a body buffer allocated and the header complete:
when the read of the body fails, `release_msg_buf` is called on the buffer and
then `on_error`; when the parser rejects the complete body,
`red_peer_handle_incoming` returns after `on_error` alone, and the trace is that
of the state before the dispatch followed by `on_incoming_error`, with no
`release_msg_buf` and the buffer still at `handler->msg`. -/
theorem parser_failure_keeps_buffer (cb : IncomingCb) (s s1 s2 : ReaderState)
    (hh : incoming_header s = Flow.go s1) :
    (∀ buf, s1.handler.msg = some buf →
      s1.handler.msg_pos < (header_of_bytes s1.handler.header).size →
      (red_peer_receive s1.stream
        ((header_of_bytes s1.handler.header).size - s1.handler.msg_pos)).1.failed = true →
      ∃ s3, red_peer_handle_incoming cb s = some s3 ∧
        s3.trace = s1.trace ++ [Event.release_msg_buf (header_of_bytes s1.handler.header),
          Event.on_incoming_error]) ∧
    (∀ parser buf, incoming_body cb s1 = Flow.go s2 → s2.handler.msg = some buf →
      cb.parser = some parser →
      parser (header_of_bytes s2.handler.header).type (incoming_msg s2) = none →
      red_peer_handle_incoming cb s
        = some { s2 with trace := s2.trace ++ [Event.on_incoming_error] }) := by
  constructor
  · intro buf hm hlt hf
    obtain ⟨s3, h3, ht⟩ := incoming_fill_failed s1 buf hf
    refine ⟨s3, ?_, ht⟩
    simp [red_peer_handle_incoming, red_peer_handle_incoming_loop, hh, incoming_body, hlt, hm, h3]
  · intro parser buf hb _ hp hn
    refine incoming_loop_step cb _ s s1 s2 _ hh hb ?_
    simp only [incoming_dispatch, hp, hn]

/-- C17 at concrete inputs, with a parser that rejects every message. On a
transport that breaks after two bytes of the body the calls are `alloc_msg_buf`,
`release_msg_buf`, `on_error`. On a transport that delivers the whole message
they are `alloc_msg_buf`, `on_error`: the buffer is never released. -/
theorem parser_failure_keeps_buffer_witness :
    red_peer_handle_incoming_n cb_reject 2 (reader_new scenario_rd_broken)
      = some reader_body_partial ∧
    (∃ s3, red_peer_handle_incoming cb_reject reader_body_partial = some s3 ∧
      s3.trace = [Event.alloc_msg_buf (header_of_bytes scenario_msg.header),
        Event.release_msg_buf (header_of_bytes scenario_msg.header), Event.on_incoming_error]) ∧
    red_peer_handle_incoming cb_reject (reader_new scenario_rd_twice)
      = some { reader_body_in with
          trace := [Event.alloc_msg_buf (header_of_bytes scenario_msg.header),
            Event.on_incoming_error] } :=
  ⟨by decide,
   (parser_failure_keeps_buffer cb_reject reader_body_partial reader_body_partial
      reader_body_partial rfl).1 [10, 11, 0, 0, 0, 0] rfl (by decide) rfl,
   (parser_failure_keeps_buffer cb_reject (reader_new scenario_rd_twice) reader_header_in
      reader_body_in rfl).2 (fun _ _ => none) scenario_msg.body rfl rfl rfl rfl⟩

/-- The one call `red_channel_client_release_item` makes. -/
theorem release_item_log (w : World) (item : PipeItem) (item_pushed : Bool) :
    red_channel_client_release_item w item item_pushed = w.log (release_call item item_pushed) := by
  unfold red_channel_client_release_item release_call
  split <;> rfl

/-- The loop of `red_channel_pipe_clear` adds one release per item to the trace and changes nothing else. -/
theorem pipe_clear_items_eq (items : List PipeItem) :
    ∀ w : World, pipe_clear_items w items
      = { w with trace := w.trace ++ items.map fun i => release_call i false } := by
  induction items with
  | nil => intro w; simp [pipe_clear_items]
  | cons item rest ih =>
    intro w
    simp [pipe_clear_items, ih, release_item_log, World.log]

/-- What `red_channel_pipe_clear` returns on a channel with a client. -/
theorem pipe_clear_client (w : World) (hrcc : w.channel.rcc = true) :
    red_channel_pipe_clear w = some
      { red_channel_client_clear_sent_item w with
        channel.pipe := []
        channel.pipe_size := 0
        trace := (red_channel_client_clear_sent_item w).trace
          ++ w.channel.pipe.map fun i => release_call i false } := by
  have hc := clear_sent_item_channel w
  simp only [red_channel_pipe_clear, hrcc, if_true, hc, Bool.not_true, Bool.false_and,
    Bool.false_eq_true, if_false, pipe_clear_items_eq]

/-- What `red_channel_client_clear_sent_item` does with an item in flight. -/
theorem clear_sent_item_in_flight (w : World) (item : PipeItem)
    (hi : w.client.send_data.item = some item) :
    red_channel_client_clear_sent_item w =
      { w with
        client.send_data.item := none
        client.send_data.blocked := false
        client.send_data.size := 0
        trace := w.trace ++ [release_call item true] } := by
  simp [red_channel_client_clear_sent_item, hi, release_item_log, World.log]

theorem pipe_clear_no_client (w : World) (hr : w.channel.rcc = false)
    (hall : ∀ i ∈ w.channel.pipe, i.type = PIPE_ITEM_TYPE_SET_ACK) :
    red_channel_pipe_clear w = some
      { w with
        channel.pipe := []
        channel.pipe_size := 0
        trace := w.trace ++ w.channel.pipe.map fun i => release_call i false } := by
  have hany : w.channel.pipe.any (fun i => decide (i.type ≠ PIPE_ITEM_TYPE_SET_ACK)) = false := by
    rw [List.any_eq_false]
    intro i hi
    simp [hall i hi]
  simp only [red_channel_pipe_clear, hr, Bool.false_eq_true, if_false, Bool.not_false,
    Bool.true_and, hany, pipe_clear_items_eq]

theorem pipe_clear_null_client (w : World) (hr : w.channel.rcc = false)
    (hsome : ∃ i ∈ w.channel.pipe, i.type ≠ PIPE_ITEM_TYPE_SET_ACK) :
    red_channel_pipe_clear w = none := by
  have hany : w.channel.pipe.any (fun i => decide (i.type ≠ PIPE_ITEM_TYPE_SET_ACK)) = true := by
    rw [List.any_eq_true]
    obtain ⟨i, hi, hne⟩ := hsome
    exact ⟨i, hi, by simp [hne]⟩
  simp only [red_channel_pipe_clear, hr, Bool.false_eq_true, if_false, Bool.not_false,
    Bool.true_and, hany, if_true]

/-- C13, the behaviour of the code (what `red_channel_pipe_clear` and
`red_channel_client_shutdown` do to the pipe). On a channel with a client,
`red_channel_pipe_clear` returns, and after it has cleared the item in flight it
passes every item of the pipe, head first, exactly once to
`red_channel_client_release_item` with `item_pushed = FALSE`, which is the
subclass's `release_item(item, FALSE)` for every item that is not a `SET_ACK`;
it leaves the pipe empty and `pipe_size = 0` and changes nothing else. On a
channel without a client it does the same when the pipe holds nothing but
`SET_ACK` items; when the pipe holds an item of the subclass the release goes
through the null `channel->rcc`, and the call does not return.
`red_channel_client_shutdown` leaves the channel, so the pipe and `pipe_size`,
unchanged. -/
theorem pipe_clear_releases (w : World) :
    (w.channel.rcc = true →
      red_channel_pipe_clear w = some
        { red_channel_client_clear_sent_item w with
          channel.pipe := []
          channel.pipe_size := 0
          trace := (red_channel_client_clear_sent_item w).trace
            ++ w.channel.pipe.map fun i => release_call i false }) ∧
    (w.channel.rcc = false → (∀ i ∈ w.channel.pipe, i.type = PIPE_ITEM_TYPE_SET_ACK) →
      red_channel_pipe_clear w = some
        { w with
          channel.pipe := []
          channel.pipe_size := 0
          trace := w.trace ++ w.channel.pipe.map fun i => release_call i false }) ∧
    (w.channel.rcc = false → (∃ i ∈ w.channel.pipe, i.type ≠ PIPE_ITEM_TYPE_SET_ACK) →
      red_channel_pipe_clear w = none) ∧
    (∀ i, i.type ≠ PIPE_ITEM_TYPE_SET_ACK → release_call i false = Event.release_item i false) ∧
    (red_channel_client_shutdown w).channel = w.channel := by
  refine ⟨pipe_clear_client w, pipe_clear_no_client w, pipe_clear_null_client w, ?_, ?_⟩
  · intro i hi
    simp [release_call, hi]
  · unfold red_channel_client_shutdown
    simp only
    split <;> exact release_sent_item_channel _

/-- C13 at a concrete state: three items enqueued on the client of the
ack-throttle scenario are released once each with `FALSE`, head first. -/
theorem pipe_clear_releases_witness :
    (red_channel_pipe_clear (pipe_add_all (throttle_world 10) (scenario_items 3))).map
        (fun w => (w.channel.pipe, w.channel.pipe_size, w.trace))
      = some ([], 0, [Event.release_item { type := 101, id := 2 } false,
          Event.release_item { type := 101, id := 1 } false,
          Event.release_item { type := 101, id := 0 } false]) := by
  rw [(pipe_clear_releases (pipe_add_all (throttle_world 10) (scenario_items 3))).1 rfl]
  decide

/-- C13, the divergence: a client with one item of the subclass in the pipe is
disconnected with `red_channel_client_disconnect`, which leaves the pipe as it
is and the channel without a client. `red_channel_pipe_clear` then does not
return, and neither do `red_channel_shutdown` and `red_channel_disconnect`: the
item is not released. -/
theorem pipe_clear_releases_counterexample :
    one_item_world.channel.rcc = true ∧
      orphan_item_world.channel.rcc = false ∧
      orphan_item_world.channel.pipe = [{ type := 101, id := 0 }] ∧
      orphan_item_world.channel.pipe_size = 1 ∧
      red_channel_pipe_clear orphan_item_world = none ∧
      red_channel_shutdown orphan_item_world = none ∧
      red_channel_disconnect orphan_item_world = none := by
  refine ⟨rfl, rfl, rfl, rfl, by decide, by decide, by decide⟩

/-- A state `red_channel_shutdown` leaves as it is. -/
theorem shutdown_fixed (w : World) (hs : w.client.stream.shutdown = true)
    (hi : w.client.send_data.item = none) (hb : w.client.send_data.blocked = false)
    (hz : w.client.send_data.size = 0) (hp : w.channel.pipe = [])
    (hps : w.channel.pipe_size = 0) :
    red_channel_shutdown w = some w := by
  obtain ⟨⟨ha, mg, rcc, pipe, ps⟩, ⟨⟨sd, wt, rd, wr, wn, ss, fr⟩, ack,
    ⟨m, hdrp, size, it, blocked, serial⟩, out, inc, ds⟩, tr⟩ := w
  simp only at hs hi hb hz hp hps
  subst hs hi hb hz hp hps
  cases rcc <;>
    simp [red_channel_shutdown, red_channel_pipe_clear, red_channel_client_shutdown,
      red_channel_client_release_sent_item, red_channel_client_clear_sent_item, pipe_clear_items]

theorem release_sent_item_fixed (w : World) (hi : w.client.send_data.item = none) :
    red_channel_client_release_sent_item w = w := by
  simp [red_channel_client_release_sent_item, hi]

theorem release_sent_item_item (w : World) :
    (red_channel_client_release_sent_item w).client.send_data.item = none := by
  unfold red_channel_client_release_sent_item
  split
  · rfl
  · assumption

theorem release_sent_item_stream (w : World) :
    (red_channel_client_release_sent_item w).client.stream = w.client.stream := by
  unfold red_channel_client_release_sent_item red_channel_client_release_item
  split
  · simp only
    split <;> rfl
  · rfl

theorem client_shutdown_done (w : World) :
    (red_channel_client_shutdown w).client.stream.shutdown = true ∧
      (red_channel_client_shutdown w).client.send_data.item = none := by
  refine ⟨?_, release_sent_item_item _⟩
  unfold red_channel_client_shutdown
  simp only [release_sent_item_stream]
  cases h : w.client.stream.shutdown <;> simp [h]

theorem client_shutdown_twice (w : World) :
    red_channel_client_shutdown (red_channel_client_shutdown w)
      = red_channel_client_shutdown w := by
  obtain ⟨hs, hi⟩ := client_shutdown_done w
  generalize red_channel_client_shutdown w = w1 at hs hi
  simp [red_channel_client_shutdown, hs, release_sent_item_fixed w1 hi]

/-- The state `red_channel_pipe_clear` returns. -/
theorem pipe_clear_done (w w1 : World) (h : red_channel_pipe_clear w = some w1) :
    w1.client.stream = w.client.stream ∧ w1.channel.pipe = [] ∧ w1.channel.pipe_size = 0 ∧
      (w.channel.rcc = true → w1.client.send_data.item = none ∧
        w1.client.send_data.blocked = false ∧ w1.client.send_data.size = 0) ∧
      (w.channel.rcc = false → w1.client = w.client) := by
  cases hr : w.channel.rcc
  · simp only [red_channel_pipe_clear, hr, Bool.false_eq_true, if_false, Bool.not_false,
      Bool.true_and, pipe_clear_items_eq] at h
    split at h
    · cases h
    · injection h with h
      subst h
      simp
  · rw [pipe_clear_client w hr] at h
    injection h with h
    subst h
    refine ⟨?_, rfl, rfl, fun _ => ?_, fun h => by cases h⟩
    · unfold red_channel_client_clear_sent_item red_channel_client_release_item
      simp only
      split
      · split <;> rfl
      · rfl
    · unfold red_channel_client_clear_sent_item
      simp only [and_self, and_true]
      split
      · rfl
      · assumption

theorem pipe_clear_fixed (w : World) (hr : w.channel.rcc = false) (hp : w.channel.pipe = [])
    (hps : w.channel.pipe_size = 0) : red_channel_pipe_clear w = some w := by
  obtain ⟨⟨ha, mg, rcc, pipe, ps⟩, cl, tr⟩ := w
  simp only at hr hp hps
  subst hr hp hps
  simp [red_channel_pipe_clear, pipe_clear_items]

theorem client_shutdown_channel (w : World) :
    (red_channel_client_shutdown w).channel = w.channel := by
  unfold red_channel_client_shutdown
  simp only
  split <;> exact release_sent_item_channel _

theorem pipe_clear_rcc (w w1 : World) (h : red_channel_pipe_clear w = some w1) :
    w1.channel.rcc = w.channel.rcc := by
  cases hr : w.channel.rcc
  · simp only [red_channel_pipe_clear, hr, Bool.false_eq_true, if_false, Bool.not_false,
      Bool.true_and, pipe_clear_items_eq] at h
    split at h
    · cases h
    · injection h with h
      subst h
      rfl
  · rw [pipe_clear_client w hr] at h
    injection h with h
    subst h
    simp only [clear_sent_item_channel]
    exact hr

/-- C14 (shutdown is idempotent). When `red_channel_shutdown` returns the
state `w1`, a second call returns `w1` again: the state and the trace, so the
watch removals, socket shutdowns and item releases, are those of the first call
and the second call invokes no callback. On a channel with a client the first
call does return. `red_channel_client_shutdown` applied twice gives the state
and the trace of applying it once. -/
theorem shutdown_idempotent (w : World) :
    (∀ w1, red_channel_shutdown w = some w1 → red_channel_shutdown w1 = some w1) ∧
    (w.channel.rcc = true → ∃ w1, red_channel_shutdown w = some w1) ∧
    red_channel_client_shutdown (red_channel_client_shutdown w)
      = red_channel_client_shutdown w := by
  refine ⟨?_, ?_, client_shutdown_twice w⟩
  · intro w1 h
    unfold red_channel_shutdown at h
    obtain ⟨hst, hp, hps, hc, hn⟩ := pipe_clear_done _ _ h
    have hrcc := pipe_clear_rcc _ _ h
    cases hr : w.channel.rcc
    · simp only [hr, Bool.false_eq_true, if_false] at hrcc
      simp only [red_channel_shutdown, hrcc, Bool.false_eq_true, if_false]
      exact pipe_clear_fixed w1 hrcc hp hps
    · simp only [hr, if_true] at hst hc hrcc
      rw [client_shutdown_channel, hr] at hc
      obtain ⟨hi, hb, hz⟩ := hc rfl
      exact shutdown_fixed w1 (by rw [hst]; exact (client_shutdown_done w).1) hi hb hz hp hps
  · intro hr
    have hc : (red_channel_client_shutdown w).channel.rcc = true := by
      rw [client_shutdown_channel]; exact hr
    exact ⟨_, by simp only [red_channel_shutdown, hr, if_true]; exact pipe_clear_client _ hc⟩

/-- C14 at a concrete state: the client with two items in its pipe. -/
theorem shutdown_idempotent_witness :
    ∃ w1, red_channel_shutdown midsend_start = some w1 ∧ red_channel_shutdown w1 = some w1 :=
  (shutdown_idempotent midsend_start).2.1 rfl |>.imp
    fun w1 h => ⟨h, (shutdown_idempotent midsend_start).1 w1 h⟩

/-- C15 (result of `red_channel_client_handle_message`). Whenever the handler
returns, it returns FALSE exactly when the type is none of `ACK_SYNC`, `ACK`,
`DISCONNECTING`, `MIGRATE_FLUSH_MARK`, `MIGRATE_DATA`, or the type is `ACK_SYNC`
and the size is not 4. In each of these cases it does return, and the whole
state is unchanged. `ACK_SYNC` of size 4 returns TRUE and changes only
`ack_data.client_generation`, which becomes the 32-bit value the message
carries; `DISCONNECTING` returns TRUE with the state unchanged. -/
theorem handle_message_result (cls : ChannelClass) (w : World) (size type : Nat)
    (message : List Nat) :
    (∀ r w1, red_channel_client_handle_message cls w size type message = some (r, w1) →
      (r = false ↔
        (type ≠ SPICE_MSGC_ACK_SYNC ∧ type ≠ SPICE_MSGC_ACK ∧ type ≠ SPICE_MSGC_DISCONNECTING ∧
          type ≠ SPICE_MSGC_MIGRATE_FLUSH_MARK ∧ type ≠ SPICE_MSGC_MIGRATE_DATA) ∨
        (type = SPICE_MSGC_ACK_SYNC ∧ size ≠ 4))) ∧
    ((type ≠ SPICE_MSGC_ACK_SYNC ∧ type ≠ SPICE_MSGC_ACK ∧ type ≠ SPICE_MSGC_DISCONNECTING ∧
          type ≠ SPICE_MSGC_MIGRATE_FLUSH_MARK ∧ type ≠ SPICE_MSGC_MIGRATE_DATA) ∨
        (type = SPICE_MSGC_ACK_SYNC ∧ size ≠ 4) →
      red_channel_client_handle_message cls w size type message = some (false, w)) ∧
    (type = SPICE_MSGC_ACK_SYNC → size = 4 →
      red_channel_client_handle_message cls w size type message = some (true,
        { w with client.ack_data.client_generation := le_decode (message.take 4) })) ∧
    (type = SPICE_MSGC_DISCONNECTING →
      red_channel_client_handle_message cls w size type message = some (true, w)) := by
  refine ⟨?_, ?_, ?_, ?_⟩
  · intro r w1 h
    have tt : ∀ P : Prop, ¬P → r = true → (r = false ↔ P) := fun P hP hr => by simp [hr, hP]
    have ff : ∀ P : Prop, P → r = false → (r = false ↔ P) := fun P hP hr => by simp [hr, hP]
    unfold red_channel_client_handle_message at h
    by_cases h1 : type = SPICE_MSGC_ACK_SYNC
    · by_cases h4 : size = 4
      · simp only [h1, h4, if_true, ne_eq, not_true_eq_false, if_false, Option.some.injEq,
          Prod.mk.injEq] at h
        exact tt _ (by rintro (⟨a1, _⟩ | ⟨_, b4⟩) <;> contradiction) h.1.symm
      · simp only [h1, if_true, ne_eq, h4, not_false_eq_true, Option.some.injEq,
          Prod.mk.injEq] at h
        exact ff _ (Or.inr ⟨h1, h4⟩) h.1.symm
    · simp only [h1, if_false] at h
      by_cases h2 : type = SPICE_MSGC_ACK
      · simp only [h2, if_true] at h
        have hr : r = true := by
          split at h
          · simp only [Option.map_eq_some', Prod.mk.injEq] at h
            obtain ⟨_, _, hr, _⟩ := h
            exact hr.symm
          · simp only [Option.some.injEq, Prod.mk.injEq] at h
            exact h.1.symm
        exact tt _ (by rintro (⟨_, a2, _⟩ | ⟨b1, _⟩) <;> contradiction) hr
      · simp only [h2, if_false] at h
        by_cases h3 : type = SPICE_MSGC_DISCONNECTING
        · simp only [h3, if_true, Option.some.injEq, Prod.mk.injEq] at h
          exact tt _ (by rintro (⟨_, _, a3, _⟩ | ⟨b1, _⟩) <;> contradiction) h.1.symm
        · simp only [h3, if_false] at h
          by_cases h5 : type = SPICE_MSGC_MIGRATE_FLUSH_MARK
          · simp only [h5, if_true, Option.some.injEq, Prod.mk.injEq] at h
            exact tt _ (by rintro (⟨_, _, _, a5, _⟩ | ⟨b1, _⟩) <;> contradiction) h.1.symm
          · simp only [h5, if_false] at h
            by_cases h6 : type = SPICE_MSGC_MIGRATE_DATA
            · simp only [h6, if_true, Option.map_eq_some', Prod.mk.injEq] at h
              obtain ⟨_, _, hr, _⟩ := h
              exact tt _ (by rintro (⟨_, _, _, _, a6⟩ | ⟨b1, _⟩) <;> contradiction) hr.symm
            · simp only [h6, if_false, Option.some.injEq, Prod.mk.injEq] at h
              exact ff _ (Or.inl ⟨h1, h2, h3, h5, h6⟩) h.1.symm
  · rintro (⟨h1, h2, h3, h5, h6⟩ | ⟨h1, h4⟩)
    · simp [red_channel_client_handle_message, h1, h2, h3, h5, h6]
    · simp [red_channel_client_handle_message, h1, h4]
  · intro h1 h4
    simp [red_channel_client_handle_message, h1, h4]
  · intro h3
    have : SPICE_MSGC_DISCONNECTING ≠ SPICE_MSGC_ACK_SYNC := by decide
    have : SPICE_MSGC_DISCONNECTING ≠ SPICE_MSGC_ACK := by decide
    simp [red_channel_client_handle_message, h3, *]

/-- C15 at concrete inputs: the unknown type 77, an `ACK_SYNC` of size 5, an
`ACK_SYNC` of size 4 carrying 263, and `DISCONNECTING`. -/
theorem handle_message_result_witness :
    red_channel_client_handle_message scenario_cls midsend_start 0 77 [] =
      some (false, midsend_start) ∧
    red_channel_client_handle_message scenario_cls midsend_start 5 SPICE_MSGC_ACK_SYNC
      [1, 2, 3, 4, 5] = some (false, midsend_start) ∧
    red_channel_client_handle_message scenario_cls midsend_start 4 SPICE_MSGC_ACK_SYNC
      [7, 1, 0, 0] = some (true,
        { midsend_start with client.ack_data.client_generation := le_decode [7, 1, 0, 0] }) ∧
    red_channel_client_handle_message scenario_cls midsend_start 0 SPICE_MSGC_DISCONNECTING []
      = some (true, midsend_start) :=
  ⟨(handle_message_result scenario_cls midsend_start 0 77 []).2.1
      (Or.inl ⟨by decide, by decide, by decide, by decide, by decide⟩),
   (handle_message_result scenario_cls midsend_start 5 SPICE_MSGC_ACK_SYNC [1, 2, 3, 4, 5]).2.1
      (Or.inr ⟨rfl, by decide⟩),
   (handle_message_result scenario_cls midsend_start 4 SPICE_MSGC_ACK_SYNC [7, 1, 0, 0]).2.2.1
      rfl rfl,
   (handle_message_result scenario_cls midsend_start 0 SPICE_MSGC_DISCONNECTING []).2.2.2 rfl⟩

/-- What `red_channel_peer_on_out_msg_done` adds to the trace with an item in
flight. -/
theorem on_out_msg_done_trace (w : World) (item : PipeItem)
    (hi : w.client.send_data.item = some item) :
    (red_channel_peer_on_out_msg_done w).trace
      = w.trace ++ [Event.msg_done, release_call item true]
        ++ (if w.client.send_data.blocked then
              [Event.watch_update_mask SPICE_WATCH_EVENT_READ] else []) := by
  cases hb : w.client.send_data.blocked <;>
    simp [red_channel_peer_on_out_msg_done, red_channel_client_release_sent_item, hi, hb,
      release_item_log, World.log, watch_update_mask]

/-- The trace of `red_channel_pipe_clear` with an item in flight. -/
theorem pipe_clear_trace (w : World) (item : PipeItem) (hrcc : w.channel.rcc = true)
    (hi : w.client.send_data.item = some item) :
    (red_channel_pipe_clear w).map (fun w1 => w1.trace)
      = some (w.trace ++ release_call item true
          :: w.channel.pipe.map fun i => release_call i false) := by
  rw [pipe_clear_client w hrcc, clear_sent_item_in_flight w item hi]
  simp

/-- The trace of `red_channel_disconnect` with an item in flight. -/
theorem disconnect_trace (w : World) (item : PipeItem) (hrcc : w.channel.rcc = true)
    (hi : w.client.send_data.item = some item) :
    (red_channel_disconnect w).map (fun w1 => w1.trace)
      = some (w.trace ++ release_call item true
          :: (w.channel.pipe.map fun i => release_call i false) ++ [Event.stream_free]) := by
  unfold red_channel_disconnect
  rw [pipe_clear_client w hrcc, clear_sent_item_in_flight w item hi]
  simp [hrcc, red_channel_client_disconnect]

/-- C11, the behaviour of the code (the flag the item in flight is released
with). With an item of the subclass in flight, `on_msg_done`, which runs when
the write of the message completes, releases it with `item_pushed = TRUE`; so do
`red_channel_pipe_clear` and `red_channel_disconnect` on a channel with a
client, through `red_channel_client_clear_sent_item`, before the items of the
pipe are released with FALSE; only `red_channel_client_disconnect` itself
releases the item in flight with `item_pushed = FALSE`. -/
theorem in_flight_release_flag (w : World) (item : PipeItem)
    (hi : w.client.send_data.item = some item) (hty : item.type ≠ PIPE_ITEM_TYPE_SET_ACK) :
    (red_channel_peer_on_out_msg_done w).trace
      = w.trace ++ [Event.msg_done, Event.release_item item true]
        ++ (if w.client.send_data.blocked then
              [Event.watch_update_mask SPICE_WATCH_EVENT_READ] else []) ∧
    (w.channel.rcc = true →
      (red_channel_pipe_clear w).map (fun w1 => w1.trace)
        = some (w.trace ++ Event.release_item item true
            :: w.channel.pipe.map fun i => release_call i false) ∧
      (red_channel_disconnect w).map (fun w1 => w1.trace)
        = some (w.trace ++ Event.release_item item true
            :: (w.channel.pipe.map fun i => release_call i false) ++ [Event.stream_free])) ∧
    (red_channel_client_disconnect w).trace
      = w.trace ++ [Event.release_item item false, Event.stream_free] := by
  have hc : release_call item true = Event.release_item item true := by
    simp [release_call, hty]
  refine ⟨?_, fun hrcc => ⟨?_, ?_⟩, ?_⟩
  · rw [on_out_msg_done_trace w item hi, hc]
  · rw [pipe_clear_trace w item hrcc hi, hc]
  · rw [disconnect_trace w item hrcc hi, hc]
  · simp [red_channel_client_disconnect, hi, World.log]

/-- C11 at the state of the scenario "blocked in the middle of a
message": item 0 is in flight with 5 of 19 bytes written, item 1 is in the
pipe. -/
theorem in_flight_release_flag_witness :
    (red_channel_peer_on_out_msg_done midsend_state).trace
      = midsend_state.trace ++ [Event.msg_done, Event.release_item midsend_item true]
        ++ (if midsend_state.client.send_data.blocked then
              [Event.watch_update_mask SPICE_WATCH_EVENT_READ] else []) ∧
    (midsend_state.channel.rcc = true →
      (red_channel_pipe_clear midsend_state).map (fun w1 => w1.trace)
        = some (midsend_state.trace ++ Event.release_item midsend_item true
            :: midsend_state.channel.pipe.map fun i => release_call i false) ∧
      (red_channel_disconnect midsend_state).map (fun w1 => w1.trace)
        = some (midsend_state.trace ++ Event.release_item midsend_item true
            :: (midsend_state.channel.pipe.map fun i => release_call i false)
              ++ [Event.stream_free])) ∧
    (red_channel_client_disconnect midsend_state).trace
      = midsend_state.trace ++ [Event.release_item midsend_item false, Event.stream_free] :=
  in_flight_release_flag midsend_state midsend_item (by decide) (by decide)

/-- C11, the divergence: in the scenario "blocked in the middle of a message"
(5 of the 19 bytes of the message of item 0 written, item 1 in the pipe) the
calls `red_channel_pipe_clear` and `red_channel_disconnect` make release item 0,
the item in flight, with `item_pushed = TRUE`. -/
theorem in_flight_release_flag_counterexample :
    midsend_world.map (fun w => (w.client.outgoing, w.client.send_data.item))
      = some ({ pos := 5, size := 19 }, some midsend_item) ∧
    (midsend_world.bind fun w =>
        (red_channel_pipe_clear w).map fun w1 => w1.trace.drop w.trace.length)
      = some [Event.release_item { type := 101, id := 0 } true,
          Event.release_item { type := 101, id := 1 } false] ∧
    (midsend_world.bind fun w =>
        (red_channel_disconnect w).map fun w1 => w1.trace.drop w.trace.length)
      = some [Event.release_item { type := 101, id := 0 } true,
          Event.release_item { type := 101, id := 1 } false, Event.stream_free] := by
  refine ⟨by decide, by decide, by decide⟩

/-- What `red_channel_client_clear_sent_item` leaves alone: the writer's
`pos` and `size`, the stream with its watch; and what it clears. -/
theorem clear_sent_item_frame (w : World) :
    (red_channel_client_clear_sent_item w).client.outgoing = w.client.outgoing ∧
    (red_channel_client_clear_sent_item w).client.stream = w.client.stream ∧
    (red_channel_client_clear_sent_item w).client.send_data.size = 0 ∧
    (red_channel_client_clear_sent_item w).client.send_data.blocked = false := by
  unfold red_channel_client_clear_sent_item red_channel_client_release_item
  simp only [and_true]
  split
  · split <;> exact ⟨rfl, rfl⟩
  · exact ⟨rfl, rfl⟩

/-- C19, the behaviour of the code. On a channel with a client
`red_channel_pipe_clear` returns a state in which no item is being sent
(`send_data.size = 0`) and the writer's `outgoing.pos` and `outgoing.size` are
what they were: when it abandons a partially sent message the writer is left
in the middle of that message. -/
theorem pipe_clear_leaves_writer_busy (w : World) (hrcc : w.channel.rcc = true) :
    ∃ w1, red_channel_pipe_clear w = some w1 ∧
      red_channel_client_no_item_being_sent w1 = true ∧
      w1.client.outgoing = w.client.outgoing := by
  obtain ⟨ho, _, hz, _⟩ := clear_sent_item_frame w
  refine ⟨_, pipe_clear_client w hrcc, ?_, ho⟩
  simp only [red_channel_client_no_item_being_sent, decide_eq_true_eq]
  exact hz

/-- C19 at the state of the scenario "blocked in the middle of a message",
which `red_channel_push` reaches from a new client with two items enqueued:
after `red_channel_pipe_clear` no item is being sent and the writer still has
`pos = 5`, `size = 19`. The message of the item enqueued next then goes out
from its sixth byte on: the bytes written are the 5 bytes of the abandoned
message followed by the last 14 of the 19 bytes of the new one. -/
theorem pipe_clear_leaves_writer_busy_witness :
    (∃ w1, red_channel_pipe_clear midsend_state = some w1 ∧
      red_channel_client_no_item_being_sent w1 = true ∧
      w1.client.outgoing = midsend_state.client.outgoing) ∧
    midsend_world.map (fun w => w.client.outgoing) = some { pos := 5, size := 19 } ∧
    (midsend_world.bind red_channel_pipe_clear).map
        (fun w => (red_channel_client_no_item_being_sent w, w.client.outgoing))
      = some (true, { pos := 5, size := 19 }) ∧
    ((midsend_world.bind red_channel_pipe_clear).bind
        fun w => red_channel_pipe_add_push scenario_cls w { type := 101, id := 2 }).map
        (fun w => (begun_messages w.trace, w.client.stream.written))
      = some ([({ serial := 1, type := 201, size := 1, sub_list := 0 }, [0]),
               ({ serial := 2, type := 201, size := 1, sub_list := 0 }, [2])],
          [1, 0, 0, 0, 0] ++ [0, 0, 0, 201, 0, 1, 0, 0, 0, 0, 0, 0, 0, 2]) :=
  ⟨pipe_clear_leaves_writer_busy midsend_state rfl, by decide, by decide, by decide⟩

/-- C20, the behaviour of the code. `red_channel_client_clear_sent_item`
clears `send_data.blocked` and leaves the watch and its mask as they are, and
so does `red_channel_pipe_clear`, which calls it; in the scenario "blocked in
the middle of a message" the client is blocked with the mask READ|WRITE, and
after `red_channel_pipe_clear` it is not blocked and the mask is still
READ|WRITE, no `watch_update_mask` having been called. -/
theorem clear_sent_item_keeps_mask (w : World) :
    (red_channel_client_clear_sent_item w).client.send_data.blocked = false ∧
    (red_channel_client_clear_sent_item w).client.stream.watch = w.client.stream.watch ∧
    (∀ w1, red_channel_pipe_clear w = some w1 →
      w1.client.stream.watch = w.client.stream.watch ∧
      (w.channel.rcc = true → w1.client.send_data.blocked = false)) ∧
    midsend_world.map (fun w => (w.client.send_data.blocked, w.client.stream.watch))
      = some (true, some (SPICE_WATCH_EVENT_READ ||| SPICE_WATCH_EVENT_WRITE)) ∧
    (midsend_world.bind fun w => (red_channel_pipe_clear w).map fun w1 =>
        (w1.client.send_data.blocked, w1.client.stream.watch, w1.trace.drop w.trace.length))
      = some (false, some (SPICE_WATCH_EVENT_READ ||| SPICE_WATCH_EVENT_WRITE),
          [Event.release_item { type := 101, id := 0 } true,
           Event.release_item { type := 101, id := 1 } false]) := by
  obtain ⟨_, hs, _, hb⟩ := clear_sent_item_frame w
  refine ⟨hb, by rw [hs], ?_, by decide, by decide⟩
  intro w1 h
  obtain ⟨hst, _, _, hc, _⟩ := pipe_clear_done w w1 h
  exact ⟨by rw [hst], fun hr => (hc hr).2.1⟩

/-- On a transport that takes fewer bytes than are left of the message and
then reports `EAGAIN`, the loop of the writer returns blocked, `pos` advanced by
the bytes taken. -/
theorem outgoing_loop_blocks (cls : ChannelClass) (wr1 wr2 : List WriteResult) :
    ∀ (w : World), wr_never_blocks wr1 →
      (marshaller_bytes w.client.send_data.marshaller).length = w.client.outgoing.size →
      w.client.outgoing.pos + wr_total wr1 < w.client.outgoing.size →
      red_peer_handle_outgoing_loop cls (wr1 ++ WriteResult.eagain :: wr2) w
        = some (red_channel_client_peer_on_out_block
            { w with
              client.outgoing.pos := w.client.outgoing.pos + wr_total wr1
              client.stream.written := w.client.stream.written ++
                ((marshaller_bytes w.client.send_data.marshaller).drop w.client.outgoing.pos).take
                  (wr_total wr1)
              client.stream.wr := wr2 }) := by
  induction wr1 with
  | nil =>
    intro w _ _ _
    simp [red_peer_handle_outgoing_loop, wr_total]
  | cons e rest ih =>
    intro w hnb hlen hpos
    have hrest := wr_never_blocks_tail e rest hnb
    rcases hnb e (List.mem_cons_self _ _) with ⟨k, rfl⟩ | rfl
    · simp only [wr_total] at hpos ⊢
      have hoff : outgoing_offered w = w.client.outgoing.size - w.client.outgoing.pos := by
        simp [outgoing_offered, hlen]
      have hmin : min k (outgoing_offered w) = k := by omega
      have hne : ¬ w.client.outgoing.pos + k = w.client.outgoing.size := by omega
      simp only [List.cons_append, red_peer_handle_outgoing_loop, outgoing_written, hmin, hne,
        if_false]
      have := ih
        { w with
          client.outgoing.pos := w.client.outgoing.pos + k
          client.stream.written := w.client.stream.written ++
            ((marshaller_bytes w.client.send_data.marshaller).drop w.client.outgoing.pos).take k
          client.stream.wr := rest ++ WriteResult.eagain :: wr2 }
        hrest hlen (by simp only; omega)
      refine this.trans ?_
      simp only [List.append_assoc, Nat.add_assoc, List.take_add, List.drop_drop]
    · simp only [wr_total] at hpos ⊢
      have := ih { w with client.stream.wr := rest ++ WriteResult.eagain :: wr2 } hrest hlen hpos
      simp only [List.cons_append, red_peer_handle_outgoing_loop]
      exact this

/-- From a state with no message under way, on a transport that takes `p`
bytes, fewer than the message has, and then reports `EAGAIN`,
`red_channel_client_send_item` returns with the writer blocked at `pos = p`. -/
theorem send_item_blocks (cls : ChannelClass) (w : World) (item : PipeItem)
    (wr1 wr2 : List WriteResult) (hs : w.client.send_data.size = 0)
    (hop : w.client.outgoing.pos = 0) (hos : w.client.outgoing.size = 0)
    (hty : item.type ≠ PIPE_ITEM_TYPE_SET_ACK) (hmt : cls.msg_type item ≠ 0)
    (hwr : w.client.stream.wr = wr1 ++ WriteResult.eagain :: wr2) (h1 : wr_never_blocks wr1)
    (hp : wr_total wr1 < SIZEOF_HEADER + (cls.msg_body item).length) :
    red_channel_client_send_item cls w item
      = some (blocked_one cls w item (wr_total wr1) wr2) := by
  obtain ⟨ch, ⟨st, ack, ⟨m, hdrp, size, it, blocked, serial⟩, ⟨opos, osize⟩, inc, ds⟩, tr⟩ := w
  simp only at hs hop hos hwr
  subst hs hop hos
  have e' := outgoing_loop_blocks cls wr1 wr2
    ⟨ch, ⟨st, { ack with messages_window := (ack.messages_window + 1) % U32 },
      ⟨⟨item_header cls serial item, cls.msg_body item⟩, false,
        SIZEOF_HEADER + (cls.msg_body item).length, some item, blocked, (serial + 1) % U64⟩,
      ⟨0, SIZEOF_HEADER + (cls.msg_body item).length⟩, inc, ds⟩,
      tr ++ [Event.send_item item, Event.hold_item item,
        Event.begin_message (item_header cls serial item) (cls.msg_body item)]⟩
    h1 (by simp [marshaller_bytes_length, spice_marshaller_get_total_size])
    (by simpa using hp)
  have h18 : SIZEOF_HEADER + (cls.msg_body item).length ≠ 0 := by simp [SIZEOF_HEADER]
  have hmod : cls.msg_type item % U16 = cls.msg_type item :=
    Nat.mod_eq_of_lt (cls.msg_type_u16 item)
  simp only [red_channel_client_send_item, red_channel_client_no_item_being_sent,
    red_channel_client_reset_send_data, World.log, hty, channel_send_item,
    red_channel_client_init_send_data, hmod, hmt, red_channel_client_begin_send_message,
    red_channel_client_send, red_peer_handle_outgoing, spice_marshaller_get_total_size,
    decide_True, Bool.not_true, if_false, Option.bind, List.nil_append, Nat.add_sub_cancel_left,
    h18, if_true, item_header, List.append_assoc, List.singleton_append,
    Bool.false_eq_true, hwr] at e' ⊢
  refine e'.trans ?_
  simp [red_channel_client_peer_on_out_block, watch_update_mask, blocked_one, item_header,
    marshaller_bytes]

/-- The pump on a pipe of one item, the gate open, on a transport that takes
`p` bytes, fewer than the message has, and then reports `EAGAIN`: it returns
with the writer blocked. -/
theorem push_blocks (cls : ChannelClass) (w : World) (item : PipeItem)
    (wr1 wr2 : List WriteResult) (hrcc : w.channel.rcc = true)
    (hds : w.client.during_send = false) (hb : w.client.send_data.blocked = false)
    (hw : red_channel_client_waiting_for_ack w = false) (hpipe : w.channel.pipe = [item])
    (hs : w.client.send_data.size = 0)
    (hop : w.client.outgoing.pos = 0) (hos : w.client.outgoing.size = 0)
    (hty : item.type ≠ PIPE_ITEM_TYPE_SET_ACK) (hmt : cls.msg_type item ≠ 0)
    (hwr : w.client.stream.wr = wr1 ++ WriteResult.eagain :: wr2) (h1 : wr_never_blocks wr1)
    (hp : wr_total wr1 < SIZEOF_HEADER + (cls.msg_body item).length) :
    red_channel_push cls w = some
      { blocked_one cls
          { w with
            channel.pipe_size := (w.channel.pipe_size + U32 - 1) % U32
            channel.pipe := []
            client.during_send := true }
          item (wr_total wr1) wr2 with
        client.during_send := false } := by
  obtain ⟨w1, hw1⟩ : ∃ w1 : World, w1 = { w with client.during_send := true } := ⟨_, rfl⟩
  have hget := pipe_get_open w1 [] item (by rw [hw1]; exact hb)
    (by rw [hw1]; simpa [red_channel_client_waiting_for_ack] using hw) (by rw [hw1]; exact hpipe)
  have hsend := send_item_blocks cls
    { w1 with
      channel.pipe_size := (w1.channel.pipe_size + U32 - 1) % U32
      channel.pipe := [] }
    item wr1 wr2 (by rw [hw1]; exact hs) (by rw [hw1]; exact hop) (by rw [hw1]; exact hos)
    hty hmt (by rw [hw1]; exact hwr) h1 hp
  have hloop : red_channel_client_push_loop cls 1 w1 = some
      (blocked_one cls
        { w1 with
          channel.pipe_size := (w1.channel.pipe_size + U32 - 1) % U32
          channel.pipe := [] } item (wr_total wr1) wr2) := by
    simp only [red_channel_client_push_loop, hget, hsend, Option.bind]
  have hlen : w1.channel.pipe.length = 1 := by rw [hw1]; simp [hpipe]
  have hpush : red_channel_push cls w
      = (red_channel_client_push_loop cls w1.channel.pipe.length w1).map
          fun w3 => { w3 with client.during_send := false } := by
    subst hw1
    simp [red_channel_push, hrcc, red_channel_client_push, hds, hb]
  rw [hpush, hlen, hloop, hw1]
  rfl

/-- A WRITE event on a blocked client with nothing in its pipe, on a transport
that no longer blocks: the pump lets the writer finish the message. -/
theorem event_write_drains (cls : ChannelClass) (cb : IncomingCb) (w : World)
    (hds : w.client.during_send = false) (hb : w.client.send_data.blocked = true)
    (hpipe : w.channel.pipe = [])
    (hlen : (marshaller_bytes w.client.send_data.marshaller).length = w.client.outgoing.size)
    (hpos : w.client.outgoing.pos < w.client.outgoing.size)
    (hnb : wr_never_blocks w.client.stream.wr) :
    ∃ wr', wr_never_blocks wr' ∧
      red_channel_client_event cls cb w SPICE_WATCH_EVENT_WRITE = some
        { outgoing_finish { w with client.during_send := true } wr' with
          client.during_send := false } := by
  obtain ⟨wr', hnb', e'⟩ := outgoing_loop_never_blocks cls w.client.stream.wr
    { w with client.during_send := true } hnb hlen hpos
  refine ⟨wr', hnb', ?_⟩
  have hne : w.client.outgoing.size ≠ 0 := by omega
  have hch : (outgoing_finish { w with client.during_send := true } wr').channel.pipe = [] := by
    simp only [outgoing_finish, on_out_msg_done_channel]
    exact hpipe
  have hr : SPICE_WATCH_EVENT_WRITE &&& SPICE_WATCH_EVENT_READ = 0 := by decide
  have hwm : SPICE_WATCH_EVENT_WRITE &&& SPICE_WATCH_EVENT_WRITE ≠ 0 := by decide
  simp only [red_channel_client_event, hr, ne_eq, not_true_eq_false, if_false, Option.bind, hwm,
    not_false_eq_true, if_true, red_channel_client_push, hds, Bool.false_eq_true, hb,
    red_channel_client_send, red_peer_handle_outgoing, hne]
  simp only at e'
  rw [e']
  simp only [hch, List.length_nil, red_channel_client_push_loop, Option.map]

/-- C16 (backpressure). A client with no message under way and the gate open
has the one item `item` in its pipe; the message of the item has `S` bytes, the
header and the body. If the transport takes `p < S` bytes in total and then
reports `EAGAIN`, the pump returns with `outgoing.pos = p` and
`outgoing.size = S`; `on_block` has fired once, `blocked` is set and the watch
mask is READ|WRITE; the item is held, in flight and not released. A WRITE event
on a transport that now takes the rest then returns with `on_msg_done` fired
once, the item released with `item_pushed = TRUE`, `blocked` cleared, the watch
mask READ, `outgoing.pos = outgoing.size = 0`, and all the bytes of the message
written. -/
theorem backpressure (cls : ChannelClass) (cb : IncomingCb) (w : World) (item : PipeItem)
    (wr1 wr2 : List WriteResult) (S p : Nat)
    (hrcc : w.channel.rcc = true) (hds : w.client.during_send = false)
    (hb : w.client.send_data.blocked = false)
    (hw : red_channel_client_waiting_for_ack w = false) (hpipe : w.channel.pipe = [item])
    (hs : w.client.send_data.size = 0) (ho : w.client.outgoing = { pos := 0, size := 0 })
    (hty : item.type ≠ PIPE_ITEM_TYPE_SET_ACK) (hmt : cls.msg_type item ≠ 0)
    (hS : S = SIZEOF_HEADER + (cls.msg_body item).length)
    (hwr : w.client.stream.wr = wr1 ++ WriteResult.eagain :: wr2)
    (h1 : wr_never_blocks wr1) (hp1 : wr_total wr1 = p) (hp : p < S)
    (h2 : wr_never_blocks wr2) :
    ∃ w1, red_channel_push cls w = some w1 ∧
      w1.client.outgoing = { pos := p, size := S } ∧
      w1.client.send_data.blocked = true ∧
      w1.client.stream.watch = w.client.stream.watch.map
        (fun _ => SPICE_WATCH_EVENT_READ ||| SPICE_WATCH_EVENT_WRITE) ∧
      w1.client.send_data.item = some item ∧
      w1.trace = w.trace ++ [Event.send_item item, Event.hold_item item,
        Event.begin_message (item_header cls w.client.send_data.serial item) (cls.msg_body item),
        Event.on_block,
        Event.watch_update_mask (SPICE_WATCH_EVENT_READ ||| SPICE_WATCH_EVENT_WRITE)] ∧
      w1.client.stream.written = w.client.stream.written ++
        (header_to_bytes (item_header cls w.client.send_data.serial item)
          ++ cls.msg_body item).take p ∧
      ∃ w2, red_channel_client_event cls cb w1 SPICE_WATCH_EVENT_WRITE = some w2 ∧
        w2.trace = w1.trace ++ [Event.msg_done, Event.release_item item true,
          Event.watch_update_mask SPICE_WATCH_EVENT_READ] ∧
        w2.client.send_data.blocked = false ∧
        w2.client.send_data.item = none ∧
        w2.client.stream.watch = w.client.stream.watch.map (fun _ => SPICE_WATCH_EVENT_READ) ∧
        w2.client.outgoing = { pos := 0, size := 0 } ∧
        w2.client.send_data.size = 0 ∧
        w2.client.stream.written = w.client.stream.written ++
          (header_to_bytes (item_header cls w.client.send_data.serial item)
            ++ cls.msg_body item) := by
  subst hS hp1
  have hop : w.client.outgoing.pos = 0 := by rw [ho]
  have hos : w.client.outgoing.size = 0 := by rw [ho]
  refine ⟨_, push_blocks cls w item wr1 wr2 hrcc hds hb hw hpipe hs hop hos hty hmt hwr h1 hp,
    rfl, rfl, rfl, rfl, rfl, rfl, ?_⟩
  obtain ⟨wr', _, e'⟩ := event_write_drains cls cb
    { blocked_one cls
        { w with
          channel.pipe_size := (w.channel.pipe_size + U32 - 1) % U32
          channel.pipe := []
          client.during_send := true }
        item (wr_total wr1) wr2 with
      client.during_send := false }
    rfl rfl rfl
    (by simp [blocked_one, marshaller_bytes_length, spice_marshaller_get_total_size])
    (by simpa [blocked_one] using hp) h2
  refine ⟨_, e', ?_⟩
  simp [outgoing_finish, red_channel_peer_on_out_msg_done, red_channel_client_release_sent_item,
    red_channel_client_release_item, hty, World.log, watch_update_mask, blocked_one,
    marshaller_bytes]
  rfl

/-- C16 at the witness of the claim, `S = 100000` and `p = 40000`: a message
of 100000 bytes on a transport that takes 40000 bytes and then reports
`EAGAIN`, and later takes the rest. -/
theorem backpressure_witness :
    ∃ w1, red_channel_push backpressure_cls backpressure_world = some w1 ∧
      w1.client.outgoing = { pos := 40000, size := 100000 } ∧
      w1.client.send_data.blocked = true ∧
      w1.client.stream.watch = backpressure_world.client.stream.watch.map
        (fun _ => SPICE_WATCH_EVENT_READ ||| SPICE_WATCH_EVENT_WRITE) ∧
      w1.client.send_data.item = some midsend_item ∧
      w1.trace = backpressure_world.trace ++ [Event.send_item midsend_item,
        Event.hold_item midsend_item,
        Event.begin_message
          (item_header backpressure_cls backpressure_world.client.send_data.serial midsend_item)
          (backpressure_cls.msg_body midsend_item),
        Event.on_block,
        Event.watch_update_mask (SPICE_WATCH_EVENT_READ ||| SPICE_WATCH_EVENT_WRITE)] ∧
      w1.client.stream.written = backpressure_world.client.stream.written ++
        (header_to_bytes
            (item_header backpressure_cls backpressure_world.client.send_data.serial midsend_item)
          ++ backpressure_cls.msg_body midsend_item).take 40000 ∧
      ∃ w2, red_channel_client_event backpressure_cls cb_accept w1 SPICE_WATCH_EVENT_WRITE
          = some w2 ∧
        w2.trace = w1.trace ++ [Event.msg_done, Event.release_item midsend_item true,
          Event.watch_update_mask SPICE_WATCH_EVENT_READ] ∧
        w2.client.send_data.blocked = false ∧
        w2.client.send_data.item = none ∧
        w2.client.stream.watch = backpressure_world.client.stream.watch.map
          (fun _ => SPICE_WATCH_EVENT_READ) ∧
        w2.client.outgoing = { pos := 0, size := 0 } ∧
        w2.client.send_data.size = 0 ∧
        w2.client.stream.written = backpressure_world.client.stream.written ++
          (header_to_bytes
              (item_header backpressure_cls backpressure_world.client.send_data.serial
                midsend_item)
            ++ backpressure_cls.msg_body midsend_item) :=
  backpressure backpressure_cls cb_accept backpressure_world midsend_item
    [WriteResult.accept 40000] [] 100000 40000 rfl rfl rfl rfl rfl rfl rfl (by decide)
    (by decide)
    (by rw [show backpressure_cls.msg_body midsend_item = List.replicate 99982 0 from rfl,
      List.length_replicate]; rfl)
    rfl (by intro e he; simp at he; exact Or.inl ⟨_, he⟩) rfl (by decide)
    (by intro e he; simp at he)

theorem hold_count_append (x : PipeItem) (t1 t2 : List Event) :
    hold_count x (t1 ++ t2) = hold_count x t1 + hold_count x t2 := by
  induction t1 with
  | nil => simp [hold_count]
  | cons e t ih => cases e <;> simp [hold_count, ih, Nat.add_assoc]

theorem release_count_append (x : PipeItem) (t1 t2 : List Event) :
    release_count x (t1 ++ t2) = release_count x t1 + release_count x t2 := by
  induction t1 with
  | nil => simp [release_count]
  | cons e t ih => cases e <;> simp [release_count, ih, Nat.add_assoc]

theorem hold_count_release_call (x i : PipeItem) (b : Bool) :
    hold_count x [release_call i b] = 0 := by
  unfold release_call
  split <;> rfl

theorem release_count_release_call (x i : PipeItem) (b : Bool) :
    release_count x [release_call i b]
      = if i.type ≠ PIPE_ITEM_TYPE_SET_ACK ∧ i = x then 1 else 0 := by
  unfold release_call
  by_cases h : i.type = PIPE_ITEM_TYPE_SET_ACK
  · simp [h, release_count]
  · simp [h, release_count]

theorem hold_count_releases (x : PipeItem) (items : List PipeItem) :
    hold_count x (items.map fun i => release_call i false) = 0 := by
  induction items with
  | nil => rfl
  | cons i rest ih =>
    have := hold_count_append x [release_call i false] (rest.map fun i => release_call i false)
    simp only [List.singleton_append] at this
    simp [this, ih, hold_count_release_call]

theorem release_count_releases (x : PipeItem) (items : List PipeItem) (hn : items.Nodup) :
    release_count x (items.map fun i => release_call i false)
      = if x ∈ items ∧ x.type ≠ PIPE_ITEM_TYPE_SET_ACK then 1 else 0 := by
  induction items with
  | nil => simp [release_count]
  | cons i rest ih =>
    have := release_count_append x [release_call i false]
      (rest.map fun i => release_call i false)
    simp only [List.singleton_append] at this
    rw [List.nodup_cons] at hn
    simp only [List.map_cons, this, ih hn.2, release_count_release_call]
    by_cases hix : i = x
    · subst hix
      by_cases ht : i.type = PIPE_ITEM_TYPE_SET_ACK
      · simp [ht]
      · simp [ht, hn.1]
    · have hxi : ¬ x = i := fun h => hix h.symm
      simp [hix, hxi]

/-- The bookkeeping only looks at the counts of the trace, and at `size` only
while an item is in flight. -/
theorem held_congr {enq pipe : List PipeItem} {item : Option PipeItem} {size : Nat}
    {tr : List Event} (size1 : Nat) (tr1 : List Event) (h : Held enq pipe item size tr)
    (hs : item = none ∨ size1 ≠ 0) (hh : ∀ x, hold_count x tr1 = hold_count x tr)
    (hr : ∀ x, release_count x tr1 = release_count x tr) : Held enq pipe item size1 tr1 := by
  refine ⟨h.nodup, ?_, ?_, ?_⟩
  · intro x hx
    obtain ⟨h1, h2, _, h4, h5, h6⟩ := h.flight x hx
    refine ⟨h1, h2, ?_, h4, by rw [hh, h5], by rw [hr, h6]⟩
    rcases hs with hs | hs
    · rw [hs] at hx; cases hx
    · exact hs
  · intro x hx
    rw [hh, hr]
    exact h.queued x hx
  · intro x hx hi
    rw [hh, hr]
    exact h.gone x hx hi

/-- The item in flight is released. -/
theorem held_release_flight {enq pipe : List PipeItem} {x : PipeItem} {size : Nat}
    {tr : List Event} (size1 : Nat) (b : Bool) (h : Held enq pipe (some x) size tr) :
    Held enq pipe none size1 (tr ++ [Event.release_item x b]) := by
  obtain ⟨h1, h2, _, h4, h5, h6⟩ := h.flight x rfl
  refine ⟨h.nodup, ?_, ?_, ?_⟩
  · intro y hy
    cases hy
  · intro y hy
    have hne : ¬ x = y := fun e => h1 (e ▸ hy)
    simp only [hold_count_append, release_count_append, hold_count, release_count, hne,
      if_false, Nat.add_zero]
    exact h.queued y hy
  · intro y hy _
    simp only [hold_count_append, release_count_append, hold_count, release_count, Nat.add_zero]
    by_cases hxy : x = y
    · subst hxy
      simp only [if_true, h5, h6, Nat.zero_add, le_refl, and_self, implies_true, true_and]
      rintro (hn | hn)
      · exact absurd h4 hn
      · exact absurd hn h2
    · simp only [hxy, if_false, Nat.add_zero]
      exact h.gone y hy (by simpa using hxy)

/-- The pipe is cleared, every item of it released with FALSE. -/
theorem held_clear_pipe {enq pipe : List PipeItem} {item : Option PipeItem} {size : Nat}
    {tr : List Event} (h : Held enq pipe item size tr) :
    Held enq [] item size (tr ++ pipe.map fun i => release_call i false) := by
  refine ⟨List.nodup_nil, ?_, ?_, ?_⟩
  · intro x hx
    obtain ⟨h1, h2, h3, h4, h5, h6⟩ := h.flight x hx
    refine ⟨List.not_mem_nil _, h2, h3, h4, ?_, ?_⟩
    · rw [hold_count_append, hold_count_releases, h5]
    · rw [release_count_append, release_count_releases x pipe h.nodup, h6]
      simp [h1]
  · intro x hx
    cases hx
  · intro x _ hi
    rw [hold_count_append, hold_count_releases, release_count_append,
      release_count_releases x pipe h.nodup]
    by_cases hp : x ∈ pipe
    · obtain ⟨q1, q2, q3⟩ := h.queued x hp
      by_cases ht : x.type = PIPE_ITEM_TYPE_SET_ACK
      · simp [hp, ht, q2, q3]
      · simp [hp, ht, q1, q2, q3]
    · simp only [hp, false_and, if_false, Nat.add_zero]
      exact h.gone x hp hi

/-- An item of the pipe is removed and released with FALSE. -/
theorem held_remove {enq pipe : List PipeItem} {item : Option PipeItem} {size : Nat}
    {tr : List Event} (x : PipeItem) (hx : x ∈ pipe) (h : Held enq pipe item size tr) :
    Held enq (pipe.erase x) item size (tr ++ [release_call x false]) := by
  have hmem : ∀ y, y ∈ pipe.erase x ↔ y ≠ x ∧ y ∈ pipe := fun y => h.nodup.mem_erase_iff
  refine ⟨h.nodup.erase x, ?_, ?_, ?_⟩
  · intro y hy
    obtain ⟨h1, h2, h3, h4, h5, h6⟩ := h.flight y hy
    have hne : ¬ x = y := fun e => h1 (e ▸ hx)
    refine ⟨fun hm => h1 ((hmem y).1 hm).2, h2, h3, h4, ?_, ?_⟩
    · rw [hold_count_append, hold_count_release_call, h5]
    · rw [release_count_append, release_count_release_call, h6]
      simp [hne]
  · intro y hy
    obtain ⟨hne, hyp⟩ := (hmem y).1 hy
    have hne1 : ¬ x = y := fun e => hne e.symm
    rw [hold_count_append, hold_count_release_call, release_count_append,
      release_count_release_call]
    simp only [hne1, and_false, if_false, Nat.add_zero]
    exact h.queued y hyp
  · intro y hy hi
    rw [hold_count_append, hold_count_release_call, release_count_append,
      release_count_release_call]
    by_cases hxy : x = y
    · subst hxy
      obtain ⟨q1, q2, q3⟩ := h.queued x hx
      by_cases ht : x.type = PIPE_ITEM_TYPE_SET_ACK
      · simp [ht, q2, q3]
      · simp [ht, q1, q2, q3]
    · have hyp : y ∉ pipe := fun hm => hy ((hmem y).2 ⟨fun e => hxy e.symm, hm⟩)
      simp only [hxy, and_false, if_false, Nat.add_zero]
      exact h.gone y hyp hi

/-- The tail of the pipe, an item of the subclass, is taken out and held, and
its message begun. -/
theorem held_pop_hold {enq p : List PipeItem} {x : PipeItem} {size : Nat} {tr : List Event}
    (size1 : Nat) (h : Held enq (p ++ [x]) none size tr)
    (hty : x.type ≠ PIPE_ITEM_TYPE_SET_ACK) (hs : size1 ≠ 0) :
    Held enq p (some x) size1 (tr ++ [Event.hold_item x]) := by
  have hn := h.nodup
  rw [List.nodup_append] at hn
  obtain ⟨hnp, _, hdis⟩ := hn
  have hxp : x ∉ p := fun hm => hdis hm (List.mem_singleton_self x) 
  obtain ⟨q1, q2, q3⟩ := h.queued x (by simp)
  refine ⟨hnp, ?_, ?_, ?_⟩
  · intro y hy
    cases hy
    refine ⟨hxp, hty, hs, q1, ?_, ?_⟩
    · simp [hold_count_append, hold_count, q2]
    · simp [release_count_append, release_count, q3]
  · intro y hy
    have hne : ¬ x = y := fun e => hxp (e ▸ hy)
    simp only [hold_count_append, release_count_append, hold_count, release_count, hne,
      if_false, Nat.add_zero]
    exact h.queued y (by simp [hy])
  · intro y hy hi
    have hne : ¬ x = y := fun e => hi (by rw [e])
    have hne1 : ¬ y = x := fun e => hne e.symm
    simp only [hold_count_append, release_count_append, hold_count, release_count, hne,
      if_false, Nat.add_zero]
    exact h.gone y (by simp [hy, hne1]) (by simp)

/-- The tail of the pipe, a `SET_ACK` item, is taken out. -/
theorem held_pop_set_ack {enq p : List PipeItem} {x : PipeItem} {size : Nat}
    {tr : List Event} (size1 : Nat) (h : Held enq (p ++ [x]) none size tr)
    (hty : x.type = PIPE_ITEM_TYPE_SET_ACK) :
    Held enq p none size1 tr := by
  have hn := h.nodup
  rw [List.nodup_append] at hn
  obtain ⟨hnp, _, hdis⟩ := hn
  obtain ⟨q1, q2, q3⟩ := h.queued x (by simp)
  refine ⟨hnp, ?_, ?_, ?_⟩
  · intro y hy
    cases hy
  · intro y hy
    exact h.queued y (by simp [hy])
  · intro y hy _
    by_cases hxy : y = x
    · subst hxy
      exact ⟨fun _ hne => absurd hty hne, fun _ => ⟨q2, q3⟩⟩
    · exact h.gone y (by simp [hy, hxy]) (by simp)

/-- An item that was never enqueued is added to the pipe, at either end. -/
theorem held_add {enq pipe : List PipeItem} {item : Option PipeItem} {size : Nat}
    {tr : List Event} (x : PipeItem) (hx : x ∉ enq) (h : Held enq pipe item size tr) :
    Held (x :: enq) (x :: pipe) item size tr ∧ Held (x :: enq) (pipe ++ [x]) item size tr := by
  have hxp : x ∉ pipe := fun hm => hx (h.queued x hm).1
  have hxi : item ≠ some x := fun hi => hx (h.flight x hi).2.2.2.1
  have hx0 := (h.gone x hxp hxi).2 (Or.inl hx)
  have key : ∀ pipe1 : List PipeItem, pipe1.Nodup → (∀ y, y ∈ pipe1 ↔ y = x ∨ y ∈ pipe) →
      Held (x :: enq) pipe1 item size tr := by
    intro pipe1 hnd hmem
    refine ⟨hnd, ?_, ?_, ?_⟩
    · intro y hy
      obtain ⟨h1, h2, h3, h4, h5, h6⟩ := h.flight y hy
      have hne : y ≠ x := fun e => hxi (e ▸ hy)
      exact ⟨fun hm => ((hmem y).1 hm).elim hne h1, h2, h3, List.mem_cons_of_mem _ h4, h5, h6⟩
    · intro y hy
      rcases (hmem y).1 hy with e | hyp
      · subst e
        exact ⟨List.mem_cons_self _ _, hx0⟩
      · obtain ⟨q1, q2, q3⟩ := h.queued y hyp
        exact ⟨List.mem_cons_of_mem _ q1, q2, q3⟩
    · intro y hy hi
      have hne : y ≠ x := fun e => hy ((hmem y).2 (Or.inl e))
      have hyp : y ∉ pipe := fun hm => hy ((hmem y).2 (Or.inr hm))
      obtain ⟨g1, g2⟩ := h.gone y hyp hi
      refine ⟨fun he => g1 ((List.mem_cons.1 he).resolve_left hne), ?_⟩
      rintro (hn | ht)
      · exact g2 (Or.inl fun hm => hn (List.mem_cons_of_mem _ hm))
      · exact g2 (Or.inr ht)
  constructor
  · exact key _ (List.nodup_cons.2 ⟨hxp, h.nodup⟩) (fun y => List.mem_cons)
  · refine key _ ?_ (fun y => by simp [or_comm])
    rw [List.nodup_append]
    exact ⟨h.nodup, List.nodup_singleton x, fun a ha hb => by
      rw [List.mem_singleton] at hb
      exact hxp (hb ▸ ha)⟩

/-- With an item in flight a message is under way. -/
theorem held_busy {enq pipe : List PipeItem} {item : Option PipeItem} {size : Nat}
    {tr : List Event} (h : Held enq pipe item size tr) : item = none ∨ size ≠ 0 := by
  cases hi : item with
  | none => exact Or.inl rfl
  | some x => exact Or.inr (h.flight x hi).2.2.1

/-- Calls that are neither `hold_item` nor `release_item` do not matter. -/
theorem held_log {enq pipe : List PipeItem} {item : Option PipeItem} {size : Nat}
    {tr : List Event} (evs : List Event) (h : Held enq pipe item size tr)
    (hh : ∀ x, hold_count x evs = 0) (hr : ∀ x, release_count x evs = 0) :
    Held enq pipe item size (tr ++ evs) :=
  held_congr size _ h (held_busy h) (fun x => by rw [hold_count_append, hh, Nat.add_zero])
    (fun x => by rw [release_count_append, hr, Nat.add_zero])

theorem on_out_block_held (enq : List PipeItem) (w : World) (h : HoldInv enq w) :
    HoldInv enq (red_channel_client_peer_on_out_block w) := by
  unfold HoldInv at *
  exact held_congr _ _ (held_log [Event.on_block, Event.watch_update_mask
    (SPICE_WATCH_EVENT_READ ||| SPICE_WATCH_EVENT_WRITE)] h (fun _ => rfl) (fun _ => rfl))
    (held_busy h) (fun _ => by simp [red_channel_client_peer_on_out_block, watch_update_mask])
    (fun _ => by simp [red_channel_client_peer_on_out_block, watch_update_mask])

theorem release_sent_item_held (enq : List PipeItem) (w : World) (h : HoldInv enq w) :
    HoldInv enq (red_channel_client_release_sent_item w) := by
  unfold HoldInv at *
  cases hi : w.client.send_data.item with
  | none => rw [release_sent_item_fixed w hi]; exact h
  | some x =>
    rw [hi] at h
    have hty := (h.flight x rfl).2.1
    simp only [red_channel_client_release_sent_item, hi, red_channel_client_release_item, hty,
      if_false, World.log]
    exact held_release_flight _ true h

theorem clear_sent_item_held (enq : List PipeItem) (w : World) (h : HoldInv enq w) :
    HoldInv enq (red_channel_client_clear_sent_item w) := by
  unfold HoldInv at *
  cases hi : w.client.send_data.item with
  | none =>
    rw [hi] at h
    simp only [red_channel_client_clear_sent_item, hi]
    exact held_congr 0 _ h (Or.inl rfl) (fun _ => rfl) (fun _ => rfl)
  | some x =>
    rw [hi] at h
    have hty := (h.flight x rfl).2.1
    simp only [red_channel_client_clear_sent_item, hi, red_channel_client_release_item, hty,
      if_false, World.log]
    exact held_release_flight 0 true h

theorem on_out_msg_done_held (enq : List PipeItem) (w : World) (h : HoldInv enq w) :
    HoldInv enq (red_channel_peer_on_out_msg_done w) := by
  unfold HoldInv at *
  cases hi : w.client.send_data.item with
  | none =>
    rw [hi] at h
    have h1 : Held enq w.channel.pipe none 0 (w.trace ++ [Event.msg_done]) :=
      held_congr 0 _ h (Or.inl rfl) (fun _ => by simp [hold_count_append, hold_count])
        (fun _ => by simp [release_count_append, release_count])
    cases hb : w.client.send_data.blocked
    · simp only [red_channel_peer_on_out_msg_done, red_channel_client_release_sent_item, hi, hb,
        Bool.false_eq_true, if_false]
      exact h1
    · simp only [red_channel_peer_on_out_msg_done, red_channel_client_release_sent_item, hi, hb,
        if_true, watch_update_mask]
      exact held_log [Event.watch_update_mask SPICE_WATCH_EVENT_READ] h1 (fun _ => rfl)
        (fun _ => rfl)
  | some x =>
    rw [hi] at h
    have hty := (h.flight x rfl).2.1
    have h1 : Held enq w.channel.pipe none 0
        (w.trace ++ [Event.msg_done] ++ [Event.release_item x true]) :=
      held_release_flight 0 true (held_log [Event.msg_done] h (fun _ => rfl) (fun _ => rfl))
    cases hb : w.client.send_data.blocked
    · simp only [red_channel_peer_on_out_msg_done, red_channel_client_release_sent_item, hi, hb,
        Bool.false_eq_true, if_false, red_channel_client_release_item, hty, World.log]
      exact h1
    · simp only [red_channel_peer_on_out_msg_done, red_channel_client_release_sent_item, hi, hb,
        if_true, watch_update_mask, red_channel_client_release_item, hty, World.log, if_false]
      exact held_log [Event.watch_update_mask SPICE_WATCH_EVENT_READ] h1 (fun _ => rfl)
        (fun _ => rfl)

theorem pipe_clear_held (enq : List PipeItem) (w w1 : World) (h : HoldInv enq w)
    (hc : red_channel_pipe_clear w = some w1) : HoldInv enq w1 := by
  have h0 : HoldInv enq (if w.channel.rcc = true then red_channel_client_clear_sent_item w
      else w) := by
    split
    · exact clear_sent_item_held enq w h
    · exact h
  unfold red_channel_pipe_clear at hc
  simp only at hc
  generalize (if w.channel.rcc = true then red_channel_client_clear_sent_item w else w) = w0
    at hc h0
  split at hc
  · cases hc
  · injection hc with hc
    subst hc
    rw [pipe_clear_items_eq]
    unfold HoldInv at *
    exact held_clear_pipe h0

theorem client_shutdown_held (enq : List PipeItem) (w : World) (h : HoldInv enq w) :
    HoldInv enq (red_channel_client_shutdown w) := by
  unfold red_channel_client_shutdown
  apply release_sent_item_held
  simp only
  split
  · unfold HoldInv at *
    exact held_log [Event.watch_remove, Event.socket_shutdown] h (fun _ => rfl) (fun _ => rfl)
  · exact h

theorem shutdown_held (enq : List PipeItem) (w w1 : World) (h : HoldInv enq w)
    (hc : red_channel_shutdown w = some w1) : HoldInv enq w1 := by
  unfold red_channel_shutdown at hc
  refine pipe_clear_held enq _ w1 ?_ hc
  split
  · exact client_shutdown_held enq w h
  · exact h

theorem client_disconnect_held (enq : List PipeItem) (w : World) (h : HoldInv enq w) :
    HoldInv enq (red_channel_client_disconnect w) := by
  unfold HoldInv at *
  cases hi : w.client.send_data.item with
  | none =>
    rw [hi] at h
    simp only [red_channel_client_disconnect, hi]
    exact held_congr 0 _ h (Or.inl rfl) (fun _ => by simp [hold_count_append, hold_count])
      (fun _ => by simp [release_count_append, release_count])
  | some x =>
    rw [hi] at h
    simp only [red_channel_client_disconnect, hi, World.log]
    exact held_log [Event.stream_free] (held_release_flight 0 false h) (fun _ => rfl)
      (fun _ => rfl)

theorem disconnect_held (enq : List PipeItem) (w w1 : World) (h : HoldInv enq w)
    (hc : red_channel_disconnect w = some w1) : HoldInv enq w1 := by
  unfold red_channel_disconnect at hc
  cases hp : red_channel_pipe_clear w with
  | none => simp [hp] at hc
  | some w0 =>
    have h0 := pipe_clear_held enq w w0 h hp
    simp only [hp, Option.map_some', Option.some.injEq] at hc
    subst hc
    split
    · exact client_disconnect_held enq w0 h0
    · exact h0

theorem outgoing_on_error_held (cls : ChannelClass) (enq : List PipeItem) (w w1 : World)
    (h : HoldInv enq w) (hc : outgoing_on_error cls w = some w1) : HoldInv enq w1 := by
  have h0 : HoldInv enq (w.log Event.on_outgoing_error) := by
    unfold HoldInv at *
    exact held_log [Event.on_outgoing_error] h (fun _ => rfl) (fun _ => rfl)
  unfold outgoing_on_error at hc
  simp only at hc
  split at hc
  · injection hc with hc
    subst hc
    exact h0
  · exact shutdown_held enq _ w1 h0 hc
  · exact disconnect_held enq _ w1 h0 hc

theorem outgoing_written_held (enq : List PipeItem) (w : World) (n : Nat)
    (h : HoldInv enq w) :
    (∀ w1, outgoing_written w n = Sum.inl w1 → HoldInv enq w1) ∧
    (∀ w1, outgoing_written w n = Sum.inr w1 → HoldInv enq w1) := by
  unfold outgoing_written
  simp only
  split
  · constructor
    · intro w1 hw
      injection hw with hw
      subst hw
      exact on_out_msg_done_held enq _ h
    · intro w1 hw
      cases hw
  · constructor
    · intro w1 hw
      cases hw
    · intro w1 hw
      injection hw with hw
      subst hw
      exact h

/-- The writer keeps the bookkeeping of `hold_item` and `release_item`. -/
theorem outgoing_loop_held (cls : ChannelClass) (enq : List PipeItem)
    (wr : List WriteResult) : ∀ (w w1 : World), HoldInv enq w →
    red_peer_handle_outgoing_loop cls wr w = some w1 → HoldInv enq w1 := by
  induction wr with
  | nil =>
    intro w w1 h hc
    unfold red_peer_handle_outgoing_loop at hc
    split at hc
    · rename_i w2 hw
      injection hc with hc
      subst hc
      refine (outgoing_written_held enq _ _ ?_).1 _ hw
      exact h
    · cases hc
  | cons e rest ih =>
    intro w w1 h hc
    cases e with
    | accept k =>
      unfold red_peer_handle_outgoing_loop at hc
      split at hc
      · rename_i w2 hw
        injection hc with hc
        subst hc
        refine (outgoing_written_held enq _ _ ?_).1 _ hw
        exact h
      · rename_i w2 hw
        refine ih w2 w1 ((outgoing_written_held enq _ _ ?_).2 _ hw) hc
        exact h
    | eagain =>
      unfold red_peer_handle_outgoing_loop at hc
      injection hc with hc
      subst hc
      refine on_out_block_held enq _ ?_
      exact h
    | eintr =>
      unfold red_peer_handle_outgoing_loop at hc
      refine ih _ w1 ?_ hc
      exact h
    | epipe =>
      unfold red_peer_handle_outgoing_loop at hc
      refine outgoing_on_error_held cls enq _ w1 ?_ hc
      exact h
    | other =>
      unfold red_peer_handle_outgoing_loop at hc
      refine outgoing_on_error_held cls enq _ w1 ?_ hc
      exact h

theorem send_held (cls : ChannelClass) (enq : List PipeItem) (w w1 : World)
    (h : HoldInv enq w) (hc : red_channel_client_send cls w = some w1) : HoldInv enq w1 := by
  unfold red_channel_client_send red_peer_handle_outgoing at hc
  split at hc
  · simp only at hc
    split at hc
    · injection hc with hc
      subst hc
      exact h
    · refine outgoing_loop_held cls enq _ _ w1 ?_ hc
      exact h
  · exact outgoing_loop_held cls enq _ _ w1 h hc

/-- Sending the item that was taken from the tail of the pipe keeps the
bookkeeping: an item of the subclass is held when its message is begun. -/
theorem send_item_held (cls : ChannelClass) (enq : List PipeItem) (w w1 : World)
    (x : PipeItem)
    (h : Held enq (w.channel.pipe ++ [x]) w.client.send_data.item w.client.send_data.size
      w.trace)
    (hc : red_channel_client_send_item cls w x = some w1) : HoldInv enq w1 := by
  unfold red_channel_client_send_item at hc
  by_cases hz : w.client.send_data.size = 0
  · have hi : w.client.send_data.item = none := (held_busy h).resolve_right (not_not.2 hz)
    rw [hi] at h
    have h18 : ∀ n : Nat, SIZEOF_HEADER + n ≠ 0 := by intro n; simp [SIZEOF_HEADER]
    have h3m : 3 % U16 = 3 := by decide
    have hmod : cls.msg_type x % U16 = cls.msg_type x := Nat.mod_eq_of_lt (cls.msg_type_u16 x)
    by_cases hty : x.type = PIPE_ITEM_TYPE_SET_ACK
    · simp only [red_channel_client_no_item_being_sent, hz, decide_True, Bool.not_true,
        Bool.false_eq_true, if_false, hty, if_true, red_channel_client_send_set_ack,
        red_channel_client_init_send_data, red_channel_client_reset_send_data, World.log,
        SPICE_MSG_SET_ACK, h3m, OfNat.ofNat_ne_zero, Option.bind,
        red_channel_client_begin_send_message] at hc
      refine send_held cls enq _ w1 ?_ hc
      unfold HoldInv
      simp only
      exact held_congr _ _ (held_pop_set_ack w.client.send_data.size h hty) (Or.inl rfl)
        (fun _ => by simp [hold_count_append, hold_count])
        (fun _ => by simp [release_count_append, release_count])
    · by_cases hmt : cls.msg_type x = 0
      · simp [red_channel_client_no_item_being_sent, hz, hty, channel_send_item,
          red_channel_client_init_send_data, red_channel_client_reset_send_data, World.log,
          hmod, hmt] at hc
      · simp only [red_channel_client_no_item_being_sent, hz, decide_True, Bool.not_true,
          Bool.false_eq_true, if_false, hty, channel_send_item,
          red_channel_client_init_send_data, red_channel_client_reset_send_data, World.log,
          hmod, hmt, Option.bind, red_channel_client_begin_send_message] at hc
        refine send_held cls enq _ w1 ?_ hc
        unfold HoldInv
        simp only
        exact held_congr _ _
          (held_pop_hold (spice_marshaller_get_total_size
              { header := { serial := (w.client.send_data.serial + 1) % U64,
                            type := cls.msg_type x, size := 0, sub_list := 0 },
                body := [] ++ cls.msg_body x })
            h hty (h18 _))
          (Or.inr (h18 _))
          (fun _ => by simp [hold_count_append, hold_count])
          (fun _ => by simp [release_count_append, release_count])
  · simp [red_channel_client_no_item_being_sent, hz] at hc

/-- What `red_channel_client_pipe_get` changes when it returns an item. -/
theorem pipe_get_some (w w1 : World) (x : PipeItem)
    (h : red_channel_client_pipe_get w = (some x, w1)) :
    w.channel.pipe = w1.channel.pipe ++ [x] ∧ w1.client = w.client ∧ w1.trace = w.trace := by
  unfold red_channel_client_pipe_get at h
  split at h
  · cases h
  · split at h
    · cases h
    · rename_i y hy
      injection h with h1 h2
      injection h1 with h1
      subst h1 h2
      refine ⟨?_, rfl, rfl⟩
      exact (List.dropLast_append_getLast? y hy).symm

theorem push_loop_held (cls : ChannelClass) (enq : List PipeItem) : ∀ (fuel : Nat)
    (w w1 : World), HoldInv enq w → red_channel_client_push_loop cls fuel w = some w1 →
    HoldInv enq w1 := by
  intro fuel
  induction fuel with
  | zero =>
    intro w w1 h hc
    simp only [red_channel_client_push_loop, Option.some.injEq] at hc
    subst hc
    exact h
  | succ fuel ih =>
    intro w w1 h hc
    unfold red_channel_client_push_loop at hc
    split at hc
    · rename_i w2 hget
      injection hc with hc
      subst hc
      have h1 : (red_channel_client_pipe_get w).1 = none := by rw [hget]
      have := pipe_get_none w h1
      rw [this] at hget
      injection hget with _ h2
      rw [← h2]
      exact h
    · rename_i x w2 hget
      obtain ⟨hp, hcl, htr⟩ := pipe_get_some w w2 x hget
      cases hs : red_channel_client_send_item cls w2 x with
      | none => simp [hs] at hc
      | some w3 =>
        simp only [hs, Option.bind] at hc
        refine ih w3 w1 (send_item_held cls enq w2 w3 x ?_ hs) hc
        unfold HoldInv at h
        rw [← hp, hcl, htr]
        exact h

/-- The pump keeps the bookkeeping of `hold_item` and `release_item`. -/
theorem client_push_held (cls : ChannelClass) (enq : List PipeItem) (w w1 : World)
    (h : HoldInv enq w) (hc : red_channel_client_push cls w = some w1) : HoldInv enq w1 := by
  unfold red_channel_client_push at hc
  split at hc
  · injection hc with hc
    subst hc
    exact h
  · simp only at hc
    cases h2 : (if w.client.send_data.blocked = true then
        red_channel_client_send cls { w with client.during_send := true }
      else some { w with client.during_send := true }) with
    | none => simp [h2] at hc
    | some w2 =>
      have hw2 : HoldInv enq w2 := by
        split at h2
        · refine send_held cls enq _ w2 ?_ h2
          exact h
        · injection h2 with h2
          subst h2
          exact h
      simp only [h2, Option.bind] at hc
      cases h3 : red_channel_client_push_loop cls w2.channel.pipe.length w2 with
      | none => simp [h3] at hc
      | some w3 =>
        simp only [h3, Option.map_some', Option.some.injEq] at hc
        subst hc
        exact push_loop_held cls enq _ w2 w3 hw2 h3

theorem push_held (cls : ChannelClass) (enq : List PipeItem) (w w1 : World)
    (h : HoldInv enq w) (hc : red_channel_push cls w = some w1) : HoldInv enq w1 := by
  unfold red_channel_push at hc
  split at hc
  · injection hc with hc
    subst hc
    exact h
  · exact client_push_held cls enq w w1 h hc

/-- The bookkeeping looks at `enq` as a set. -/
theorem held_enq {enq enq1 pipe : List PipeItem} {item : Option PipeItem} {size : Nat}
    {tr : List Event} (he : ∀ x, x ∈ enq1 ↔ x ∈ enq) (h : Held enq pipe item size tr) :
    Held enq1 pipe item size tr := by
  refine ⟨h.nodup, ?_, ?_, ?_⟩
  · intro x hx
    obtain ⟨h1, h2, h3, h4, h5⟩ := h.flight x hx
    exact ⟨h1, h2, h3, (he x).2 h4, h5⟩
  · intro x hx
    obtain ⟨q1, q2⟩ := h.queued x hx
    exact ⟨(he x).2 q1, q2⟩
  · intro x hx hi
    obtain ⟨g1, g2⟩ := h.gone x hx hi
    refine ⟨fun hm => g1 ((he x).1 hm), ?_⟩
    rintro (hn | ht)
    · exact g2 (Or.inl fun hm => hn ((he x).2 hm))
    · exact g2 (Or.inr ht)

theorem event_write_held (cls : ChannelClass) (cb : IncomingCb) (enq : List PipeItem)
    (w w1 : World) (h : HoldInv enq w)
    (hc : red_channel_client_event cls cb w SPICE_WATCH_EVENT_WRITE = some w1) :
    HoldInv enq w1 := by
  have hr : SPICE_WATCH_EVENT_WRITE &&& SPICE_WATCH_EVENT_READ = 0 := by decide
  have hwm : SPICE_WATCH_EVENT_WRITE &&& SPICE_WATCH_EVENT_WRITE ≠ 0 := by decide
  simp only [red_channel_client_event, hr, ne_eq, not_true_eq_false, if_false, Option.bind, hwm,
    not_false_eq_true, if_true] at hc
  exact client_push_held cls enq w w1 h hc

/-- Every operation keeps the bookkeeping of `hold_item` and `release_item`,
an enqueue adding its item, which must be a new one, to the enqueued items. -/
theorem op_held (cls : ChannelClass) (cb : IncomingCb) (enq : List PipeItem) (w w1 : World)
    (op : PipeOp) (h : HoldInv enq w) (hf : ∀ x ∈ op.enqueued, x ∉ enq)
    (hc : op.run cls cb w = some w1) : HoldInv (op.enqueued ++ enq) w1 := by
  cases op with
  | pipe_add item =>
    simp only [PipeOp.run, Option.some.injEq] at hc
    subst hc
    exact (held_add item (hf item (by simp [PipeOp.enqueued])) h).1
  | pipe_add_push item =>
    simp only [PipeOp.run, red_channel_pipe_add_push] at hc
    refine push_held cls _ _ w1 ?_ hc
    exact (held_add item (hf item (by simp [PipeOp.enqueued])) h).1
  | pipe_add_tail item =>
    simp only [PipeOp.run, red_channel_pipe_add_tail] at hc
    refine push_held cls _ _ w1 ?_ hc
    exact (held_add item (hf item (by simp [PipeOp.enqueued])) h).2
  | push => exact push_held cls _ w w1 h hc
  | write_event => exact event_write_held cls cb _ w w1 h hc
  | pipe_clear => exact pipe_clear_held _ w w1 h hc
  | pipe_remove_and_release item =>
    simp only [PipeOp.run] at hc
    split at hc
    · rename_i hm
      injection hc with hc
      subst hc
      rw [red_channel_client_pipe_remove_and_release, release_item_log]
      exact held_remove item hm h
    · cases hc
  | shutdown => exact shutdown_held _ w w1 h hc
  | disconnect => exact disconnect_held _ w w1 h hc
  | client_disconnect =>
    simp only [PipeOp.run] at hc
    split at hc
    · injection hc with hc
      subst hc
      exact client_disconnect_held _ w h
    · cases hc

/-- A sequence of operations that enqueues no item twice keeps the bookkeeping
of `hold_item` and `release_item`. -/
theorem run_ops_held (cls : ChannelClass) (cb : IncomingCb) : ∀ (ops : List PipeOp)
    (enq : List PipeItem) (w w1 : World), HoldInv enq w → (enqueued_items ops).Nodup →
    (∀ x ∈ enqueued_items ops, x ∉ enq) → run_ops cls cb w ops = some w1 →
    HoldInv (enqueued_items ops ++ enq) w1 := by
  intro ops
  induction ops with
  | nil =>
    intro enq w w1 h _ _ hc
    simp only [run_ops, Option.some.injEq] at hc
    subst hc
    exact h
  | cons op ops ih =>
    intro enq w w1 h hn hf hc
    simp only [enqueued_items] at hn hf ⊢
    rw [List.nodup_append] at hn
    obtain ⟨_, hn2, hdis⟩ := hn
    cases ho : op.run cls cb w with
    | none => simp [run_ops, ho] at hc
    | some w2 =>
      simp only [run_ops, ho, Option.bind] at hc
      have h2 := op_held cls cb enq w w2 op h
        (fun x hx => hf x (List.mem_append_left _ hx)) ho
      have h3 := ih (op.enqueued ++ enq) w2 w1 h2 hn2 (by
        intro x hx hm
        rcases List.mem_append.1 hm with hm | hm
        · exact hdis hm hx
        · exact hf x (List.mem_append_right _ hx) hm) hc
      exact held_enq (fun x => by simp only [List.mem_append]; tauto) h3

/-- C12, amended (balance of `hold_item` and `release_item`). From a client
with an empty pipe, no item in flight and an empty trace, after any sequence of
enqueues, pumps, WRITE events, `pipe_clear`, `pipe_remove_and_release`,
shutdowns and disconnects that enqueues no item twice and returns, every item
`x` of the subclass that was enqueued is in one of three states. In the pipe:
it has been neither held nor released. In flight (`send_data.item`): it has been
held once and not released. Neither: it has been released once and held at most
once. So the number of `hold_item` calls minus the number of `release_item`
calls on `x` is -1, 0 or 1, and it is 1 exactly when `x` is in flight. -/
theorem hold_release_balance (cls : ChannelClass) (cb : IncomingCb) (w0 w : World)
    (ops : List PipeOp) (x : PipeItem)
    (hp : w0.channel.pipe = []) (hi : w0.client.send_data.item = none) (ht : w0.trace = [])
    (hfresh : (enqueued_items ops).Nodup) (hrun : run_ops cls cb w0 ops = some w)
    (hx : x ∈ enqueued_items ops) (hty : x.type ≠ PIPE_ITEM_TYPE_SET_ACK) :
    (x ∈ w.channel.pipe → hold_count x w.trace = 0 ∧ release_count x w.trace = 0) ∧
    (w.client.send_data.item = some x →
      hold_count x w.trace = 1 ∧ release_count x w.trace = 0) ∧
    (x ∉ w.channel.pipe → w.client.send_data.item ≠ some x →
      release_count x w.trace = 1 ∧ hold_count x w.trace ≤ 1) ∧
    (((hold_count x w.trace : Int) - (release_count x w.trace : Int) = 1) ↔
      w.client.send_data.item = some x) ∧
    (-1 ≤ (hold_count x w.trace : Int) - (release_count x w.trace : Int) ∧
      (hold_count x w.trace : Int) - (release_count x w.trace : Int) ≤ 1) := by
  have h0 : HoldInv [] w0 := by
    unfold HoldInv
    rw [hp, hi, ht]
    refine ⟨List.nodup_nil, ?_, ?_, ?_⟩
    · intro _ h
      cases h
    · intro _ h
      cases h
    · intro _ _ _
      exact ⟨fun h => (by cases h), fun _ => ⟨rfl, rfl⟩⟩
  have h := run_ops_held cls cb ops [] w0 w h0 hfresh (fun _ _ h => (by cases h)) hrun
  unfold HoldInv at h
  have hxe : x ∈ enqueued_items ops ++ [] := by simpa using hx
  have q := h.queued x
  have f := h.flight x
  have g := h.gone x
  by_cases hpx : x ∈ w.channel.pipe
  · obtain ⟨_, q2, q3⟩ := q hpx
    have hne : w.client.send_data.item ≠ some x := fun e => (f e).1 hpx
    simp [hpx, hne, q2, q3]
  · by_cases hix : w.client.send_data.item = some x
    · obtain ⟨_, _, _, _, f5, f6⟩ := f hix
      simp [hpx, hix, f5, f6]
    · obtain ⟨g1, g2⟩ := (g hpx hix).1 hxe hty
      refine ⟨fun h => absurd h hpx, fun h => absurd h hix, fun _ _ => ⟨g1, g2⟩, ?_, ?_, ?_⟩
      · constructor
        · intro h1
          omega
        · intro h1
          exact absurd h1 hix
      · omega
      · omega

/-- C12, amended, at the end of the scenario "hold and release": item 0, whose
message was begun and then abandoned by `pipe_clear`, has been held once and
released once; the operations return. -/
theorem hold_release_balance_witness :
    run_ops scenario_cls cb_accept hold_scenario_start hold_scenario_ops
      = some hold_scenario_end ∧
    release_count { type := 101, id := 0 } hold_scenario_end.trace = 1 ∧
    hold_count { type := 101, id := 0 } hold_scenario_end.trace ≤ 1 ∧
    hold_count { type := 101, id := 0 } hold_scenario_end.trace = 1 :=
  ⟨rfl,
   (hold_release_balance scenario_cls cb_accept hold_scenario_start hold_scenario_end
      hold_scenario_ops { type := 101, id := 0 } rfl rfl rfl (by decide) rfl (by decide)
      (by decide)).2.2.1 (by decide) (by decide) |>.1,
   (hold_release_balance scenario_cls cb_accept hold_scenario_start hold_scenario_end
      hold_scenario_ops { type := 101, id := 0 } rfl rfl rfl (by decide) rfl (by decide)
      (by decide)).2.2.1 (by decide) (by decide) |>.2,
   by decide⟩

/-- C12 as stated fails. An item that is enqueued and still in the pipe has
not been held: the difference is 0, not 1. An item released by `pipe_clear`
while it is in the pipe has been released once and never held: the difference
is -1. -/
theorem hold_release_balance_counterexample :
    (run_ops scenario_cls cb_accept hold_scenario_start
        [PipeOp.pipe_add { type := 101, id := 0 }]).map
        (fun w => (w.channel.pipe, hold_count { type := 101, id := 0 } w.trace,
          release_count { type := 101, id := 0 } w.trace))
      = some ([{ type := 101, id := 0 }], 0, 0) ∧
    (run_ops scenario_cls cb_accept hold_scenario_start hold_scenario_ops).map
        (fun w => (w.channel.pipe, w.client.send_data.item,
          hold_count { type := 101, id := 1 } w.trace,
          release_count { type := 101, id := 1 } w.trace))
      = some ([], none, 0, 1) := by
  refine ⟨by decide, by decide⟩

theorem rd_quiet_tail (e : ReadResult) (rd : List ReadResult) (h : rd_quiet (e :: rd)) :
    rd_quiet rd :=
  fun x hx => h x (List.mem_cons_of_mem _ hx)

/-- Through quiet read results that give fewer bytes than are asked for, the
loop of `red_peer_receive` stores their bytes and goes on with the rest of the
script. -/
theorem receive_quiet (pre : List ReadResult) : ∀ (rest : List ReadResult) (size : Nat),
    rd_quiet pre → (rd_bytes pre).length < size →
    red_peer_receive_loop false (pre ++ rest) size =
      { red_peer_receive_loop false rest (size - (rd_bytes pre).length) with
        bytes := rd_bytes pre
          ++ (red_peer_receive_loop false rest (size - (rd_bytes pre).length)).bytes } := by
  induction pre with
  | nil =>
    intro rest size _ _
    simp [rd_bytes]
  | cons e pre ih =>
    intro rest size hq hlt
    have hq' := rd_quiet_tail e pre hq
    cases size with
    | zero => omega
    | succ n =>
      rcases hq e (List.mem_cons_self _ _) with rfl | ⟨bs, rfl, hne⟩
      · simp only [rd_bytes] at hlt ⊢
        simp only [List.cons_append, red_peer_receive_loop, Bool.false_eq_true, if_false]
        exact ih rest (n + 1) hq' hlt
      · have hlen : bs.length ≠ 0 := by simpa using hne
        simp only [rd_bytes, List.length_append] at hlt ⊢
        have hle : bs.length ≤ n + 1 := by omega
        simp only [List.cons_append, red_peer_receive_loop, Bool.false_eq_true, if_false, hlen,
          hle, if_true, List.append_eq]
        rw [ih rest (n + 1 - bs.length) hq' (by omega)]
        simp [Nat.sub_sub]

/-- When quiet read results give as many bytes as are asked for, the loop of
`red_peer_receive` stores `size` of them and ends without error. -/
theorem receive_full (pre : List ReadResult) : ∀ (rest : List ReadResult) (size : Nat),
    rd_quiet pre → size ≤ (rd_bytes pre).length →
    ∃ rd1, red_peer_receive_loop false (pre ++ rest) size =
      { failed := false, bytes := (rd_bytes pre).take size, rd := rd1 } := by
  induction pre with
  | nil =>
    intro rest size _ hle
    simp only [rd_bytes, List.length_nil, Nat.le_zero] at hle
    subst hle
    exact ⟨rest, by simp [red_peer_receive_loop]⟩
  | cons e pre ih =>
    intro rest size hq hle
    have hq' := rd_quiet_tail e pre hq
    cases size with
    | zero => exact ⟨e :: pre ++ rest, by simp [red_peer_receive_loop]⟩
    | succ n =>
      rcases hq e (List.mem_cons_self _ _) with rfl | ⟨bs, rfl, hne⟩
      · simp only [rd_bytes] at hle ⊢
        simp only [List.cons_append, red_peer_receive_loop, Bool.false_eq_true, if_false]
        exact ih rest (n + 1) hq' hle
      · have hlen : bs.length ≠ 0 := by simpa using hne
        simp only [rd_bytes, List.length_append] at hle ⊢
        by_cases hb : bs.length ≤ n + 1
        · obtain ⟨rd1, h1⟩ := ih rest (n + 1 - bs.length) hq' (by omega)
          refine ⟨rd1, ?_⟩
          simp only [List.cons_append, red_peer_receive_loop, Bool.false_eq_true, if_false, hlen,
            hb, if_true, List.append_eq, h1]
          simp [List.take_append_eq_append_take, List.take_of_length_le hb]
        · refine ⟨ReadResult.data (bs.drop (n + 1)) :: (pre ++ rest), ?_⟩
          simp only [List.cons_append, red_peer_receive_loop, Bool.false_eq_true, if_false, hlen,
            hb, List.append_eq]
          have : n + 1 ≤ bs.length := by omega
          simp [List.take_append_of_le_length this]

/-- Every script is made of quiet read results that either give all the bytes
asked for, or are followed by the end of the script, an `EAGAIN` or a fatal
result before they have. -/
theorem rd_split (rd : List ReadResult) : ∀ (size : Nat),
    ∃ pre rest, rd = pre ++ rest ∧ rd_quiet pre ∧
      (size ≤ (rd_bytes pre).length ∨
        ((rd_bytes pre).length < size ∧
          (rest = [] ∨ ∃ e post, rest = e :: post ∧ (e = ReadResult.eagain ∨ rd_fatal e)))) := by
  induction rd with
  | nil =>
    intro size
    refine ⟨[], [], rfl, fun _ h => (by cases h), ?_⟩
    by_cases h : size = 0
    · left; simp [h, rd_bytes]
    · right; exact ⟨by simp [rd_bytes]; omega, Or.inl rfl⟩
  | cons e rd ih =>
    intro size
    have stop : (e = ReadResult.eagain ∨ rd_fatal e) →
        ∃ pre rest, e :: rd = pre ++ rest ∧ rd_quiet pre ∧
          (size ≤ (rd_bytes pre).length ∨
            ((rd_bytes pre).length < size ∧
              (rest = [] ∨ ∃ e post, rest = e :: post ∧
                (e = ReadResult.eagain ∨ rd_fatal e)))) := by
      intro he
      refine ⟨[], e :: rd, rfl, fun _ h => (by cases h), ?_⟩
      by_cases h : size = 0
      · left; simp [h, rd_bytes]
      · right; exact ⟨by simp [rd_bytes]; omega, Or.inr ⟨e, rd, rfl, he⟩⟩
    have go : ∀ k, (e = ReadResult.eintr ∨ ∃ bs, e = ReadResult.data bs ∧ bs ≠ []) →
        (rd_bytes [e]).length = k →
        ∃ pre rest, e :: rd = pre ++ rest ∧ rd_quiet pre ∧
          (size ≤ (rd_bytes pre).length ∨
            ((rd_bytes pre).length < size ∧
              (rest = [] ∨ ∃ e post, rest = e :: post ∧
                (e = ReadResult.eagain ∨ rd_fatal e)))) := by
      intro k hq hk
      obtain ⟨pre, rest, h1, h2, h3⟩ := ih (size - k)
      refine ⟨e :: pre, rest, by simp [h1], ?_, ?_⟩
      · intro x hx
        rcases List.mem_cons.1 hx with rfl | hx
        · exact hq
        · exact h2 x hx
      · have hb : (rd_bytes (e :: pre)).length = k + (rd_bytes pre).length := by
          rcases hq with rfl | ⟨bs, rfl, _⟩
          · simp only [rd_bytes, List.length_nil] at hk ⊢
            omega
          · simp only [rd_bytes, List.length_append, List.append_nil] at hk ⊢
            omega
        rcases h3 with h3 | ⟨h3, h4⟩
        · left; omega
        · by_cases hs : size ≤ k + (rd_bytes pre).length
          · left; omega
          · right; exact ⟨by omega, h4⟩
    cases e with
    | data bs =>
      by_cases hne : bs = []
      · subst hne
        exact stop (Or.inr (Or.inl rfl))
      · exact go _ (Or.inr ⟨bs, rfl, hne⟩) rfl
    | eagain => exact stop (Or.inl rfl)
    | eintr => exact go _ (Or.inl rfl) rfl
    | epipe => exact stop (Or.inr (Or.inr (Or.inl rfl)))
    | other => exact stop (Or.inr (Or.inr (Or.inr rfl)))

/-- The value `red_peer_receive` returns when its loop ends without error: the
count of the bytes stored, as an `int`. -/
theorem receive_ret_count (st : RedsStream) (size : Nat)
    (h : (red_peer_receive_loop st.shutdown st.rd size).failed = false) :
    (red_peer_receive st size).1.ret
      = int_of_count (red_peer_receive_loop st.shutdown st.rd size).bytes.length := by
  simp only [red_peer_receive, Received.ret, h, Bool.false_or, decide_eq_true_eq]
  split
  · rename_i h1
    exact h1.symm
  · rfl

/-- The value `red_peer_receive` returns when its loop ends in a `return -1`. -/
theorem receive_ret_failed (st : RedsStream) (size : Nat)
    (h : (red_peer_receive_loop st.shutdown st.rd size).failed = true) :
    (red_peer_receive st size).1.ret = -1 := by
  simp [red_peer_receive, Received.ret, h]

/-- C24, the behaviour of the code (`red_peer_receive`). With `stream.shutdown`
set and a size that is not 0 the result is -1. Otherwise, the read results up
to the first that is neither a read giving bytes nor `EINTR` count: if they give
fewer than `size` bytes and a read returning 0, `EPIPE` or another error
follows, the result is -1; if they give fewer than `size` bytes and an `EAGAIN`
or the end of the script follows, the bytes stored are theirs and the result is
their count; if they give `size` bytes or more, `size` bytes are stored and the
result is `size`; every script is of one of these forms, and `EINTR` results
count for nothing. The count is returned as a 32-bit `int`: it is the count
itself below `2 ^ 31`, and it is -1 for the count `2 ^ 32 - 1`. -/
theorem receive_return_value (st : RedsStream) (size : Nat) :
    (st.shutdown = true → 0 < size → (red_peer_receive st size).1.ret = -1) ∧
    (st.shutdown = false → ∀ pre e post, st.rd = pre ++ e :: post → rd_quiet pre →
      (rd_bytes pre).length < size → rd_fatal e → (red_peer_receive st size).1.ret = -1) ∧
    (st.shutdown = false → ∀ pre post,
      st.rd = pre ∨ st.rd = pre ++ ReadResult.eagain :: post →
      rd_quiet pre → (rd_bytes pre).length < size →
      (red_peer_receive st size).1.bytes = rd_bytes pre ∧
        (red_peer_receive st size).1.ret = int_of_count (rd_bytes pre).length) ∧
    (st.shutdown = false → ∀ pre post, st.rd = pre ++ post → rd_quiet pre →
      size ≤ (rd_bytes pre).length →
      (red_peer_receive st size).1.bytes = (rd_bytes pre).take size ∧
        (red_peer_receive st size).1.ret = int_of_count size) ∧
    (∃ pre rest, st.rd = pre ++ rest ∧ rd_quiet pre ∧
      (size ≤ (rd_bytes pre).length ∨
        ((rd_bytes pre).length < size ∧
          (rest = [] ∨ ∃ e post, rest = e :: post ∧
            (e = ReadResult.eagain ∨ rd_fatal e))))) ∧
    (∀ n : Nat, n < U32 / 2 → int_of_count n = n) ∧
    int_of_count (U32 - 1) = -1 := by
  refine ⟨?_, ?_, ?_, ?_, rd_split st.rd size, ?_, int_of_count_max _ rfl⟩
  · intro hs hpos
    apply receive_ret_failed
    rw [hs]
    obtain ⟨n, rfl⟩ : ∃ n, size = n + 1 := ⟨size - 1, by omega⟩
    cases hrd : st.rd with
    | nil => simp [red_peer_receive_loop]
    | cons e rest => cases e <;> simp [red_peer_receive_loop]
  · intro hs pre e post hrd hq hlt hf
    apply receive_ret_failed
    rw [hs, hrd, receive_quiet pre (e :: post) size hq hlt]
    obtain ⟨n, hn⟩ : ∃ n, size - (rd_bytes pre).length = n + 1 :=
      ⟨size - (rd_bytes pre).length - 1, by omega⟩
    rw [hn]
    rcases hf with rfl | rfl | rfl <;> simp [red_peer_receive_loop]
  · intro hs pre post hrd hq hlt
    obtain ⟨n, hn⟩ : ∃ n, size - (rd_bytes pre).length = n + 1 :=
      ⟨size - (rd_bytes pre).length - 1, by omega⟩
    have hloop : red_peer_receive_loop st.shutdown st.rd size
        = { failed := false, bytes := rd_bytes pre,
            rd := (red_peer_receive_loop st.shutdown st.rd size).rd } := by
      rcases hrd with hrd | hrd
      · rw [hs, hrd]
        have := receive_quiet pre [] size hq hlt
        rw [List.append_nil] at this
        rw [this, hn]
        simp [red_peer_receive_loop]
      · rw [hs, hrd, receive_quiet pre (ReadResult.eagain :: post) size hq hlt, hn]
        simp [red_peer_receive_loop]
    have hf : (red_peer_receive_loop st.shutdown st.rd size).failed = false := by rw [hloop]
    have hb : (red_peer_receive_loop st.shutdown st.rd size).bytes = rd_bytes pre := by
      rw [hloop]
    refine ⟨?_, ?_⟩
    · simp only [red_peer_receive]
      exact hb
    · rw [receive_ret_count st size hf, hb]
  · intro hs pre post hrd hq hle
    obtain ⟨rd1, h0⟩ := receive_full pre post size hq hle
    have h1 : red_peer_receive_loop st.shutdown st.rd size
        = { failed := false, bytes := (rd_bytes pre).take size, rd := rd1 } := by
      rw [hs, hrd]
      exact h0
    have hf : (red_peer_receive_loop st.shutdown st.rd size).failed = false := by rw [h1]
    have hb : (red_peer_receive_loop st.shutdown st.rd size).bytes
        = (rd_bytes pre).take size := by rw [h1]
    refine ⟨?_, ?_⟩
    · simp only [red_peer_receive]
      exact hb
    · rw [receive_ret_count st size hf, hb, List.length_take, Nat.min_eq_left hle]
  · intro n hn
    unfold int_of_count
    simp only [U32_eq] at hn ⊢
    have : n % 4294967296 = n := Nat.mod_eq_of_lt (by omega)
    simp [this, hn]

/-- C24: a script of two reads with an `EINTR` between them, then `EAGAIN`:
three bytes of the five asked for are stored, and 3 is returned. -/
theorem receive_return_value_witness :
    (red_peer_receive (stream_new [ReadResult.data [1, 2], ReadResult.eintr, ReadResult.data [3],
        ReadResult.eagain, ReadResult.data [4]] []) 5).1.bytes = [1, 2, 3] ∧
      (red_peer_receive (stream_new [ReadResult.data [1, 2], ReadResult.eintr,
        ReadResult.data [3], ReadResult.eagain, ReadResult.data [4]] []) 5).1.ret = 3 :=
  (receive_return_value (stream_new [ReadResult.data [1, 2], ReadResult.eintr,
      ReadResult.data [3], ReadResult.eagain, ReadResult.data [4]] []) 5).2.2.1 rfl
    [ReadResult.data [1, 2], ReadResult.eintr, ReadResult.data [3]] [ReadResult.data [4]]
    (Or.inr rfl)
    (by
      intro e he
      simp only [List.mem_cons, List.mem_singleton, List.not_mem_nil, or_false] at he
      rcases he with rfl | rfl | rfl <;> simp)
    (by decide)

/-- When the reads give exactly the bytes asked for, with no `EAGAIN`, no error
and no shutdown, the loop of `red_peer_receive` stores them all. -/
theorem receive_all (st : RedsStream) (size : Nat) (hs : st.shutdown = false)
    (hq : rd_quiet st.rd) (hlen : (rd_bytes st.rd).length = size) :
    (red_peer_receive_loop st.shutdown st.rd size).failed = false ∧
      (red_peer_receive_loop st.shutdown st.rd size).bytes = rd_bytes st.rd := by
  obtain ⟨rd1, h0⟩ := receive_full st.rd [] size hq (by omega)
  rw [List.append_nil] at h0
  rw [hs, h0]
  refine ⟨rfl, ?_⟩
  show (rd_bytes st.rd).take size = rd_bytes st.rd
  rw [← hlen, List.take_length]

/-- A request for `2 ^ 32 - 1` bytes that the reads satisfy in full returns -1. -/
theorem receive_wraps (st : RedsStream) (hs : st.shutdown = false)
    (hq : rd_quiet st.rd) (hlen : (rd_bytes st.rd).length = U32 - 1) :
    (red_peer_receive st (U32 - 1)).1.failed = true ∧ (red_peer_receive st (U32 - 1)).1.ret = -1 ∧
      (red_peer_receive st (U32 - 1)).1.bytes = rd_bytes st.rd := by
  obtain ⟨hf, hb⟩ := receive_all st (U32 - 1) hs hq hlen
  have h1 : (red_peer_receive st (U32 - 1)).1.failed = true := by
    simp only [red_peer_receive, hf, hb, hlen, Bool.false_or, decide_eq_true_eq]
    exact int_of_count_max _ rfl
  refine ⟨h1, ?_, ?_⟩
  · simp only [Received.ret, h1, if_true]
  · simp only [red_peer_receive]
    exact hb

theorem wrap_rd_quiet : rd_quiet wrap_rd := by
  intro e he
  simp only [wrap_rd, List.mem_cons, List.mem_singleton, List.not_mem_nil, or_false] at he
  have hne : List.replicate 2147483647 0 ≠ ([] : List Nat) := by
    intro h
    have h2 := congrArg List.length h
    rw [List.length_replicate] at h2
    exact absurd h2 (by decide)
  rcases he with rfl | rfl | rfl
  · exact Or.inr ⟨_, rfl, hne⟩
  · exact Or.inr ⟨_, rfl, hne⟩
  · exact Or.inr ⟨_, rfl, by decide⟩

theorem wrap_rd_length : (rd_bytes wrap_rd).length = U32 - 1 := by
  show (List.replicate 2147483647 0 ++ (List.replicate 2147483647 0 ++ ([0] ++ []))).length = _
  rw [List.length_append, List.length_append, List.length_replicate]
  rfl

/-- C24, the divergence: the transport is not shut down, and three reads give
`2 ^ 31 - 1`, `2 ^ 31 - 1` and 1 bytes, the `2 ^ 32 - 1` bytes asked for, with no
error and no `EAGAIN`; all the bytes are stored, and `red_peer_receive` returns
-1, the count `2 ^ 32 - 1` as an `int`. -/
theorem receive_return_value_counterexample :
    (stream_new wrap_rd []).shutdown = false ∧ rd_quiet wrap_rd ∧
      (rd_bytes wrap_rd).length = 4294967295 ∧
      (red_peer_receive (stream_new wrap_rd []) 4294967295).1.bytes = rd_bytes wrap_rd ∧
      (red_peer_receive (stream_new wrap_rd []) 4294967295).1.ret = -1 :=
  ⟨rfl, wrap_rd_quiet, wrap_rd_length,
    (receive_wraps (stream_new wrap_rd []) rfl wrap_rd_quiet wrap_rd_length).2.2,
    (receive_wraps (stream_new wrap_rd []) rfl wrap_rd_quiet wrap_rd_length).2.1⟩

/-- A body of `2 ^ 32 - 1` bytes that the transport gives in full: the call of
`red_peer_receive` that completes it returns -1, so that the buffer is released
and `on_error` is called, and the message is not dispatched. -/
theorem incoming_wraps (hdr : List Nat) (body_rd : List ReadResult)
    (hlen : hdr.length = SIZEOF_HEADER) (hsz : (header_of_bytes hdr).size = U32 - 1)
    (hq : rd_quiet body_rd) (hb : (rd_bytes body_rd).length = U32 - 1) :
    ∃ s, red_peer_handle_incoming cb_accept (reader_new (ReadResult.data hdr :: body_rd)) = some s ∧
      s.trace = [Event.alloc_msg_buf (header_of_bytes hdr),
        Event.release_msg_buf (header_of_bytes hdr), Event.on_incoming_error] := by
  have hlen18 : hdr.length = 18 := hlen
  have hrecv : red_peer_receive_loop false (ReadResult.data hdr :: body_rd) 18
      = { failed := false, bytes := hdr, rd := body_rd } := by
    simp [red_peer_receive_loop, hlen18]
  obtain ⟨s1, hs1⟩ : ∃ s1 : ReaderState, s1 =
      { stream := { stream_new (ReadResult.data hdr :: body_rd) [] with rd := body_rd },
        handler := { incoming_new with header := hdr, header_pos := 18 },
        trace := [] } := ⟨_, rfl⟩
  have hbuf : buf_write (List.replicate SIZEOF_HEADER 0) 0 hdr = hdr := by
    rw [buf_write_full _ _ _ (by simp [hlen])]
    rfl
  have hh : incoming_header (reader_new (ReadResult.data hdr :: body_rd)) = Flow.go s1 := by
    have hne : int_of_count hdr.length ≠ -1 :=
      int_of_count_ne _ (by rw [hlen18]; simp only [U32_eq]; omega)
    simp only [incoming_header, reader_new, incoming_new, stream_new, red_peer_receive,
      SIZEOF_HEADER, Nat.sub_zero, hrecv, Bool.false_or, decide_eq_true_eq, hne, if_false,
      Nat.zero_add, hlen18, Nat.lt_irrefl, ne_eq, not_true_eq_false, if_true,
      Nat.zero_lt_succ, Bool.false_eq_true]
    rw [hs1]
    have hne18 : int_of_count 18 ≠ -1 := by rw [← hlen18]; exact hne
    have hbuf18 : buf_write [0, 0, 0, 0, 0, 0, 0, 0, 0, 0, 0, 0, 0, 0, 0, 0, 0, 0] 0 hdr = hdr :=
      hbuf
    simp [hne18, hbuf18, stream_new, incoming_new, SIZEOF_HEADER]
  have hst : s1.stream.shutdown = false := by rw [hs1]; rfl
  have hrd : s1.stream.rd = body_rd := by rw [hs1]
  have hhd : s1.handler.header = hdr := by rw [hs1]
  have hmp : s1.handler.msg_pos = 0 := by rw [hs1]; rfl
  have hmsg : s1.handler.msg = none := by rw [hs1]; rfl
  have htr : s1.trace = [] := by rw [hs1]
  have hfail : (red_peer_receive s1.stream
      ((header_of_bytes s1.handler.header).size - s1.handler.msg_pos)).1.failed = true := by
    rw [hhd, hmp, hsz, Nat.sub_zero]
    exact (receive_wraps s1.stream hst (by rw [hrd]; exact hq) (by rw [hrd]; exact hb)).1
  obtain ⟨s3, h3, ht3⟩ := incoming_fill_failed
    { s1 with trace := s1.trace ++ [Event.alloc_msg_buf (header_of_bytes s1.handler.header)] }
    (List.replicate (header_of_bytes s1.handler.header).size 0) hfail
  have hbody : incoming_body cb_accept s1 = Flow.ret s3 := by
    have hlt : s1.handler.msg_pos < (header_of_bytes s1.handler.header).size := by
      rw [hhd, hmp, hsz]
      simp only [U32_eq]
      omega
    simp only [incoming_body, hlt, if_true, hmsg, cb_accept]
    exact h3
  refine ⟨s3, ?_, ?_⟩
  · simp only [red_peer_handle_incoming, red_peer_handle_incoming_loop, hh, hbody]
  · rw [ht3, htr, hhd]
    rfl

theorem wrap_header_size : (header_of_bytes wrap_header).size = U32 - 1 := by
  decide

/-- C1, the divergence: a message of type 7 with a body of `2 ^ 32 - 1` bytes,
which the transport gives with its header in four reads with no `EAGAIN` between
them, each of fewer than `2 ^ 31` bytes. `red_peer_handle_incoming` allocates the
buffer, releases it and calls `on_error`: `handle_message` is not called. -/
theorem framed_reader_round_trip_counterexample :
    wrap_header.length = SIZEOF_HEADER ∧
      (header_of_bytes wrap_header).size = (rd_bytes wrap_rd).length ∧
      ∃ s, red_peer_handle_incoming cb_accept (reader_new (ReadResult.data wrap_header :: wrap_rd))
          = some s ∧
        s.trace = [Event.alloc_msg_buf (header_of_bytes wrap_header),
          Event.release_msg_buf (header_of_bytes wrap_header), Event.on_incoming_error] ∧
        dispatched s.trace = [] := by
  refine ⟨rfl, wrap_header_size.trans wrap_rd_length.symm, ?_⟩
  obtain ⟨s, h1, h2⟩ := incoming_wraps wrap_header wrap_rd rfl wrap_header_size wrap_rd_quiet
    wrap_rd_length
  exact ⟨s, h1, h2, by rw [h2]; rfl⟩

theorem receive_bytes_le (st : RedsStream) (size : Nat) :
    (red_peer_receive st size).1.bytes.length ≤ size :=
  (receive_loop_bytes st.shutdown st.rd size).2

theorem int_of_count_le (n : Nat) : int_of_count n ≤ n := by
  unfold int_of_count
  have h := Nat.mod_le n U32
  split <;> omega

/-- The header phase keeps the bounds, and goes on only with a complete
header. -/
theorem incoming_header_bounds (s : ReaderState) (h : reader_bounds s) :
    (∀ s1, incoming_header s = Flow.ret s1 → reader_bounds s1) ∧
    (∀ s1, incoming_header s = Flow.go s1 →
      reader_bounds s1 ∧ s1.handler.header_pos = SIZEOF_HEADER) := by
  obtain ⟨h1, h2, h3⟩ := h
  have hle := receive_bytes_le s.stream (SIZEOF_HEADER - s.handler.header_pos)
  unfold incoming_header
  by_cases hlt : s.handler.header_pos < SIZEOF_HEADER
  · have h0 := h3 hlt
    simp only [hlt, if_true]
    split
    · refine ⟨?_, ?_⟩
      · intro s1 e
        cases e
        exact ⟨h1, by simp [h0], fun _ => h0⟩
      · intro s1 e
        cases e
    · split
      · refine ⟨?_, ?_⟩
        · intro s1 e
          cases e
          exact ⟨by show _ + _ ≤ _; omega, by simp [h0], fun _ => h0⟩
        · intro s1 e
          cases e
      · rename_i hne
        simp only [ne_eq, Decidable.not_not] at hne
        refine ⟨?_, ?_⟩
        · intro s1 e
          cases e
        · intro s1 e
          cases e
          exact ⟨⟨by show _ + _ ≤ _; omega, by simp [h0], fun _ => h0⟩, hne⟩
  · simp only [hlt, if_false]
    refine ⟨?_, ?_⟩
    · intro s1 e
      cases e
    · intro s1 e
      cases e
      exact ⟨⟨h1, h2, h3⟩, by omega⟩

/-- Filling the body keeps the bounds. -/
theorem incoming_fill_bounds (s : ReaderState) (buf : List Nat) (h : reader_bounds s)
    (hp : s.handler.header_pos = SIZEOF_HEADER)
    (hlt : s.handler.msg_pos < (header_of_bytes s.handler.header).size) :
    ∀ s1, (incoming_fill s buf = Flow.ret s1 ∨ incoming_fill s buf = Flow.go s1) →
      reader_bounds s1 ∧ s1.handler.header_pos = SIZEOF_HEADER := by
  obtain ⟨h1, h2, h3⟩ := h
  have hle := receive_bytes_le s.stream
    ((header_of_bytes s.handler.header).size - s.handler.msg_pos)
  intro s1 e
  unfold incoming_fill at e
  simp only at e
  split at e
  · rcases e with e | e
    · cases e
      exact ⟨⟨h1, h2, h3⟩, hp⟩
    · cases e
  · split at e
    · rcases e with e | e
      · cases e
        refine ⟨⟨h1, ?_, ?_⟩, hp⟩
        · show s.handler.msg_pos + _ ≤ (header_of_bytes s.handler.header).size
          omega
        · intro hc
          exact absurd hc (by show ¬ s.handler.header_pos < _; omega)
      · cases e
    · rcases e with e | e
      · cases e
      · cases e
        refine ⟨⟨h1, ?_, ?_⟩, hp⟩
        · show s.handler.msg_pos + _ ≤ (header_of_bytes s.handler.header).size
          omega
        · intro hc
          exact absurd hc (by show ¬ s.handler.header_pos < _; omega)

/-- The body phase keeps the bounds. -/
theorem incoming_body_bounds (cb : IncomingCb) (s : ReaderState) (h : reader_bounds s)
    (hp : s.handler.header_pos = SIZEOF_HEADER) :
    ∀ s1, (incoming_body cb s = Flow.ret s1 ∨ incoming_body cb s = Flow.go s1) →
      reader_bounds s1 ∧ s1.handler.header_pos = SIZEOF_HEADER := by
  intro s1 e
  unfold incoming_body at e
  simp only at e
  split at e
  · rename_i hlt
    split at e
    · split at e
      · refine incoming_fill_bounds _ _ ?_ ?_ ?_ s1 e
        · exact h
        · exact hp
        · exact hlt
      · rcases e with e | e
        · cases e
          exact ⟨h, hp⟩
        · cases e
    · refine incoming_fill_bounds _ _ ?_ ?_ ?_ s1 e
      · exact h
      · exact hp
      · exact hlt
  · rcases e with e | e
    · cases e
    · cases e
      exact ⟨h, hp⟩

/-- What follows the handler keeps the bounds. -/
theorem incoming_after_handler_bounds (r : HandlerResult) (s : ReaderState)
    (h : reader_bounds s) :
    ∀ s1, (incoming_after_handler r s = Flow.ret s1 ∨ incoming_after_handler r s = Flow.go s1) →
      reader_bounds s1 := by
  intro s1 e
  unfold incoming_after_handler at e
  simp only at e
  split at e
  · rcases e with e | e
    · cases e
      exact h
    · cases e
  · split at e
    · rcases e with e | e
      · cases e
        exact ⟨Nat.zero_le _, Nat.zero_le _, fun _ => rfl⟩
      · cases e
    · rcases e with e | e
      · cases e
      · cases e
        exact ⟨Nat.zero_le _, Nat.zero_le _, fun _ => rfl⟩

/-- The dispatch keeps the bounds. -/
theorem incoming_dispatch_bounds (cb : IncomingCb) (s : ReaderState) (h : reader_bounds s) :
    ∀ s1, (incoming_dispatch cb s = Flow.ret s1 ∨ incoming_dispatch cb s = Flow.go s1) →
      reader_bounds s1 := by
  intro s1 e
  unfold incoming_dispatch at e
  simp only at e
  split at e
  · split at e
    · rcases e with e | e
      · cases e
        exact h
      · cases e
    · refine incoming_after_handler_bounds _ _ ?_ s1 e
      exact h
  · refine incoming_after_handler_bounds _ _ ?_ s1 e
    exact h

/-- The bounds hold at every return of the loop of the reader. -/
theorem incoming_loop_bounds (cb : IncomingCb) : ∀ (fuel : Nat) (s s1 : ReaderState),
    reader_bounds s → red_peer_handle_incoming_loop cb fuel s = some s1 → reader_bounds s1 := by
  intro fuel
  induction fuel with
  | zero =>
    intro s s1 _ e
    simp [red_peer_handle_incoming_loop] at e
  | succ fuel ih =>
    intro s s1 h e
    unfold red_peer_handle_incoming_loop at e
    have hh := incoming_header_bounds s h
    cases e1 : incoming_header s with
    | ret a =>
      rw [e1] at e
      cases e
      exact hh.1 _ e1
    | go a =>
      rw [e1] at e
      simp only at e
      obtain ⟨ha, hpa⟩ := hh.2 _ e1
      have hb := incoming_body_bounds cb a ha hpa
      cases e2 : incoming_body cb a with
      | ret b =>
        rw [e2] at e
        cases e
        exact (hb _ (Or.inl e2)).1
      | go b =>
        rw [e2] at e
        simp only at e
        have hbb := (hb _ (Or.inr e2)).1
        have hd := incoming_dispatch_bounds cb b hbb
        cases e3 : incoming_dispatch cb b with
        | ret c =>
          rw [e3] at e
          cases e
          exact hd _ (Or.inl e3)
        | go c =>
          rw [e3] at e
          exact ih c s1 (hd _ (Or.inr e3)) e

/-- A call of `red_peer_handle_incoming` on a reader within the bounds returns
within the bounds. -/
theorem incoming_call_bounds (cb : IncomingCb) (s : ReaderState) (h : reader_bounds s) :
    ∃ s1, red_peer_handle_incoming cb s = some s1 ∧ reader_bounds s1 := by
  obtain ⟨s1, e⟩ := red_peer_handle_incoming_returns cb s
  exact ⟨s1, e, incoming_loop_bounds cb _ s s1 h e⟩

theorem incoming_calls_bounds (cb : IncomingCb) : ∀ (n : Nat) (s : ReaderState),
    reader_bounds s → ∃ s1, red_peer_handle_incoming_n cb n s = some s1 ∧ reader_bounds s1 := by
  intro n
  induction n with
  | zero =>
    intro s h
    exact ⟨s, rfl, h⟩
  | succ n ih =>
    intro s h
    obtain ⟨s1, e1, h1⟩ := incoming_call_bounds cb s h
    obtain ⟨s2, e2, h2⟩ := ih s1 h1
    exact ⟨s2, by simp [red_peer_handle_incoming_n, e1, e2], h2⟩

theorem reader_new_bounds (rd : List ReadResult) : reader_bounds (reader_new rd) :=
  ⟨Nat.zero_le _, Nat.zero_le _, fun _ => rfl⟩

/-- C21 (position bounds of the reader). For every callback table: the reader
of a new client is within the bounds; a call of `red_peer_handle_incoming` on a
reader within the bounds returns, whatever the read results, and the reader is
within the bounds at that return, with `header_pos` at most 18 and `msg_pos` at
most `header.size`; so it is after any number of calls from a new client on any
read script; what happens to the stream between two calls does not matter. And
`red_peer_receive` never stores or returns more than the count asked for. -/
theorem reader_positions_bounded (cb : IncomingCb) :
    (∀ rd, reader_bounds (reader_new rd)) ∧
    (∀ s, reader_bounds s →
      ∃ s1, red_peer_handle_incoming cb s = some s1 ∧ reader_bounds s1 ∧
        s1.handler.header_pos ≤ 18 ∧
        s1.handler.msg_pos ≤ (header_of_bytes s1.handler.header).size) ∧
    (∀ rd n, ∃ s1, red_peer_handle_incoming_n cb n (reader_new rd) = some s1 ∧
      s1.handler.header_pos ≤ 18 ∧
      s1.handler.msg_pos ≤ (header_of_bytes s1.handler.header).size) ∧
    (∀ s st, reader_bounds s → reader_bounds { s with stream := st }) ∧
    (∀ st size, (red_peer_receive st size).1.bytes.length ≤ size ∧
      (red_peer_receive st size).1.ret ≤ size) := by
  refine ⟨reader_new_bounds, ?_, ?_, fun s st h => h, ?_⟩
  · intro s h
    obtain ⟨s1, e, h1⟩ := incoming_call_bounds cb s h
    exact ⟨s1, e, h1, h1.1, h1.2.1⟩
  · intro rd n
    obtain ⟨s1, e, h1⟩ := incoming_calls_bounds cb n (reader_new rd) (reader_new_bounds rd)
    exact ⟨s1, e, h1.1, h1.2.1⟩
  · intro st size
    have hle := receive_bytes_le st size
    refine ⟨hle, ?_⟩
    unfold Received.ret
    split
    · omega
    · have := int_of_count_le (red_peer_receive st size).1.bytes.length
      omega

/-- C21 at a reader in the middle of a body: two more bytes arrive, and the
call returns with the header complete and four of the six bytes in. -/
theorem reader_positions_bounded_witness :
    reader_bounds reader_mid_body ∧
      ∃ s1, red_peer_handle_incoming cb_accept reader_mid_body = some s1 ∧ reader_bounds s1 ∧
        s1.handler.header_pos ≤ 18 ∧
        s1.handler.msg_pos ≤ (header_of_bytes s1.handler.header).size :=
  ⟨⟨by decide, by decide, by decide⟩,
    (reader_positions_bounded cb_accept).2.1 reader_mid_body ⟨by decide, by decide, by decide⟩⟩

theorem ring_add_after_length (item pos : PipeItem) : ∀ (ring : List PipeItem), pos ∈ ring →
    (ring_add_after ring item pos).length = ring.length + 1 := by
  intro ring
  induction ring with
  | nil =>
    intro h
    cases h
  | cons x rest ih =>
    intro h
    unfold ring_add_after
    split
    · rfl
    · rename_i hne
      have hin : pos ∈ rest := by
        rcases List.mem_cons.mp h with h1 | h1
        · exact absurd h1.symm hne
        · exact h1
      simp [ih hin]

theorem pipe_counted_add (size len : Nat) (h : size = len % U32) :
    (size + 1) % U32 = (len + 1) % U32 := by
  simp only [U32_eq] at h ⊢
  omega

theorem pipe_counted_remove (size len : Nat) (h : size = len % U32) (hpos : 0 < len) :
    (size + U32 - 1) % U32 = (len - 1) % U32 := by
  simp only [U32_eq] at h ⊢
  omega

theorem pipe_counted_congr (w w1 : World) (hc : w1.channel = w.channel) (h : pipe_counted w) :
    pipe_counted w1 := by
  unfold pipe_counted at h ⊢
  rw [hc]
  exact h

theorem pipe_clear_counted (w w1 : World) (h : red_channel_pipe_clear w = some w1) :
    pipe_counted w1 := by
  unfold red_channel_pipe_clear at h
  simp only at h
  generalize (if w.channel.rcc = true then red_channel_client_clear_sent_item w else w) = w0 at h
  split at h
  · cases h
  · injection h with h
    subst h
    rfl

theorem disconnect_counted (w w1 : World) (h : red_channel_disconnect w = some w1) :
    pipe_counted w1 := by
  unfold red_channel_disconnect at h
  cases hc : red_channel_pipe_clear w with
  | none => simp [hc] at h
  | some w0 =>
    have hp := pipe_clear_counted w w0 hc
    simp only [hc, Option.map_some', Option.some.injEq] at h
    subst h
    split
    · unfold red_channel_client_disconnect
      split <;> exact hp
    · exact hp

theorem outgoing_on_error_counted (cls : ChannelClass) (w w1 : World) (hw : pipe_counted w)
    (h : outgoing_on_error cls w = some w1) : pipe_counted w1 := by
  unfold outgoing_on_error at h
  simp only at h
  split at h
  · injection h with h
    subst h
    exact hw
  · exact pipe_clear_counted _ _ h
  · exact disconnect_counted _ _ h

theorem outgoing_loop_counted (cls : ChannelClass) (wr : List WriteResult) : ∀ (w w1 : World),
    pipe_counted w → red_peer_handle_outgoing_loop cls wr w = some w1 → pipe_counted w1 := by
  induction wr with
  | nil =>
    intro w w1 hw h
    unfold red_peer_handle_outgoing_loop at h
    split at h
    · rename_i w2 h2
      injection h with h
      subst h
      exact pipe_counted_congr _ _ ((outgoing_written_channel _ _).1 _ h2) hw
    · cases h
  | cons e rest ih =>
    intro w w1 hw h
    cases e with
    | accept k =>
      unfold red_peer_handle_outgoing_loop at h
      split at h
      · rename_i w2 h2
        injection h with h
        subst h
        exact pipe_counted_congr _ _ ((outgoing_written_channel _ _).1 _ h2) hw
      · rename_i w2 h2
        exact ih w2 w1 (pipe_counted_congr _ _ ((outgoing_written_channel _ _).2 _ h2) hw) h
    | eagain =>
      unfold red_peer_handle_outgoing_loop at h
      injection h with h
      subst h
      exact hw
    | eintr =>
      unfold red_peer_handle_outgoing_loop at h
      refine ih _ w1 ?_ h
      exact hw
    | epipe =>
      unfold red_peer_handle_outgoing_loop at h
      refine outgoing_on_error_counted cls _ w1 ?_ h
      exact hw
    | other =>
      unfold red_peer_handle_outgoing_loop at h
      refine outgoing_on_error_counted cls _ w1 ?_ h
      exact hw

theorem send_counted (cls : ChannelClass) (w w1 : World) (hw : pipe_counted w)
    (h : red_channel_client_send cls w = some w1) : pipe_counted w1 := by
  unfold red_channel_client_send red_peer_handle_outgoing at h
  split at h
  · simp only at h
    split at h
    · injection h with h
      subst h
      exact hw
    · refine outgoing_loop_counted cls _ _ w1 ?_ h
      exact hw
  · refine outgoing_loop_counted cls _ _ w1 ?_ h
    exact hw

theorem begin_send_message_counted (cls : ChannelClass) (w w1 : World) (hw : pipe_counted w)
    (h : red_channel_client_begin_send_message cls w = some w1) : pipe_counted w1 := by
  unfold red_channel_client_begin_send_message at h
  split at h
  · cases h
  · split at h
    · injection h with h
      subst h
      exact hw
    · refine send_counted cls _ w1 ?_ h
      exact hw

theorem send_item_counted (cls : ChannelClass) (w w1 : World) (item : PipeItem)
    (hw : pipe_counted w) (h : red_channel_client_send_item cls w item = some w1) :
    pipe_counted w1 := by
  unfold red_channel_client_send_item at h
  split at h
  · cases h
  · simp only at h
    split at h
    · unfold red_channel_client_send_set_ack at h
      cases hi : red_channel_client_init_send_data
          (red_channel_client_reset_send_data (w.log (Event.send_item item)))
          SPICE_MSG_SET_ACK none with
      | none => simp [hi] at h
      | some w0 =>
        have hc := init_send_data_channel _ _ _ _ hi
        simp only [hi, Option.bind] at h
        refine begin_send_message_counted cls _ w1 ?_ h
        exact pipe_counted_congr w _ hc hw
    · unfold channel_send_item at h
      cases hi : red_channel_client_init_send_data
          (red_channel_client_reset_send_data (w.log (Event.send_item item)))
          (cls.msg_type item) (some item) with
      | none => simp [hi] at h
      | some w0 =>
        have hc := init_send_data_channel _ _ _ _ hi
        simp only [hi, Option.bind] at h
        refine begin_send_message_counted cls _ w1 ?_ h
        exact pipe_counted_congr w _ hc hw

theorem pipe_get_counted (w : World) (hw : pipe_counted w) :
    pipe_counted (red_channel_client_pipe_get w).2 := by
  unfold red_channel_client_pipe_get
  split
  · exact hw
  · split
    · exact hw
    · rename_i x hx
      have hne : w.channel.pipe ≠ [] := by
        intro hnil
        simp [hnil, ring_get_tail] at hx
      have hpos := List.length_pos.mpr hne
      unfold pipe_counted at hw ⊢
      simp only [List.length_dropLast]
      exact pipe_counted_remove _ _ hw hpos

theorem push_loop_counted (cls : ChannelClass) : ∀ (fuel : Nat) (w w1 : World),
    pipe_counted w → red_channel_client_push_loop cls fuel w = some w1 → pipe_counted w1 := by
  intro fuel
  induction fuel with
  | zero =>
    intro w w1 hw h
    simp only [red_channel_client_push_loop, Option.some.injEq] at h
    subst h
    exact hw
  | succ fuel ih =>
    intro w w1 hw h
    have hg := pipe_get_counted w hw
    unfold red_channel_client_push_loop at h
    split at h
    · rename_i w0 hget
      injection h with h
      subst h
      rw [hget] at hg
      exact hg
    · rename_i item w0 hget
      rw [hget] at hg
      cases hs : red_channel_client_send_item cls w0 item with
      | none => simp [hs] at h
      | some w2 =>
        simp only [hs, Option.bind] at h
        exact ih w2 w1 (send_item_counted cls w0 w2 item hg hs) h

theorem client_push_counted (cls : ChannelClass) (w w1 : World) (hw : pipe_counted w)
    (h : red_channel_client_push cls w = some w1) : pipe_counted w1 := by
  unfold red_channel_client_push at h
  split at h
  · injection h with h
    subst h
    exact hw
  · simp only at h
    cases h2 : (if w.client.send_data.blocked = true then
        red_channel_client_send cls { w with client.during_send := true }
      else some { w with client.during_send := true }) with
    | none => simp [h2] at h
    | some w2 =>
      have hw2 : pipe_counted w2 := by
        split at h2
        · refine send_counted cls _ w2 ?_ h2
          exact hw
        · injection h2 with h2
          subst h2
          exact hw
      simp only [h2, Option.bind] at h
      cases h3 : red_channel_client_push_loop cls w2.channel.pipe.length w2 with
      | none => simp [h3] at h
      | some w3 =>
        simp only [h3, Option.map_some', Option.some.injEq] at h
        subst h
        exact push_loop_counted cls _ w2 w3 hw2 h3

theorem push_counted (cls : ChannelClass) (w w1 : World) (hw : pipe_counted w)
    (h : red_channel_push cls w = some w1) : pipe_counted w1 := by
  unfold red_channel_push at h
  split at h
  · injection h with h
    subst h
    exact hw
  · exact client_push_counted cls w w1 hw h

theorem pipe_add_counted (w : World) (item : PipeItem) (hw : pipe_counted w) :
    pipe_counted (red_channel_pipe_add w item) :=
  pipe_counted_add _ _ hw

/-- C25 (the counter `pipe_size`), the behaviour of the code. From a state in
which `pipe_size` is the number of items in the pipe (as a 32-bit count), it is
so again after `red_channel_pipe_add`, after `red_channel_pipe_add_after` at
an item of the pipe, after `red_channel_pipe_add_push`,
`red_channel_pipe_add_tail` and `red_channel_pipe_add_type`, after the pump and
each `red_channel_client_pipe_get` in it, after
`red_channel_client_pipe_remove_and_release` of an item of the pipe, and after
`red_channel_pipe_clear`. After `red_channel_pipe_item_remove` of an item of the
pipe it is not: the item is unlinked, and `pipe_size` is left as it was, one
more than the number of items. -/
theorem pipe_size_counts (cls : ChannelClass) (w : World) (item pos : PipeItem)
    (pipe_item_type id : Nat) (hw : pipe_counted w) :
    pipe_counted (red_channel_pipe_add w item) ∧
    (pos ∈ w.channel.pipe → pipe_counted (red_channel_pipe_add_after w item pos)) ∧
    (∀ w1, red_channel_pipe_add_push cls w item = some w1 → pipe_counted w1) ∧
    (∀ w1, red_channel_pipe_add_tail cls w item = some w1 → pipe_counted w1) ∧
    (∀ w1, red_channel_pipe_add_type cls w pipe_item_type id = some w1 → pipe_counted w1) ∧
    pipe_counted (red_channel_client_pipe_get w).2 ∧
    (∀ w1, red_channel_client_push cls w = some w1 → pipe_counted w1) ∧
    (item ∈ w.channel.pipe → pipe_counted (red_channel_client_pipe_remove_and_release w item)) ∧
    (∀ w1, red_channel_pipe_clear w = some w1 → pipe_counted w1) ∧
    (item ∈ w.channel.pipe →
      (red_channel_pipe_item_remove w item).channel.pipe_size = w.channel.pipe_size ∧
      (red_channel_pipe_item_remove w item).channel.pipe.length + 1 = w.channel.pipe.length ∧
      ¬ pipe_counted (red_channel_pipe_item_remove w item)) := by
  refine ⟨pipe_add_counted w item hw, ?_, ?_, ?_, ?_, pipe_get_counted w hw,
    fun w1 h => client_push_counted cls w w1 hw h, ?_,
    fun w1 h => pipe_clear_counted w w1 h, ?_⟩
  · intro hin
    unfold pipe_counted red_channel_pipe_add_after
    simp only [ring_add_after_length item pos _ hin]
    exact pipe_counted_add _ _ hw
  · intro w1 h
    refine push_counted cls _ w1 ?_ h
    exact pipe_counted_add _ _ hw
  · intro w1 h
    refine push_counted cls _ w1 ?_ h
    unfold pipe_counted
    simp only [ring_add_tail, List.length_append, List.length_singleton]
    exact pipe_counted_add _ _ hw
  · intro w1 h
    exact push_counted cls _ w1 (pipe_add_counted w _ hw) h
  · intro hin
    refine pipe_counted_congr _ _ (release_item_channel _ _ _) ?_
    unfold pipe_counted
    simp only [ring_remove, List.length_erase_of_mem hin, Nat.pred_eq_sub_one]
    exact pipe_counted_remove _ _ hw (List.length_pos_of_mem hin)
  · intro hin
    have hlen : (ring_remove w.channel.pipe item).length + 1 = w.channel.pipe.length := by
      have hpos := List.length_pos_of_mem hin
      simp only [ring_remove, List.length_erase_of_mem hin, Nat.pred_eq_sub_one]
      omega
    refine ⟨rfl, hlen, ?_⟩
    intro hc
    unfold pipe_counted at hw hc
    have h1 : w.channel.pipe.length % U32 = (ring_remove w.channel.pipe item).length % U32 :=
      hw.symm.trans hc
    rw [← hlen] at h1
    simp only [U32_eq] at h1
    omega

/-- C25 at a new client with one item in the pipe: the counter is 1, and it
counts the items again after every operation but `red_channel_pipe_item_remove`. -/
theorem pipe_size_counts_witness :
    pipe_counted one_item_world ∧
      pipe_counted (red_channel_pipe_add one_item_world { type := 101, id := 1 }) ∧
      pipe_counted (red_channel_client_pipe_remove_and_release one_item_world
        { type := 101, id := 0 }) ∧
      ¬ pipe_counted (red_channel_pipe_item_remove one_item_world { type := 101, id := 0 }) :=
  have h := pipe_size_counts scenario_cls one_item_world { type := 101, id := 0 }
    { type := 101, id := 0 } 101 1 rfl
  ⟨rfl, (pipe_size_counts scenario_cls one_item_world { type := 101, id := 1 }
      { type := 101, id := 0 } 101 1 rfl).1,
    h.2.2.2.2.2.2.2.1 (by decide), (h.2.2.2.2.2.2.2.2.2 (by decide)).2.2⟩

/-- C25, the divergence: a new client, one item enqueued with
`red_channel_pipe_add`, the same item removed with
`red_channel_pipe_item_remove`: the pipe is empty and `pipe_size` is 1. -/
theorem pipe_size_counts_counterexample :
    one_item_world.channel.pipe = [{ type := 101, id := 0 }] ∧
      one_item_world.channel.pipe_size = 1 ∧
      (red_channel_pipe_item_remove one_item_world { type := 101, id := 0 }).channel.pipe = [] ∧
      (red_channel_pipe_item_remove one_item_world { type := 101, id := 0 }).channel.pipe_size
        = 1 := by
  decide

/-- C23 (the re-entrancy guard of the pump). A call of `red_channel_client_push`
while `during_send` is set returns at once with the state as it was: nothing is
dequeued and nothing is sent. A call while `during_send` is clear leaves it
clear when it returns, and so does `red_channel_client_event`, for every event
mask and every behaviour of the subclass. -/
theorem during_send_cleared (cls : ChannelClass) (cb : IncomingCb) (w : World) :
    (w.client.during_send = true → red_channel_client_push cls w = some w) ∧
    (w.client.during_send = false → ∀ w1, red_channel_client_push cls w = some w1 →
      w1.client.during_send = false) ∧
    (w.client.during_send = false → ∀ event w1,
      red_channel_client_event cls cb w event = some w1 → w1.client.during_send = false) := by
  have hpush : ∀ w0 : World, w0.client.during_send = false →
      ∀ w1, red_channel_client_push cls w0 = some w1 → w1.client.during_send = false := by
    intro w0 hds w1 h
    unfold red_channel_client_push at h
    simp only [hds, Bool.false_eq_true, if_false] at h
    cases h2 : (if w0.client.send_data.blocked = true then
        red_channel_client_send cls { w0 with client.during_send := true }
      else some { w0 with client.during_send := true }) with
    | none => simp [h2] at h
    | some w2 =>
      simp only [h2, Option.bind] at h
      cases h3 : red_channel_client_push_loop cls w2.channel.pipe.length w2 with
      | none => simp [h3] at h
      | some w3 =>
        simp only [h3, Option.map_some', Option.some.injEq] at h
        subst h
        rfl
  refine ⟨?_, hpush w, ?_⟩
  · intro hds
    simp [red_channel_client_push, hds]
  · intro hds event w1 h
    unfold red_channel_client_event at h
    cases hr : (if event &&& SPICE_WATCH_EVENT_READ ≠ 0 then red_channel_client_receive cb w
        else some w) with
    | none => simp [hr] at h
    | some w0 =>
      have h0 : w0.client.during_send = false := by
        split at hr
        · unfold red_channel_client_receive at hr
          cases hi : red_peer_handle_incoming cb
              { stream := w.client.stream, handler := w.client.incoming, trace := w.trace } with
          | none => simp [hi] at hr
          | some s =>
            simp only [hi, Option.map_some', Option.some.injEq] at hr
            subst hr
            exact hds
        · injection hr with hr
          subst hr
          exact hds
      simp only [hr, Option.bind] at h
      split at h
      · exact hpush w0 h0 w1 h
      · injection h with h
        subst h
        exact h0

/-- C23 at a client with one item in the pipe: the pump called with
`during_send` set leaves the item in the pipe and sends nothing; called with
`during_send` clear it returns, with the item sent and `during_send` clear. -/
theorem during_send_cleared_witness :
    red_channel_client_push scenario_cls pushing_world = some pushing_world ∧
      pushing_world.channel.pipe = [{ type := 101, id := 0 }] ∧
      (∃ w1, red_channel_client_push scenario_cls one_item_world = some w1 ∧
        w1.client.during_send = false ∧ w1.channel.pipe = [] ∧
        sent_items w1.trace = [{ type := 101, id := 0 }]) :=
  ⟨(during_send_cleared scenario_cls cb_accept pushing_world).1 rfl, rfl,
    (red_channel_client_push scenario_cls one_item_world).getD one_item_world, by decide,
    (during_send_cleared scenario_cls cb_accept one_item_world).2.1 rfl _ (by decide),
    by decide, by decide⟩

theorem handle_message_ack (cls : ChannelClass) (w : World) (size : Nat) (message : List Nat)
    (hg : w.client.ack_data.client_generation = w.client.ack_data.generation) :
    red_channel_client_handle_message cls w size SPICE_MSGC_ACK message
      = (red_channel_client_push cls (ack_subtract w)).map fun w1 => (true, w1) := by
  simp [red_channel_client_handle_message, SPICE_MSGC_ACK, SPICE_MSGC_ACK_SYNC, hg, ack_subtract]

/-- C26, amended (the gate after an `ACK`). With both fields in the 32-bit
range, an `ACK` in step with the generation is handled by the subtraction
followed by the pump. From a state that is not waiting for an ack: on a channel
that does not handle acks the state after the subtraction is not waiting; with
`client_window ≤ messages_window` the subtraction does not wrap and the state
after it is not waiting; with `messages_window < client_window` the result is
`messages_window + 2 ^ 32 - client_window`, and on a channel that handles acks
the state after the subtraction is waiting when `client_window` is below
`2 ^ 30`. -/
theorem ack_keeps_gate (cls : ChannelClass) (w : World) (size : Nat) (message : List Nat)
    (hmw : w.client.ack_data.messages_window < U32)
    (hcw : w.client.ack_data.client_window < U32)
    (hopen : red_channel_client_waiting_for_ack w = false) :
    (w.client.ack_data.client_generation = w.client.ack_data.generation →
      red_channel_client_handle_message cls w size SPICE_MSGC_ACK message
        = (red_channel_client_push cls (ack_subtract w)).map fun w1 => (true, w1)) ∧
    (w.channel.handle_acks = false →
      red_channel_client_waiting_for_ack (ack_subtract w) = false) ∧
    (w.client.ack_data.client_window ≤ w.client.ack_data.messages_window →
      (ack_subtract w).client.ack_data.messages_window
          = w.client.ack_data.messages_window - w.client.ack_data.client_window ∧
        red_channel_client_waiting_for_ack (ack_subtract w) = false) ∧
    (w.client.ack_data.messages_window < w.client.ack_data.client_window →
      (ack_subtract w).client.ack_data.messages_window
          = w.client.ack_data.messages_window + U32 - w.client.ack_data.client_window ∧
        (w.channel.handle_acks = true → w.client.ack_data.client_window < 2 ^ 30 →
          red_channel_client_waiting_for_ack (ack_subtract w) = true)) := by
  refine ⟨handle_message_ack cls w size message, ?_, ?_, ?_⟩
  · intro ha
    simp [red_channel_client_waiting_for_ack, ack_subtract, ha]
  · intro hle
    have hval : (w.client.ack_data.messages_window
        + (U32 - w.client.ack_data.client_window % U32)) % U32
        = w.client.ack_data.messages_window - w.client.ack_data.client_window := by
      simp only [U32_eq] at hmw hcw ⊢
      omega
    refine ⟨hval, ?_⟩
    simp only [red_channel_client_waiting_for_ack, ack_subtract, hval, Bool.and_eq_false_imp,
      decide_eq_false_iff_not, not_lt, gt_iff_lt] at hopen ⊢
    intro ha
    have := hopen ha
    omega
  · intro hlt
    have hval : (w.client.ack_data.messages_window
        + (U32 - w.client.ack_data.client_window % U32)) % U32
        = w.client.ack_data.messages_window + U32 - w.client.ack_data.client_window := by
      simp only [U32_eq] at hmw hcw ⊢
      omega
    refine ⟨hval, ?_⟩
    intro ha hsmall
    simp only [red_channel_client_waiting_for_ack, ack_subtract, hval, ha, Bool.true_and,
      decide_eq_true_eq, gt_iff_lt]
    simp only [U32_eq] at hmw hcw ⊢
    omega

/-- C26 at a client with `client_window = 10` and twenty-one messages sent,
which is not waiting: after the subtraction eleven are counted, and the client
is not waiting. -/
theorem ack_keeps_gate_witness :
    red_channel_client_waiting_for_ack
        { ack_early_world with client.ack_data.messages_window := 20 } = false ∧
      (ack_subtract { ack_early_world with client.ack_data.messages_window := 20
        }).client.ack_data.messages_window = 10 ∧
      red_channel_client_waiting_for_ack
        (ack_subtract { ack_early_world with client.ack_data.messages_window := 20 }) = false :=
  ⟨by decide,
    ((ack_keeps_gate scenario_cls { ack_early_world with client.ack_data.messages_window := 20 }
      0 [] (by decide) (by decide) (by decide)).2.2.1 (by decide)).1,
    ((ack_keeps_gate scenario_cls { ack_early_world with client.ack_data.messages_window := 20 }
      0 [] (by decide) (by decide) (by decide)).2.2.1 (by decide)).2⟩

/-- C26, the counterexample: a client with `client_window = 10` and five
messages sent is not waiting for an ack; an `ACK` arrives; the subtraction
leaves `messages_window = 2 ^ 32 - 5`, and the client is waiting, also when
`red_channel_client_handle_message` has returned. -/
theorem ack_keeps_gate_counterexample :
    red_channel_client_waiting_for_ack ack_early_world = false ∧
      (ack_subtract ack_early_world).client.ack_data.messages_window = 4294967291 ∧
      red_channel_client_waiting_for_ack (ack_subtract ack_early_world) = true ∧
      (red_channel_client_handle_message scenario_cls ack_early_world 0 SPICE_MSGC_ACK []).map
          (fun r => (r.1, red_channel_client_waiting_for_ack r.2)) = some (true, true) := by
  decide

theorem on_out_msg_done_size (w : World) :
    (red_channel_peer_on_out_msg_done w).client.send_data.size = 0 := by
  unfold red_channel_peer_on_out_msg_done red_channel_client_release_sent_item
    red_channel_client_release_item
  simp only
  split <;> split <;> (try split) <;> rfl

theorem release_item_client (w : World) (item : PipeItem) (b : Bool) :
    (red_channel_client_release_item w item b).client = w.client := by
  unfold red_channel_client_release_item
  split <;> rfl

theorem client_shutdown_size (w : World) :
    (red_channel_client_shutdown w).client.send_data.size = w.client.send_data.size ∧
    (red_channel_client_shutdown w).client.send_data.blocked = w.client.send_data.blocked := by
  unfold red_channel_client_shutdown red_channel_client_release_sent_item
    red_channel_client_release_item
  simp only
  split <;> split <;> (try split) <;> exact ⟨rfl, rfl⟩

theorem settled_of_size (w : World) (h : w.client.send_data.size = 0) : send_state_settled w :=
  fun _ => h

theorem shutdown_settles (w w1 : World) (hr : w.channel.rcc = true)
    (h : red_channel_shutdown w = some w1) :
    w1.client.send_data.size = 0 ∧ w1.channel.rcc = true := by
  unfold red_channel_shutdown at h
  rw [if_pos hr] at h
  have hc : (red_channel_client_shutdown w).channel.rcc = true := by
    rw [client_shutdown_channel]
    exact hr
  exact ⟨((pipe_clear_done _ _ h).2.2.2.1 hc).2.2, (pipe_clear_rcc _ _ h).trans hc⟩

theorem disconnect_settles (w w1 : World) (hr : w.channel.rcc = true)
    (h : red_channel_disconnect w = some w1) :
    w1.client.send_data.size = 0 ∧ w1.channel.pipe = [] ∧ w1.channel.rcc = false := by
  unfold red_channel_disconnect at h
  cases hc : red_channel_pipe_clear w with
  | none => simp [hc] at h
  | some w0 =>
    have hr0 : w0.channel.rcc = true := (pipe_clear_rcc _ _ hc).trans hr
    have hp0 := (pipe_clear_done _ _ hc).2.1
    simp only [hc, Option.map_some', Option.some.injEq, hr0, if_true] at h
    subst h
    unfold red_channel_client_disconnect
    split <;> exact ⟨rfl, hp0, rfl⟩

/-- An `on_error` that shuts the channel down or disconnects it settles the
send state. -/
theorem on_error_settles (cls : ChannelClass) (w w1 : World)
    (hreset : cls.on_error ≠ ErrorAction.ignore) (hr : w.channel.rcc = true)
    (h : outgoing_on_error cls w = some w1) : pump_settled w1 := by
  unfold outgoing_on_error at h
  simp only at h
  split at h
  · rename_i hi
    exact absurd hi hreset
  · obtain ⟨h1, h2⟩ := shutdown_settles _ _ (by exact hr) h
    exact ⟨settled_of_size _ h1, Or.inl h2⟩
  · obtain ⟨h1, h2, _⟩ := disconnect_settles _ _ (by exact hr) h
    exact ⟨settled_of_size _ h1, Or.inr h2⟩

theorem outgoing_written_settles (w : World) (n : Nat) :
    ∀ w1, outgoing_written w n = Sum.inl w1 → w1.client.send_data.size = 0 := by
  intro w1 h
  unfold outgoing_written at h
  simp only at h
  split at h
  · injection h with h
    subst h
    exact on_out_msg_done_size _
  · cases h

/-- The writer settles the send state: it ends a message, blocks, or fails
and lets `on_error` clear it. -/
theorem outgoing_loop_settles (cls : ChannelClass) (hreset : cls.on_error ≠ ErrorAction.ignore)
    (wr : List WriteResult) : ∀ (w w1 : World), w.channel.rcc = true →
    red_peer_handle_outgoing_loop cls wr w = some w1 → pump_settled w1 := by
  induction wr with
  | nil =>
    intro w w1 hr h
    unfold red_peer_handle_outgoing_loop at h
    split at h
    · rename_i w2 h2
      injection h with h
      subst h
      refine ⟨settled_of_size _ (outgoing_written_settles _ _ _ h2), Or.inl ?_⟩
      rw [(outgoing_written_channel _ _).1 _ h2]
      exact hr
    · cases h
  | cons e rest ih =>
    intro w w1 hr h
    cases e with
    | accept k =>
      unfold red_peer_handle_outgoing_loop at h
      split at h
      · rename_i w2 h2
        injection h with h
        subst h
        refine ⟨settled_of_size _ (outgoing_written_settles _ _ _ h2), Or.inl ?_⟩
        rw [(outgoing_written_channel _ _).1 _ h2]
        exact hr
      · rename_i w2 h2
        refine ih w2 w1 ?_ h
        rw [(outgoing_written_channel _ _).2 _ h2]
        exact hr
    | eagain =>
      unfold red_peer_handle_outgoing_loop at h
      injection h with h
      subst h
      refine ⟨?_, Or.inl hr⟩
      intro hb
      cases hb
    | eintr =>
      unfold red_peer_handle_outgoing_loop at h
      refine ih _ w1 ?_ h
      exact hr
    | epipe =>
      unfold red_peer_handle_outgoing_loop at h
      refine on_error_settles cls _ w1 hreset ?_ h
      exact hr
    | other =>
      unfold red_peer_handle_outgoing_loop at h
      refine on_error_settles cls _ w1 hreset ?_ h
      exact hr

theorem send_settles (cls : ChannelClass) (hreset : cls.on_error ≠ ErrorAction.ignore)
    (w w1 : World) (hr : w.channel.rcc = true) (h : red_channel_client_send cls w = some w1) :
    pump_settled w1 := by
  unfold red_channel_client_send red_peer_handle_outgoing at h
  split at h
  · simp only at h
    split at h
    · rename_i hz
      injection h with h
      subst h
      exact ⟨settled_of_size _ hz, Or.inl hr⟩
    · refine outgoing_loop_settles cls hreset _ _ w1 ?_ h
      exact hr
  · refine outgoing_loop_settles cls hreset _ _ w1 ?_ h
    exact hr

theorem begin_send_message_settles (cls : ChannelClass)
    (hreset : cls.on_error ≠ ErrorAction.ignore) (w w1 : World) (hr : w.channel.rcc = true)
    (hz : w.client.send_data.size = 0)
    (h : red_channel_client_begin_send_message cls w = some w1) : pump_settled w1 := by
  unfold red_channel_client_begin_send_message at h
  split at h
  · cases h
  · split at h
    · injection h with h
      subst h
      exact ⟨settled_of_size _ hz, Or.inl hr⟩
    · refine send_settles cls hreset _ w1 ?_ h
      exact hr

theorem init_send_data_size (w w1 : World) (t : Nat) (item : Option PipeItem)
    (h : red_channel_client_init_send_data w t item = some w1) :
    w1.client.send_data.size = 0 := by
  unfold red_channel_client_init_send_data at h
  split at h
  · cases h
  · rename_i hn
    have hz : w.client.send_data.size = 0 := by
      simpa [red_channel_client_no_item_being_sent] using hn
    split at h
    · cases h
    · split at h
      · cases h
      · split at h <;>
        · injection h with h
          subst h
          exact hz

/-- Whatever `red_channel_client_send_item` does with an item, it leaves the
send state settled. -/
theorem send_item_settles (cls : ChannelClass) (hreset : cls.on_error ≠ ErrorAction.ignore)
    (w w1 : World) (item : PipeItem) (hr : w.channel.rcc = true)
    (h : red_channel_client_send_item cls w item = some w1) : pump_settled w1 := by
  unfold red_channel_client_send_item at h
  split at h
  · cases h
  · simp only at h
    split at h
    · unfold red_channel_client_send_set_ack at h
      cases hi : red_channel_client_init_send_data
          (red_channel_client_reset_send_data (w.log (Event.send_item item)))
          SPICE_MSG_SET_ACK none with
      | none => simp [hi] at h
      | some w0 =>
        have hc := init_send_data_channel _ _ _ _ hi
        have hz := init_send_data_size _ _ _ _ hi
        simp only [hi, Option.bind] at h
        refine begin_send_message_settles cls hreset _ w1 ?_ ?_ h
        · show w0.channel.rcc = true
          rw [hc]
          exact hr
        · exact hz
    · unfold channel_send_item at h
      cases hi : red_channel_client_init_send_data
          (red_channel_client_reset_send_data (w.log (Event.send_item item)))
          (cls.msg_type item) (some item) with
      | none => simp [hi] at h
      | some w0 =>
        have hc := init_send_data_channel _ _ _ _ hi
        have hz := init_send_data_size _ _ _ _ hi
        simp only [hi, Option.bind] at h
        refine begin_send_message_settles cls hreset _ w1 ?_ ?_ h
        · show w0.channel.rcc = true
          rw [hc]
          exact hr
        · exact hz

/-- An item `red_channel_client_pipe_get` returns comes out of a settled state
with no message in flight, on a channel that has its client. -/
theorem pipe_get_idle (w w1 : World) (item : PipeItem) (hw : pump_settled w)
    (h : red_channel_client_pipe_get w = (some item, w1)) :
    w1.client.send_data.size = 0 ∧ w1.channel.rcc = true := by
  obtain ⟨hp, hc, _⟩ := pipe_get_some w w1 item h
  unfold red_channel_client_pipe_get at h
  split at h
  · cases h
  · rename_i hg
    simp only [Bool.or_eq_true, not_or, Bool.not_eq_true] at hg
    split at h
    · cases h
    · injection h with _ h2
      subst h2
      refine ⟨hw.1 hg.1, ?_⟩
      rcases hw.2 with h3 | h3
      · exact h3
      · rw [h3] at hp
        simp at hp

theorem push_loop_settles (cls : ChannelClass) (hreset : cls.on_error ≠ ErrorAction.ignore) :
    ∀ (fuel : Nat) (w w1 : World), pump_settled w →
    red_channel_client_push_loop cls fuel w = some w1 → pump_settled w1 := by
  intro fuel
  induction fuel with
  | zero =>
    intro w w1 hw h
    simp only [red_channel_client_push_loop, Option.some.injEq] at h
    subst h
    exact hw
  | succ fuel ih =>
    intro w w1 hw h
    unfold red_channel_client_push_loop at h
    split at h
    · rename_i w0 hget
      injection h with h
      subst h
      have h1 : (red_channel_client_pipe_get w).1 = none := by rw [hget]
      have := pipe_get_none w h1
      rw [this] at hget
      injection hget with _ h2
      rw [← h2]
      exact hw
    · rename_i item w0 hget
      obtain ⟨_, hr0⟩ := pipe_get_idle w w0 item hw hget
      cases hs : red_channel_client_send_item cls w0 item with
      | none => simp [hs] at h
      | some w2 =>
        simp only [hs, Option.bind] at h
        exact ih w2 w1 (send_item_settles cls hreset w0 w2 item hr0 hs) h

/-- From a settled state every item the loop of the pump hands to `send_item`
finds no message in flight. -/
theorem push_loop_asserts_hold (cls : ChannelClass)
    (hreset : cls.on_error ≠ ErrorAction.ignore) :
    ∀ (fuel : Nat) (w : World), pump_settled w → push_loop_asserts cls fuel w := by
  intro fuel
  induction fuel with
  | zero =>
    intro w _
    trivial
  | succ fuel ih =>
    intro w hw
    unfold push_loop_asserts
    split
    · trivial
    · rename_i item w0 hget
      obtain ⟨hz, hr0⟩ := pipe_get_idle w w0 item hw hget
      refine ⟨?_, ?_, ?_⟩
      · simp [red_channel_client_no_item_being_sent, hz]
      · simp [red_channel_client_no_item_being_sent, red_channel_client_reset_send_data,
          World.log, hz]
      · intro w2 hs
        exact ih w2 (send_item_settles cls hreset w0 w2 item hr0 hs)

theorem client_push_settles (cls : ChannelClass) (hreset : cls.on_error ≠ ErrorAction.ignore)
    (w w1 : World) (hr : w.channel.rcc = true) (hk : send_state_settled w)
    (h : red_channel_client_push cls w = some w1) : pump_settled w1 := by
  unfold red_channel_client_push at h
  split at h
  · injection h with h
    subst h
    exact ⟨hk, Or.inl hr⟩
  · simp only at h
    cases h2 : (if w.client.send_data.blocked = true then
        red_channel_client_send cls { w with client.during_send := true }
      else some { w with client.during_send := true }) with
    | none => simp [h2] at h
    | some w2 =>
      have hw2 : pump_settled w2 := by
        split at h2
        · refine send_settles cls hreset _ w2 ?_ h2
          exact hr
        · injection h2 with h2
          subst h2
          exact ⟨hk, Or.inl hr⟩
      simp only [h2, Option.bind] at h
      cases h3 : red_channel_client_push_loop cls w2.channel.pipe.length w2 with
      | none => simp [h3] at h
      | some w3 =>
        simp only [h3, Option.map_some', Option.some.injEq] at h
        subst h
        exact push_loop_settles cls hreset _ w2 w3 hw2 h3

theorem client_push_asserts_hold (cls : ChannelClass)
    (hreset : cls.on_error ≠ ErrorAction.ignore) (w : World) (hr : w.channel.rcc = true)
    (hk : send_state_settled w) : client_push_asserts cls w := by
  intro _ w2 h2
  have hw2 : pump_settled w2 := by
    split at h2
    · refine send_settles cls hreset _ w2 ?_ h2
      exact hr
    · injection h2 with h2
      subst h2
      exact ⟨hk, Or.inl hr⟩
  exact push_loop_asserts_hold cls hreset _ w2 hw2

theorem push_settles (cls : ChannelClass) (hreset : cls.on_error ≠ ErrorAction.ignore)
    (w w1 : World) (hk : w.channel.rcc = true → send_state_settled w)
    (h : red_channel_push cls w = some w1) : w1.channel.rcc = true → send_state_settled w1 := by
  unfold red_channel_push at h
  split at h
  · injection h with h
    subst h
    exact hk
  · rename_i hr0
    have hr : w.channel.rcc = true := by
      cases hrw : w.channel.rcc
      · simp [hrw] at hr0
      · rfl
    intro _
    exact (client_push_settles cls hreset w w1 hr (hk hr) h).1

/-- Every operation but a WRITE event keeps the send state settled on a channel
that has its client. -/
theorem op_settled (cls : ChannelClass) (cb : IncomingCb)
    (hreset : cls.on_error ≠ ErrorAction.ignore) (w w1 : World) (op : PipeOp)
    (hop : op ≠ PipeOp.write_event) (hk : w.channel.rcc = true → send_state_settled w)
    (hc : op.run cls cb w = some w1) : w1.channel.rcc = true → send_state_settled w1 := by
  cases op with
  | pipe_add item =>
    simp only [PipeOp.run, Option.some.injEq] at hc
    subst hc
    exact hk
  | pipe_add_push item =>
    simp only [PipeOp.run, red_channel_pipe_add_push] at hc
    refine push_settles cls hreset _ w1 ?_ hc
    exact hk
  | pipe_add_tail item =>
    simp only [PipeOp.run, red_channel_pipe_add_tail] at hc
    refine push_settles cls hreset _ w1 ?_ hc
    exact hk
  | push => exact push_settles cls hreset w w1 hk hc
  | write_event => exact absurd rfl hop
  | pipe_clear =>
    simp only [PipeOp.run] at hc
    intro hr1
    have hr : w.channel.rcc = true := (pipe_clear_rcc _ _ hc).symm.trans hr1
    exact settled_of_size _ ((pipe_clear_done _ _ hc).2.2.2.1 hr).2.2
  | pipe_remove_and_release item =>
    simp only [PipeOp.run] at hc
    split at hc
    · injection hc with hc
      subst hc
      intro hr1
      have hcl := release_item_client
        { w with
          channel.pipe_size := (w.channel.pipe_size + U32 - 1) % U32
          channel.pipe := ring_remove w.channel.pipe item } item false
      have hch := release_item_channel
        { w with
          channel.pipe_size := (w.channel.pipe_size + U32 - 1) % U32
          channel.pipe := ring_remove w.channel.pipe item } item false
      unfold red_channel_client_pipe_remove_and_release at hr1 ⊢
      unfold send_state_settled
      rw [hcl]
      rw [hch] at hr1
      exact hk hr1
    · cases hc
  | shutdown =>
    simp only [PipeOp.run] at hc
    intro hr1
    have hr : w.channel.rcc = true := by
      cases hrw : w.channel.rcc
      · unfold red_channel_shutdown at hc
        simp only [hrw, Bool.false_eq_true, if_false] at hc
        rw [pipe_clear_rcc _ _ hc, hrw] at hr1
        cases hr1
      · rfl
    exact settled_of_size _ (shutdown_settles w w1 hr hc).1
  | disconnect =>
    simp only [PipeOp.run] at hc
    intro hr1
    cases hrw : w.channel.rcc
    · unfold red_channel_disconnect at hc
      cases hc0 : red_channel_pipe_clear w with
      | none => simp [hc0] at hc
      | some w0 =>
        have hr0 : w0.channel.rcc = false := (pipe_clear_rcc _ _ hc0).trans hrw
        simp only [hc0, Option.map_some', Option.some.injEq, hr0, Bool.false_eq_true,
          if_false] at hc
        subst hc
        rw [hr0] at hr1
        cases hr1
    · exact settled_of_size _ (disconnect_settles w w1 hrw hc).1
  | client_disconnect =>
    simp only [PipeOp.run] at hc
    split at hc
    · injection hc with hc
      subst hc
      intro _
      unfold red_channel_client_disconnect
      split <;> exact settled_of_size _ rfl
    · cases hc

theorem run_ops_settled (cls : ChannelClass) (cb : IncomingCb)
    (hreset : cls.on_error ≠ ErrorAction.ignore) : ∀ (ops : List PipeOp) (w w1 : World),
    (∀ op ∈ ops, op ≠ PipeOp.write_event) → (w.channel.rcc = true → send_state_settled w) →
    run_ops cls cb w ops = some w1 → (w1.channel.rcc = true → send_state_settled w1) := by
  intro ops
  induction ops with
  | nil =>
    intro w w1 _ hk h
    simp only [run_ops, Option.some.injEq] at h
    subst h
    exact hk
  | cons op ops ih =>
    intro w w1 hops hk h
    unfold run_ops at h
    cases h2 : op.run cls cb w with
    | none => simp [h2] at h
    | some w2 =>
      simp only [h2, Option.bind] at h
      exact ih w2 w1 (fun o ho => hops o (List.mem_cons_of_mem _ ho))
        (op_settled cls cb hreset w w2 op (hops op (List.mem_cons_self _ _)) hk h2) h

/-- C22 (the pump never sends while a message is in flight). The subclass sends
one message per item (`channel_send_item`: one `init_send_data`, one
`begin_send_message`) and its `on_error` shuts the channel down or disconnects
it. In every state reached from a new client by enqueues, pumps, `pipe_clear`,
removals, shutdowns and disconnects that return, on a channel that has its
client a message is in flight only while the client is blocked; and, throughout
a call of the pump from that state, and from that state with one more item
enqueued at either end of the pipe, the assertion on
`red_channel_client_no_item_being_sent` holds at every call of
`red_channel_client_send_item` and in the `init_send_data` that follows. -/
theorem pump_finds_writer_idle (cls : ChannelClass) (cb : IncomingCb)
    (hreset : cls.on_error ≠ ErrorAction.ignore) (CLIENT_ACK_WINDOW : Nat)
    (channel : RedChannel) (stream : RedsStream) (ops : List PipeOp) (w : World)
    (hops : ∀ op ∈ ops, op ≠ PipeOp.write_event)
    (hrun : run_ops cls cb (client_new CLIENT_ACK_WINDOW channel stream []) ops = some w) :
    (w.channel.rcc = true → send_state_settled w) ∧
    push_asserts cls w ∧
    (∀ item, push_asserts cls (red_channel_pipe_add w item) ∧
      push_asserts cls { w with
        channel.pipe_size := (w.channel.pipe_size + 1) % U32
        channel.pipe := ring_add_tail w.channel.pipe item }) := by
  have hk := run_ops_settled cls cb hreset ops _ w hops (fun _ _ => rfl) hrun
  refine ⟨hk, ?_, ?_⟩
  · intro hr
    exact client_push_asserts_hold cls hreset w hr (hk hr)
  · intro item
    constructor
    · intro hr
      exact client_push_asserts_hold cls hreset _ hr (hk hr)
    · intro hr
      exact client_push_asserts_hold cls hreset _ hr (hk hr)

/-- C22 at a client whose transport breaks in the middle of a message, with a
subclass that shuts the channel down on error: after the failed write the item
in flight and the pipe are cleared, a third item is enqueued, and the pump finds
no message in flight. -/
theorem pump_finds_writer_idle_witness :
    shutdown_cls.on_error ≠ ErrorAction.ignore ∧
      run_ops shutdown_cls cb_accept broken_pipe_start broken_pipe_ops = some broken_pipe_end ∧
      broken_pipe_end.channel.rcc = true ∧
      broken_pipe_end.channel.pipe = [{ type := 101, id := 2 }] ∧
      send_state_settled broken_pipe_end ∧ push_asserts shutdown_cls broken_pipe_end :=
  have h := pump_finds_writer_idle shutdown_cls cb_accept (by decide) 20
    (red_channel_create false false)
    (stream_new [] [WriteResult.accept 5, WriteResult.eagain, WriteResult.accept 3,
      WriteResult.epipe]) broken_pipe_ops broken_pipe_end (by decide) rfl
  ⟨by decide, rfl, rfl, rfl, h.1 rfl, h.2.1⟩

/-- With an `on_error` that leaves the send state as it is the assertion can
fail: the first write of the first message fails with `EPIPE`, the message stays
in flight with the client not blocked, and the pump hands the second item to
`red_channel_client_send_item`. -/
theorem pump_assert_needs_reset :
    scenario_cls.on_error = ErrorAction.ignore ∧
      ¬ push_asserts scenario_cls (pipe_add_all epipe_start (scenario_items 2)) ∧
      red_channel_push scenario_cls (pipe_add_all epipe_start (scenario_items 2)) = none := by
  refine ⟨rfl, ?_, by decide⟩
  intro h
  have h1 := h rfl rfl _ rfl
  have h2 := (h1.2.2 _ rfl).1
  exact absurd h2 (by decide)

/-- The pump on an idle client with ack handling: it sends items from the tail
of the pipe until the messages window exceeds the threshold. -/
theorem push_throttle (cls : ChannelClass) (hcls : sends_one_message cls) (q : List PipeItem)
    (w : World) (hidle : SendIdle w) (hacks : w.channel.handle_acks = true)
    (hrcc : w.channel.rcc = true) (hds : w.client.during_send = false)
    (hpipe : w.channel.pipe = q.reverse) (hty : ∀ x ∈ q, x.type ≠ PIPE_ITEM_TYPE_SET_ACK)
    (hmw : w.client.ack_data.messages_window ≤ ack_threshold w + 1) :
    ∃ w', red_channel_client_push cls w = some w' ∧ SendIdle w' ∧
      w'.channel.handle_acks = true ∧ w'.channel.rcc = true ∧
      w'.client.during_send = false ∧
      w'.channel.pipe
        = (q.drop (ack_threshold w + 1 - w.client.ack_data.messages_window)).reverse ∧
      sent_items w'.trace = sent_items w.trace
        ++ q.take (ack_threshold w + 1 - w.client.ack_data.messages_window) ∧
      w'.client.ack_data = { w.client.ack_data with
        messages_window := w.client.ack_data.messages_window
          + min q.length (ack_threshold w + 1 - w.client.ack_data.messages_window) } := by
  obtain ⟨w1, hw1⟩ : ∃ w1 : World, w1 = { w with client.during_send := true } := ⟨_, rfl⟩
  have hidle1 : SendIdle w1 := by
    rw [hw1]
    exact ⟨hidle.blocked, hidle.size, hidle.item, hidle.opos, hidle.osize, hidle.wr⟩
  have hw1a : w1.channel.handle_acks = true := by rw [hw1]; exact hacks
  have hw1p : w1.channel.pipe = q.reverse := by rw [hw1]; exact hpipe
  have hw1k : w1.client.ack_data = w.client.ack_data := by rw [hw1]
  have hw1t : w1.trace = w.trace := by rw [hw1]
  have hw1r : w1.channel.rcc = w.channel.rcc := by rw [hw1]
  have hth : ack_threshold w1 = ack_threshold w := by simp [ack_threshold, hw1k]
  obtain ⟨w3, hloop, hidle3, hacks3, hrcc3, hpipe3, hsent3, _, hack3, _, _⟩ :=
    push_loop_throttle cls hcls q q.length w1 hidle1 hw1a hw1p hty (le_refl _)
      (by rw [hw1k, hth]; exact hmw)
  rw [hth, hw1k] at hpipe3 hsent3 hack3
  rw [hw1t] at hsent3
  rw [hw1r, hrcc] at hrcc3
  refine ⟨{ w3 with client.during_send := false }, ?_,
    ⟨hidle3.blocked, hidle3.size, hidle3.item, hidle3.opos, hidle3.osize, hidle3.wr⟩,
    hacks3, hrcc3, rfl, hpipe3, hsent3, hack3⟩
  have hlen : w.channel.pipe.length = q.length := by rw [hpipe, List.length_reverse]
  rw [hw1] at hloop
  simp only [red_channel_client_push, hds, hidle.blocked, Option.bind, hlen, hloop, Option.map,
    Bool.false_eq_true, if_false]

/-- C3, amended (the credit of an `ACK`). In the ack-throttle scenario
(`client_window = 10`, `handle_acks` true), with any list of at least 21 items of
the subclass enqueued and a subclass that begins one message per item: the pump
stalls after 21 items with `messages_window = 21`; `ACK_SYNC` carrying the
server's generation returns true and makes the generations equal; `ACK` then
returns true, subtracts 10 from `messages_window`, which leaves 11, and runs the
pump, which sends the next `min (n - 21) 10` items in order, where `n` is the
number of items enqueued: all the items left when fewer than 10 are left (9 of
30), and exactly 10 more when at least 10 are left. The other items stay in the
pipe, and `messages_window` ends at `11 + min (n - 21) 10`. -/
theorem ack_credit (cls : ChannelClass) (hcls : sends_one_message cls) (items : List PipeItem)
    (hlen : 21 ≤ items.length) (hty : ∀ x ∈ items, x.type ≠ PIPE_ITEM_TYPE_SET_ACK) :
    ∃ w1 w2 w3,
      red_channel_push cls (pipe_add_all (throttle_world 10) items) = some w1 ∧
      sent_items w1.trace = items.take 21 ∧
      w1.client.ack_data.messages_window = 21 ∧
      w1.channel.pipe = (items.drop 21).reverse ∧
      red_channel_client_handle_message cls w1 4 SPICE_MSGC_ACK_SYNC
          (le_encode 4 w1.client.ack_data.generation) = some (true, w2) ∧
      w2.client.ack_data.client_generation = w2.client.ack_data.generation ∧
      (ack_subtract w2).client.ack_data.messages_window = 21 - 10 ∧
      red_channel_client_handle_message cls w2 0 SPICE_MSGC_ACK [] = some (true, w3) ∧
      sent_items w3.trace = items.take 21 ++ (items.drop 21).take 10 ∧
      (sent_items w3.trace).length = 21 + min (items.length - 21) 10 ∧
      (31 ≤ items.length → (sent_items w3.trace).length = (sent_items w1.trace).length + 10) ∧
      w3.channel.pipe = (items.drop 31).reverse ∧
      w3.client.ack_data.messages_window = 11 + min (items.length - 21) 10 := by
  obtain ⟨hp0, hc0, ht0, ha0, hr0⟩ := pipe_add_all_pipe items (throttle_world 10)
  have hpipe0 : (pipe_add_all (throttle_world 10) items).channel.pipe = items.reverse := by
    rw [hp0]
    exact List.append_nil _
  have hidle0 : SendIdle (pipe_add_all (throttle_world 10) items) := by
    refine ⟨?_, ?_, ?_, ?_, ?_, ?_⟩ <;> rw [hc0]
    · rfl
    · rfl
    · rfl
    · rfl
    · rfl
    · intro e he
      cases he
  have hT0 : ack_threshold (pipe_add_all (throttle_world 10) items) = 20 := by
    simp only [ack_threshold, hc0]
    decide
  have hmw0 : (pipe_add_all (throttle_world 10) items).client.ack_data.messages_window = 0 := by
    rw [hc0]
    rfl
  obtain ⟨w1, hpush1, hidle1, hacks1, hrcc1, hds1, hpipe1, hsent1, hack1⟩ :=
    push_throttle cls hcls items (pipe_add_all (throttle_world 10) items) hidle0
      (ha0.trans rfl) (hr0.trans rfl) (by rw [hc0]; rfl) hpipe0 hty (by rw [hmw0]; omega)
  rw [hT0, hmw0] at hpipe1 hsent1 hack1
  have hs0 : sent_items (throttle_world 10).trace = [] := rfl
  rw [ht0, hs0] at hsent1
  simp only [Nat.sub_zero, Nat.zero_add, Nat.reduceAdd, List.nil_append] at hpipe1 hsent1 hack1
  have hmin : min items.length 21 = 21 := by omega
  rw [hmin, hc0] at hack1
  have hmw1 : w1.client.ack_data.messages_window = 21 := by rw [hack1]
  have hgen1 : w1.client.ack_data.generation = 0 := by rw [hack1]; rfl
  have hcw1 : w1.client.ack_data.client_window = 10 := by rw [hack1]; rfl
  -- ACK_SYNC
  obtain ⟨w2, hw2⟩ : ∃ w2 : World, w2 = { w1 with client.ack_data.client_generation := 0 } :=
    ⟨_, rfl⟩
  have hsync : red_channel_client_handle_message cls w1 4 SPICE_MSGC_ACK_SYNC
      (le_encode 4 w1.client.ack_data.generation) = some (true, w2) := by
    rw [hgen1, hw2]
    have hd : le_decode ((le_encode 4 0).take 4) = 0 := by decide
    simp [red_channel_client_handle_message, SPICE_MSGC_ACK_SYNC, hd]
  have hgen2 : w2.client.ack_data.client_generation = w2.client.ack_data.generation := by
    rw [hw2]
    exact hgen1.symm
  -- ACK
  have hsub : (ack_subtract w2).client.ack_data.messages_window = 11 := by
    rw [hw2]
    simp only [ack_subtract, hmw1, hcw1, U32_eq]
  have hidle2 : SendIdle (ack_subtract w2) := by
    rw [hw2]
    exact ⟨hidle1.blocked, hidle1.size, hidle1.item, hidle1.opos, hidle1.osize, hidle1.wr⟩
  have hT2 : ack_threshold (ack_subtract w2) = 20 := by
    rw [hw2]
    simp only [ack_threshold, ack_subtract, hcw1]
    decide
  obtain ⟨w3, hpush3, _, _, _, _, hpipe3, hsent3, hack3⟩ :=
    push_throttle cls hcls (items.drop 21) (ack_subtract w2) hidle2
      (by rw [hw2]; exact hacks1) (by rw [hw2]; exact hrcc1) (by rw [hw2]; exact hds1)
      (by rw [hw2]; exact hpipe1) (fun x hx => hty x (List.mem_of_mem_drop hx))
      (by rw [hsub, hT2]; omega)
  rw [hT2, hsub] at hpipe3 hsent3 hack3
  have htr2 : (ack_subtract w2).trace = w1.trace := by rw [hw2]; rfl
  rw [htr2, hsent1] at hsent3
  simp only [List.length_drop, List.drop_drop, Nat.reduceAdd, Nat.reduceSub]
    at hpipe3 hack3 hsent3
  have hack : red_channel_client_handle_message cls w2 0 SPICE_MSGC_ACK [] = some (true, w3) := by
    rw [handle_message_ack cls w2 0 [] hgen2, hpush3]
    rfl
  have hlen3 : (sent_items w3.trace).length = 21 + min (items.length - 21) 10 := by
    rw [hsent3]
    simp only [List.length_append, List.length_take, List.length_drop]
    omega
  refine ⟨w1, w2, w3, ?_, hsent1, hmw1, hpipe1, hsync, hgen2, hsub, hack, hsent3, hlen3, ?_,
    ?_, ?_⟩
  · simp only [red_channel_push, hr0.trans rfl, Bool.not_true, Bool.false_eq_true, if_false]
    exact hpush1
  · intro h31
    rw [hlen3, hsent1, List.length_take]
    omega
  · rw [hpipe3]
  · rw [hack3]

/-- C3 at the scenario of the spec: 30 items enqueued, 21 sent before the
stall, and the 9 items left sent after `ACK_SYNC` and `ACK`, which leaves the
pipe empty and `messages_window = 20`. -/
theorem ack_credit_witness :
    ∃ w1 w2 w3,
      red_channel_push scenario_cls (pipe_add_all (throttle_world 10) (scenario_items 30))
        = some w1 ∧
      sent_items w1.trace = scenario_items 21 ∧
      red_channel_client_handle_message scenario_cls w1 4 SPICE_MSGC_ACK_SYNC
          (le_encode 4 w1.client.ack_data.generation) = some (true, w2) ∧
      red_channel_client_handle_message scenario_cls w2 0 SPICE_MSGC_ACK [] = some (true, w3) ∧
      sent_items w3.trace = scenario_items 30 ∧
      w3.channel.pipe = [] ∧
      w3.client.ack_data.messages_window = 20 := by
  obtain ⟨w1, w2, w3, h1, h2, _, _, h5, _, _, h8, h9, _, _, h12, h13⟩ :=
    ack_credit scenario_cls (fun item => by simp [scenario_cls]) (scenario_items 30) (by decide)
      (by decide)
  exact ⟨w1, w2, w3, h1, by rw [h2]; decide, h5, h8, by rw [h9]; decide, by rw [h12]; decide,
    by rw [h13]; decide⟩

end Spice
